import Mathlib

/-!
# Verification of the nanopolish profile-HMM core
  (src/src/hmm/nanopolish_profile_hmm.inl)

The C++ source computes with log-domain `float` values (log-probabilities,
with `-INFINITY` marking probability zero).  This development embeds those
values exactly, replacing floating point by exact rational arithmetic:

* a log-domain value is represented by its underlying probability
  (conceptually `exp` of the float), a rational number — field `prob`;
* the float constant `-INFINITY` is represented by probability `0`;
* `log p` (the log-transform of a probability) is represented by `p` itself;
* float `+` on log-domain values (multiplication of probabilities) is
  represented by `*` on `prob`;
* `add_logs a b = log (exp a + exp b)` (the numerically-stable log-domain
  sum of the source's support code) is represented by `+` on `prob`;
* `std::max` and `<`/`>`/`==` on log-domain floats are represented by
  `max`, `<`, `=` on `prob`, which is faithful because `exp` is strictly
  monotone.

External collaborators that the source file calls but that are not part of
the analyzed source (`get_rank`, the pore-model lookup, `get_skip_probability`,
`log_probability_match`, `log_probability_event_insert`,
`log_probability_background`) are modelled as opaque function-valued fields
of the input bundle, as the specification describes them (§1, §3, §4.1).
-/

set_option allowUnsafeReducibility true in
attribute [semireducible] Rat.add Rat.mul Rat.sub Rat.inv

namespace Nanopolish

/-- A log-domain `float` value, represented exactly by its underlying
probability (`exp` of the log value).  `-INFINITY` is `⟨0⟩`. -/
structure LogF where
  prob : ℚ
deriving DecidableEq

/-- The float constant `-INFINITY` (probability zero). -/
def LogF.negInf : LogF := ⟨0⟩

/-- The log transform `log p` applied to a probability `p`, represented by
the probability itself.  `log 0 = -∞` is `⟨0⟩ = LogF.negInf`. -/
def log (p : ℚ) : LogF := ⟨p⟩

/-- Float `+` of two log-domain values = product of the probabilities. -/
instance : Add LogF := ⟨fun a b => ⟨a.prob * b.prob⟩⟩

/-- `add_logs` — the numerically-stable log-domain sum `log (exp a + exp b)`
used by the Forward strategy (modelled from the spec §4.5 / glossary:
"Log-sum-exp (stable log-domain sum)"; its implementation is support code
outside the analyzed source).  In the probability representation it is
exact addition. -/
def add_logs (a b : LogF) : LogF := ⟨a.prob + b.prob⟩

instance : LE LogF := ⟨fun a b => a.prob ≤ b.prob⟩

instance : LT LogF := ⟨fun a b => a.prob < b.prob⟩

instance (a b : LogF) : Decidable (a ≤ b) :=
  inferInstanceAs (Decidable (a.prob ≤ b.prob))

instance (a b : LogF) : Decidable (a < b) :=
  inferInstanceAs (Decidable (a.prob < b.prob))

/-- `std::max` on log-domain floats = `max` of the probabilities. -/
def LogF.max (a b : LogF) : LogF := ⟨Max.max a.prob b.prob⟩

/-- `FloatMatrix`: caller-allocated lattice storage (spec §3: rows ×
columns numeric matrix).  The flat buffer with `(row, col)` addressing is
modelled as a function. -/
structure FloatMatrix where
  n_rows : ℕ
  n_cols : ℕ
  data : ℕ → ℕ → LogF

/-- `set(matrix, row, col, v)` for the lattice. -/
def FloatMatrix.set (m : FloatMatrix) (row col : ℕ) (v : LogF) : FloatMatrix :=
  { m with data := fun r c => if r = row ∧ c = col then v else m.data r c }

/-- `get(matrix, row, col)` for the lattice. -/
def FloatMatrix.get (m : FloatMatrix) (row col : ℕ) : LogF := m.data row col

/-- `UInt8Matrix`: the Viterbi backtrace matrix (one byte per cell,
bytes represented as `ℕ` below `256`). -/
structure UInt8Matrix where
  n_rows : ℕ
  n_cols : ℕ
  data : ℕ → ℕ → ℕ

/-- `set` for the backtrace matrix. -/
def UInt8Matrix.set (m : UInt8Matrix) (row col : ℕ) (v : ℕ) : UInt8Matrix :=
  { m with data := fun r c => if r = row ∧ c = col then v else m.data r c }

/-- Per-block state indices (modelled from the spec §6: "within a block,
state 0 = Match, state 1 = EventSplit, state 2 = KmerSkip"; the enum header
is not part of the analyzed source). -/
def PS_MATCH : ℕ := 0

/-- State 1 of a block: EventSplit. -/
def PS_EVENT_SPLIT : ℕ := 1

/-- State 2 of a block: KmerSkip. -/
def PS_KMER_SKIP : ℕ := 2

/-- Number of live states per block. -/
def PS_NUM_STATES : ℕ := 3

/-- The local-entry ("soft clip") backtrace tag.  Modelled from the spec:
its numeric value is not fixed by the spec; all that matters is that it is
distinct from the three in-block state tags. -/
def PS_PRE_SOFT : ℕ := 4

/-- `KHMMParameters` — the fixed model-wide transition-parameter set
(modelled from the spec §4.2/§4.3/§6; the struct's definition is outside
the analyzed source, only these four fields are read by it). -/
structure KHMMParameters where
  trans_m_to_e_not_k : ℚ
  trans_e_to_e : ℚ
  trans_start_to_pre : ℚ
  trans_pre_self : ℚ

/-- `HMMInputData` — the input bundle (spec §6).  The external
collaborators reached through `data.read` / `data.strand` are modelled as
opaque functions (spec §1 "out of scope external collaborators"); the
strand/read indirections are pre-applied since one invocation uses a single
strand of a single read:

* `get_rank sequence ki` models `get_rank(data, sequence, ki)`;
* `get_scaled_mean r` models `pm.get_scaled_parameters(r).mean`;
* `get_skip_probability m₁ m₂` models `get_skip_probability(parameters, m₁, m₂)`;
* `lp_match r e` models `log_probability_match(*data.read, r, e, data.strand)`;
* `lp_event_insert r e` models `log_probability_event_insert(...)`;
* `lp_background e` models `log_probability_background(*data.read, e, data.strand)`. -/
structure HMMInputData where
  event_stride : ℤ
  event_stop_idx : ℕ
  parameters : KHMMParameters
  get_rank : List Char → ℕ → ℕ
  get_scaled_mean : ℕ → ℚ
  get_skip_probability : ℚ → ℚ → ℚ
  lp_match : ℕ → ℕ → LogF
  lp_event_insert : ℕ → ℕ → LogF
  lp_background : ℕ → LogF

/-- `calculate_skip_probability(sequence, data, ki, kj)`: look up the two
ranks' scaled expected levels and ask the external estimator (source
lines 8–23). -/
def calculate_skip_probability (sequence : List Char) (data : HMMInputData)
    (ki kj : ℕ) : ℚ :=
  data.get_skip_probability
    (data.get_scaled_mean (data.get_rank sequence ki))
    (data.get_scaled_mean (data.get_rank sequence kj))

/-- `BlockTransitions`: the seven log-transition-probabilities of one block
(source stores their logs; in this representation the stored `LogF` carries
the pre-log probability in its `prob` field). -/
structure BlockTransitions where
  lp_me : LogF
  lp_mk : LogF
  lp_mm : LogF
  lp_ee : LogF
  lp_em : LogF
  lp_kk : LogF
  lp_km : LogF
deriving DecidableEq

instance : Inhabited BlockTransitions :=
  ⟨⟨LogF.negInf, LogF.negInf, LogF.negInf, LogF.negInf, LogF.negInf,
    LogF.negInf, LogF.negInf⟩⟩

/-- `calculate_transitions(num_kmers, sequence, data)` (source lines
25–66): one `BlockTransitions` record per kmer block, with block 0 using
skip probability `0`. -/
def calculate_transitions (num_kmers : ℕ) (sequence : List Char)
    (data : HMMInputData) : List BlockTransitions :=
  (List.range num_kmers).map fun ki =>
    let p_skip : ℚ :=
      if ki > 0 then calculate_skip_probability sequence data (ki - 1) ki else 0
    let p_mk : ℚ := p_skip
    let p_me : ℚ := (1 - p_skip) * data.parameters.trans_m_to_e_not_k
    let p_mm : ℚ := 1 - p_me - p_mk
    let p_ee : ℚ := data.parameters.trans_e_to_e
    let p_em : ℚ := 1 - p_ee
    let p_kk : ℚ := p_skip
    let p_km : ℚ := 1 - p_skip
    { lp_me := log p_me, lp_mk := log p_mk, lp_mm := log p_mm,
      lp_ee := log p_ee, lp_em := log p_em,
      lp_kk := log p_kk, lp_km := log p_km }

/-- The event-index computation `e_start + k * data.event_stride` performed
in `uint32_t` arithmetic (wrap-around modulo `2^32`; the stride is the
signed ±1 of the event window). -/
def eventIdx (e_start : ℕ) (k : ℕ) (stride : ℤ) : ℕ :=
  (((e_start : ℤ) + (k : ℤ) * stride) % (2 ^ 32)).toNat

/-- `uint32_t` subtraction (wrap-around modulo `2^32`), used for the
`num_events - 1` / `num_events - 2` index computations. -/
def u32sub (a b : ℕ) : ℕ := (((a : ℤ) - (b : ℤ)) % (2 ^ 32)).toNat

/-- A bounds-checked `std::vector` write: `none` models undefined behaviour
(out-of-bounds access), which the spec treats as a fatal precondition
violation (§7). -/
def checkedSet (v : List LogF) (i : ℕ) (x : LogF) : Option (List LogF) :=
  if i < v.length then some (v.set i x) else none

/-- A bounds-checked `std::vector` read. -/
def checkedGet (v : List LogF) (i : ℕ) : Option LogF := v[i]?

/-- The ascending loop of `make_pre_flanking` (source lines 214–220):
`for (i = 2; i < pre_flank.size(); ++i)` writing
`pre_flank[i] = log(trans_pre_self) + bg(event_idx) + pre_flank[i-1]`.
`fuel` is the number of remaining iterations, `i` the current index. -/
def preLoop (data : HMMInputData) (parameters : KHMMParameters)
    (e_start : ℕ) : ℕ → ℕ → List LogF → Option (List LogF)
  | 0, _, v => some v
  | fuel + 1, i, v =>
    let event_idx := eventIdx e_start (i - 1) data.event_stride
    match checkedGet v (i - 1) with
    | none => none
    | some prev =>
      match checkedSet v i
          (log parameters.trans_pre_self + data.lp_background event_idx + prev) with
      | none => none
      | some v' => preLoop data parameters e_start fuel (i + 1) v'

/-- `make_pre_flanking(data, parameters, e_start, num_events)` (source
lines 195–223): the vector of log-probabilities of skipping the first `i`
events as background.  Vector accesses are bounds-checked; `none` models
the out-of-bounds write of `pre_flank[1]` that the source performs when
the event window is empty. -/
def make_pre_flanking (data : HMMInputData) (parameters : KHMMParameters)
    (e_start : ℕ) (num_events : ℕ) : Option (List LogF) :=
  let pre_flank : List LogF := List.replicate (num_events + 1) ⟨1⟩
  match checkedSet pre_flank 0 (log parameters.trans_start_to_pre) with
  | none => none
  | some v0 =>
    match checkedSet v0 1
        (log (1 - parameters.trans_start_to_pre) +
         data.lp_background e_start +
         log (1 - parameters.trans_pre_self)) with
    | none => none
    | some v1 => preLoop data parameters e_start (num_events + 1 - 2) 2 v1

/-- The descending loop of `make_post_flanking` (source lines 248–253):
`for (int i = num_events - 3; i >= 0; --i)` writing
`post_flank[i] = log(trans_pre_self) + bg(event_idx(i+1)) + post_flank[i+1]`. -/
def postLoop (data : HMMInputData) (parameters : KHMMParameters)
    (e_start : ℕ) : ℕ → List LogF → Option (List LogF)
  | i, v =>
    let event_idx := eventIdx e_start (i + 1) data.event_stride
    match checkedGet v (i + 1) with
    | none => none
    | some next =>
      match checkedSet v i
          (log parameters.trans_pre_self + data.lp_background event_idx + next) with
      | none => none
      | some v' =>
        match i with
        | 0 => some v'
        | j + 1 => postLoop data parameters e_start j v'

/-- `make_post_flanking(data, parameters, e_start, num_events)` (source
lines 227–255): `post_flank[i]` is the log-probability that event `i` was
the last aligned one and the remaining events are background.  The source's
`assert(event_idx == data.event_stop_idx)` and its unchecked vector writes
at `num_events - 1` and `num_events - 2` (`uint32_t` arithmetic) are
modelled by `none` on failure. -/
def make_post_flanking (data : HMMInputData) (parameters : KHMMParameters)
    (e_start : ℕ) (num_events : ℕ) : Option (List LogF) :=
  let post_flank : List LogF := List.replicate num_events ⟨1⟩
  match checkedSet post_flank (u32sub num_events 1)
      (log parameters.trans_start_to_pre) with
  | none => none
  | some v1 =>
    let event_idx := eventIdx e_start (u32sub num_events 1) data.event_stride
    if event_idx = data.event_stop_idx then
      match checkedSet v1 (u32sub num_events 2)
          (log (1 - parameters.trans_start_to_pre) +
           data.lp_background event_idx +
           log (1 - parameters.trans_pre_self)) with
      | none => none
      | some v2 =>
        if 3 ≤ num_events then postLoop data parameters e_start (num_events - 3) v2
        else some v2
    else none

/-- Closed form of the pre-flank vector: `preVal i` is the value stored at
`pre_flank[i]` by `make_pre_flanking`. -/
def preVal (data : HMMInputData) (parameters : KHMMParameters)
    (e_start : ℕ) : ℕ → LogF
  | 0 => log parameters.trans_start_to_pre
  | 1 =>
    log (1 - parameters.trans_start_to_pre) +
      data.lp_background e_start +
      log (1 - parameters.trans_pre_self)
  | i + 2 =>
    log parameters.trans_pre_self +
      data.lp_background (eventIdx e_start (i + 1) data.event_stride) +
      preVal data parameters e_start (i + 1)

/-- Closed form of the post-flank vector, indexed by the distance `j` from
the last index: `postValG j` is the value stored at
`post_flank[num_events - 1 - j]`. -/
def postValG (data : HMMInputData) (parameters : KHMMParameters)
    (e_start num_events : ℕ) : ℕ → LogF
  | 0 => log parameters.trans_start_to_pre
  | 1 =>
    log (1 - parameters.trans_start_to_pre) +
      data.lp_background
        (eventIdx e_start (num_events - 1) data.event_stride) +
      log (1 - parameters.trans_pre_self)
  | j + 2 =>
    log parameters.trans_pre_self +
      data.lp_background
        (eventIdx e_start (num_events - (j + 2)) data.event_stride) +
      postValG data parameters e_start num_events (j + 1)

/-- A concrete input bundle used to instantiate hypothesis-bearing
theorems: probability-valued parameters, unit stride, two events. -/
def sampleData : HMMInputData where
  event_stride := 1
  event_stop_idx := 1
  parameters := ⟨1/2, 1/3, 1/2, 1/2⟩
  get_rank := fun _ k => k
  get_scaled_mean := fun r => r
  get_skip_probability := fun _ _ => 1/4
  lp_match := fun _ _ => ⟨1/2⟩
  lp_event_insert := fun _ _ => ⟨1/3⟩
  lp_background := fun _ => ⟨1/2⟩

/-- A sample bundle with a 4-event window (`event_stop_idx = 3`), used to
instantiate the flank monotonicity theorem. -/
def sampleData4 : HMMInputData := { sampleData with event_stop_idx := 3 }

/-- A bundle on which the flank vectors are NOT monotone at the base-case
boundary: `trans_start_to_pre = 0`, `trans_pre_self = 0`, background
emission probability 1. -/
def flankCexData : HMMInputData where
  event_stride := 1
  event_stop_idx := 1
  parameters := ⟨0, 0, 0, 0⟩
  get_rank := fun _ k => k
  get_scaled_mean := fun _ => 0
  get_skip_probability := fun _ _ => 0
  lp_match := fun _ _ => ⟨1⟩
  lp_event_insert := fun _ _ => ⟨1⟩
  lp_background := fun _ => ⟨1⟩

/-- State of the Forward-algorithm output writer (source lines 69–115):
a lattice reference plus the accumulated end log-probability. -/
structure ProfileHMMForwardOutput where
  p_fm : FloatMatrix
  lp_end : LogF

/-- Forward `update_4` (source lines 75–81): stable log-domain sum of the
four predecessor values plus the emission term, stored at `(row, col)`. -/
def ProfileHMMForwardOutput.update_4 (o : ProfileHMMForwardOutput)
    (row col : ℕ) (m e k s lp_emission : LogF) : ProfileHMMForwardOutput :=
  let sum_1 := add_logs m e
  let sum_2 := add_logs k s
  let sum := add_logs sum_1 sum_2 + lp_emission
  { o with p_fm := o.p_fm.set row col sum }

/-- Forward `update_end` (source lines 84–87): log-domain accumulation of a
candidate end score. -/
def ProfileHMMForwardOutput.update_end (o : ProfileHMMForwardOutput)
    (v : LogF) (_row _col : ℕ) : ProfileHMMForwardOutput :=
  { o with lp_end := add_logs o.lp_end v }

/-- Forward `get` (source lines 90–93). -/
def ProfileHMMForwardOutput.get (o : ProfileHMMForwardOutput)
    (row col : ℕ) : LogF := o.p_fm.get row col

/-- Forward `get_end` (source lines 96–99). -/
def ProfileHMMForwardOutput.get_end (o : ProfileHMMForwardOutput) : LogF :=
  o.lp_end

/-- The Forward output constructor `ProfileHMMForwardOutput(p)` (source
line 72): `lp_end` starts at `-INFINITY`. -/
def mkForwardOutput (p : FloatMatrix) : ProfileHMMForwardOutput :=
  ⟨p, LogF.negInf⟩

/-- State of the Viterbi output writer (source lines 118–192): lattice,
backtrace matrix, best end score and its cell.  `end_row`/`end_col` are
uninitialized in the C++ constructor, so the constructor below takes their
initial (garbage) values as parameters. -/
structure ProfileHMMViterbiOutput where
  p_fm : FloatMatrix
  p_bm : UInt8Matrix
  lp_end : LogF
  end_row : ℕ
  end_col : ℕ

/-- Viterbi `update_4` (source lines 123–142): maximum of the four inputs
plus the emission term, and the backtrace tag of the first branch (in the
order m, e, k, s) achieving the maximum.  The source's final branch is
`else if (max == s)` with no fallback; since the maximum always equals one
of the four inputs, the unconditional `else` below is equivalent. -/
def ProfileHMMViterbiOutput.update_4 (o : ProfileHMMViterbiOutput)
    (row col : ℕ) (m e k s lp_emission : LogF) : ProfileHMMViterbiOutput :=
  let mx := LogF.max (LogF.max m e) (LogF.max k s)
  let o1 := { o with p_fm := o.p_fm.set row col (mx + lp_emission) }
  let from_ : ℕ :=
    if mx = m then PS_MATCH
    else if mx = e then PS_EVENT_SPLIT
    else if mx = k then PS_KMER_SKIP
    else PS_PRE_SOFT
  { o1 with p_bm := o1.p_bm.set row col from_ }

/-- Viterbi `update_end` (source lines 145–152): strict improvement only. -/
def ProfileHMMViterbiOutput.update_end (o : ProfileHMMViterbiOutput)
    (v : LogF) (row col : ℕ) : ProfileHMMViterbiOutput :=
  if v > o.lp_end then
    { o with lp_end := v, end_row := row, end_col := col }
  else o

/-- Viterbi `get` (source lines 155–158). -/
def ProfileHMMViterbiOutput.get (o : ProfileHMMViterbiOutput)
    (row col : ℕ) : LogF := o.p_fm.get row col

/-- Viterbi `get_end` (source lines 161–164). -/
def ProfileHMMViterbiOutput.get_end (o : ProfileHMMViterbiOutput) : LogF :=
  o.lp_end

/-- The Viterbi output constructor `ProfileHMMViterbiOutput(pf, pb)`
(source line 121): `lp_end` starts at `-INFINITY`; `end_row`/`end_col`
are left uninitialized and are modelled as arbitrary inputs. -/
def mkViterbiOutput (pf : FloatMatrix) (pb : UInt8Matrix)
    (end_row₀ end_col₀ : ℕ) : ProfileHMMViterbiOutput :=
  ⟨pf, pb, LogF.negInf, end_row₀, end_col₀⟩

/-- The interface of the templated `ProfileHMMOutput` parameter of the fill
engines (spec §4.5): the five operations plus the shape accessors, over an
abstract state type `σ`. -/
structure ProfileHMMOutput (σ : Type) where
  update_4 : σ → ℕ → ℕ → LogF → LogF → LogF → LogF → LogF → σ
  update_end : σ → LogF → ℕ → ℕ → σ
  get : σ → ℕ → ℕ → LogF
  get_end : σ → LogF
  get_num_columns : σ → ℕ
  get_num_rows : σ → ℕ

/-- The Forward strategy as a `ProfileHMMOutput` instance. -/
def forwardOutput : ProfileHMMOutput ProfileHMMForwardOutput where
  update_4 := ProfileHMMForwardOutput.update_4
  update_end := ProfileHMMForwardOutput.update_end
  get := ProfileHMMForwardOutput.get
  get_end := ProfileHMMForwardOutput.get_end
  get_num_columns := fun o => o.p_fm.n_cols
  get_num_rows := fun o => o.p_fm.n_rows

/-- The Viterbi strategy as a `ProfileHMMOutput` instance. -/
def viterbiOutput : ProfileHMMOutput ProfileHMMViterbiOutput where
  update_4 := ProfileHMMViterbiOutput.update_4
  update_end := ProfileHMMViterbiOutput.update_end
  get := ProfileHMMViterbiOutput.get
  get_end := ProfileHMMViterbiOutput.get_end
  get_num_columns := fun o => o.p_fm.n_cols
  get_num_rows := fun o => o.p_fm.n_rows

/-- An ascending `for (idx = 1; idx <= n; ++idx)` loop over a state:
`forUpTo f n s` applies `f` at indices `1, 2, …, n` in that order.
Both fill engines iterate rows `1 ≤ row < num_rows` and blocks
`1 ≤ block < num_blocks - 1` this way. -/
def forUpTo {σ : Type} (f : ℕ → σ → σ) : ℕ → σ → σ
  | 0, s => s
  | n + 1, s => f (n + 1) (forUpTo f n s)

/-- Body of the per-block iteration of `profile_hmm_fill_generic_local`
(source lines 299–377, one iteration of the inner `block` loop): the three
`update_4` calls for the Match / EventSplit / KmerSkip states of the
current block and, when the block is the final kmer's, the three
`update_end` calls folding the end transition.  Unchecked vector reads
(`transitions[kmer_idx]`, `kmer_ranks[kmer_idx]`, `post_flank[row-1]`),
which are always in bounds for well-shaped lattices, are modelled with
default-valued lookups. -/
def fillBlockLocal {σ : Type} (O : ProfileHMMOutput σ) (data : HMMInputData)
    (transitions : List BlockTransitions) (kmer_ranks : List ℕ)
    (post_flank : List LogF) (lp_ms : LogF) (last_kmer_idx : ℕ)
    (e_start : ℕ) (row : ℕ) (block : ℕ) (s : σ) : σ :=
  let kmer_idx := block - 1
  let bt := transitions.getD kmer_idx default
  let prev_block := block - 1
  let prev_block_offset := PS_NUM_STATES * prev_block
  let curr_block_offset := PS_NUM_STATES * block
  let event_idx := eventIdx e_start (row - 1) data.event_stride
  let rank := kmer_ranks.getD kmer_idx 0
  let lp_emission_m := data.lp_match rank event_idx
  let lp_emission_e := data.lp_event_insert rank event_idx
  let m_m := bt.lp_mm + O.get s (row - 1) (prev_block_offset + PS_MATCH)
  let m_e := bt.lp_em + O.get s (row - 1) (prev_block_offset + PS_EVENT_SPLIT)
  let m_k := bt.lp_km + O.get s (row - 1) (prev_block_offset + PS_KMER_SKIP)
  -- "Only allow skips then entry to the first k-mer": the local-entry
  -- contribution is permanently disabled in the source (line 322).
  let m_s := LogF.negInf
  let s1 := O.update_4 s row (curr_block_offset + PS_MATCH) m_m m_e m_k m_s lp_emission_m
  let e_m := bt.lp_me + O.get s1 (row - 1) (curr_block_offset + PS_MATCH)
  let e_e := bt.lp_ee + O.get s1 (row - 1) (curr_block_offset + PS_EVENT_SPLIT)
  let s2 := O.update_4 s1 row (curr_block_offset + PS_EVENT_SPLIT) e_m e_e
    LogF.negInf LogF.negInf lp_emission_e
  let k_m := bt.lp_mk + O.get s2 row (prev_block_offset + PS_MATCH)
  let k_k := bt.lp_kk + O.get s2 row (prev_block_offset + PS_KMER_SKIP)
  -- the kmer-skip state has no emission: the `0.0f` emission term is the
  -- log-domain zero, probability 1
  let s3 := O.update_4 s2 row (curr_block_offset + PS_KMER_SKIP) k_m
    LogF.negInf k_k LogF.negInf (log 1)
  if kmer_idx = last_kmer_idx then
    let postv := post_flank.getD (row - 1) LogF.negInf
    let lp1 := lp_ms + O.get s3 row (curr_block_offset + PS_MATCH) + postv
    let lp2 := lp_ms + O.get s3 row (curr_block_offset + PS_EVENT_SPLIT) + postv
    let lp3 := lp_ms + O.get s3 row (curr_block_offset + PS_KMER_SKIP) + postv
    let s4 := O.update_end s3 lp1 row (curr_block_offset + PS_MATCH)
    let s5 := O.update_end s4 lp2 row (curr_block_offset + PS_EVENT_SPLIT)
    O.update_end s5 lp3 row (curr_block_offset + PS_KMER_SKIP)
  else s3

/-- The local block body generalized over the match state's fourth
(local-entry) input, which becomes `entry row`.  Modelled from the spec:
the design keeps a slot for a per-row local-alignment entry contribution
(`lp_sm + pre_flank[row-1]`, present only as a comment at source line
321), and the shipped code passes `-INFINITY` in that slot.
`fillBlockLocal` coincides with this body at `entry := fun _ => -∞`. -/
def fillBlockLocalEntry {σ : Type} (O : ProfileHMMOutput σ)
    (data : HMMInputData) (transitions : List BlockTransitions)
    (kmer_ranks : List ℕ) (post_flank : List LogF) (lp_ms : LogF)
    (last_kmer_idx : ℕ) (e_start : ℕ) (entry : ℕ → LogF)
    (row : ℕ) (block : ℕ) (s : σ) : σ :=
  let kmer_idx := block - 1
  let bt := transitions.getD kmer_idx default
  let prev_block := block - 1
  let prev_block_offset := PS_NUM_STATES * prev_block
  let curr_block_offset := PS_NUM_STATES * block
  let event_idx := eventIdx e_start (row - 1) data.event_stride
  let rank := kmer_ranks.getD kmer_idx 0
  let lp_emission_m := data.lp_match rank event_idx
  let lp_emission_e := data.lp_event_insert rank event_idx
  let m_m := bt.lp_mm + O.get s (row - 1) (prev_block_offset + PS_MATCH)
  let m_e := bt.lp_em + O.get s (row - 1) (prev_block_offset + PS_EVENT_SPLIT)
  let m_k := bt.lp_km + O.get s (row - 1) (prev_block_offset + PS_KMER_SKIP)
  let m_s := entry row
  let s1 := O.update_4 s row (curr_block_offset + PS_MATCH) m_m m_e m_k m_s lp_emission_m
  let e_m := bt.lp_me + O.get s1 (row - 1) (curr_block_offset + PS_MATCH)
  let e_e := bt.lp_ee + O.get s1 (row - 1) (curr_block_offset + PS_EVENT_SPLIT)
  let s2 := O.update_4 s1 row (curr_block_offset + PS_EVENT_SPLIT) e_m e_e
    LogF.negInf LogF.negInf lp_emission_e
  let k_m := bt.lp_mk + O.get s2 row (prev_block_offset + PS_MATCH)
  let k_k := bt.lp_kk + O.get s2 row (prev_block_offset + PS_KMER_SKIP)
  let s3 := O.update_4 s2 row (curr_block_offset + PS_KMER_SKIP) k_m
    LogF.negInf k_k LogF.negInf (log 1)
  if kmer_idx = last_kmer_idx then
    let postv := post_flank.getD (row - 1) LogF.negInf
    let lp1 := lp_ms + O.get s3 row (curr_block_offset + PS_MATCH) + postv
    let lp2 := lp_ms + O.get s3 row (curr_block_offset + PS_EVENT_SPLIT) + postv
    let lp3 := lp_ms + O.get s3 row (curr_block_offset + PS_KMER_SKIP) + postv
    let s4 := O.update_end s3 lp1 row (curr_block_offset + PS_MATCH)
    let s5 := O.update_end s4 lp2 row (curr_block_offset + PS_EVENT_SPLIT)
    O.update_end s5 lp3 row (curr_block_offset + PS_KMER_SKIP)
  else s3

/-- The double row/block sweep of the local fill engine (source lines
295–378), parameterized by the precomputed tables. -/
def localSweep {σ : Type} (O : ProfileHMMOutput σ) (data : HMMInputData)
    (transitions : List BlockTransitions) (kmer_ranks : List ℕ)
    (post_flank : List LogF) (lp_ms : LogF) (last_kmer_idx : ℕ)
    (e_start : ℕ) (num_rows num_blocks : ℕ) (s₀ : σ) : σ :=
  forUpTo
    (fun row s =>
      forUpTo
        (fun block s' =>
          fillBlockLocal O data transitions kmer_ranks post_flank lp_ms
            last_kmer_idx e_start row block s')
        (num_blocks - 2) s)
    (num_rows - 1) s₀

/-- `profile_hmm_fill_generic_local` (source lines 260–381): precompute the
transition table, kmer ranks and flank vectors, sweep the lattice, and
return the accumulated end score.  `none` models the flank builders'
precondition violations (assert failure / out-of-bounds access), which
abort the program.  The unused `lp_sm` of source line 291 (equal to
`lp_ms`) and the unused `pre_flank` vector are retained as computations. -/
def profile_hmm_fill_generic_local {σ : Type} (O : ProfileHMMOutput σ)
    (sequence : List Char) (data : HMMInputData) (e_start : ℕ)
    (output : σ) : Option (LogF × σ) :=
  let parameters := data.parameters
  let num_blocks := O.get_num_columns output / PS_NUM_STATES
  let num_kmers := num_blocks - 2
  let last_kmer_idx := num_kmers - 1
  let transitions := calculate_transitions num_kmers sequence data
  let kmer_ranks := (List.range num_kmers).map (data.get_rank sequence)
  let num_events := O.get_num_rows output - 1
  match make_pre_flanking data parameters e_start num_events with
  | none => none
  | some _pre_flank =>
    match make_post_flanking data parameters e_start num_events with
    | none => none
    | some post_flank =>
      let lp_ms := log (1 / (num_kmers : ℚ))
      let sF := localSweep O data transitions kmer_ranks post_flank lp_ms
        last_kmer_idx e_start (O.get_num_rows output) num_blocks output
      some (O.get_end sF, sF)

/-- Body of the per-block iteration of `profile_hmm_fill_generic_global`
(source lines 416–474): identical to the local body except that there are
no end-transition updates and the match state's fourth (local-entry) input
is the literal `-INFINITY` of source line 436. -/
def fillBlockGlobal {σ : Type} (O : ProfileHMMOutput σ) (data : HMMInputData)
    (transitions : List BlockTransitions) (kmer_ranks : List ℕ)
    (e_start : ℕ) (row : ℕ) (block : ℕ) (s : σ) : σ :=
  let kmer_idx := block - 1
  let bt := transitions.getD kmer_idx default
  let prev_block := block - 1
  let prev_block_offset := PS_NUM_STATES * prev_block
  let curr_block_offset := PS_NUM_STATES * block
  let event_idx := eventIdx e_start (row - 1) data.event_stride
  let rank := kmer_ranks.getD kmer_idx 0
  let lp_emission_m := data.lp_match rank event_idx
  let lp_emission_e := data.lp_event_insert rank event_idx
  let m_m := bt.lp_mm + O.get s (row - 1) (prev_block_offset + PS_MATCH)
  let m_e := bt.lp_em + O.get s (row - 1) (prev_block_offset + PS_EVENT_SPLIT)
  let m_k := bt.lp_km + O.get s (row - 1) (prev_block_offset + PS_KMER_SKIP)
  let s1 := O.update_4 s row (curr_block_offset + PS_MATCH) m_m m_e m_k
    LogF.negInf lp_emission_m
  let e_m := bt.lp_me + O.get s1 (row - 1) (curr_block_offset + PS_MATCH)
  let e_e := bt.lp_ee + O.get s1 (row - 1) (curr_block_offset + PS_EVENT_SPLIT)
  let s2 := O.update_4 s1 row (curr_block_offset + PS_EVENT_SPLIT) e_m e_e
    LogF.negInf LogF.negInf lp_emission_e
  let k_m := bt.lp_mk + O.get s2 row (prev_block_offset + PS_MATCH)
  let k_k := bt.lp_kk + O.get s2 row (prev_block_offset + PS_KMER_SKIP)
  O.update_4 s2 row (curr_block_offset + PS_KMER_SKIP) k_m
    LogF.negInf k_k LogF.negInf (log 1)

/-- The double row/block sweep of the global fill engine (source lines
412–475). -/
def globalSweep {σ : Type} (O : ProfileHMMOutput σ) (data : HMMInputData)
    (transitions : List BlockTransitions) (kmer_ranks : List ℕ)
    (e_start : ℕ) (num_rows num_blocks : ℕ) (s₀ : σ) : σ :=
  forUpTo
    (fun row s =>
      forUpTo
        (fun block s' =>
          fillBlockGlobal O data transitions kmer_ranks e_start row block s')
        (num_blocks - 2) s)
    (num_rows - 1) s₀

/-- `profile_hmm_fill_generic_global` (source lines 386–482): sweep the
lattice, then perform the single end update with the value at the last
event row and the match state of the last aligned block. -/
def profile_hmm_fill_generic_global {σ : Type} (O : ProfileHMMOutput σ)
    (sequence : List Char) (data : HMMInputData) (e_start : ℕ)
    (output : σ) : LogF × σ :=
  let num_blocks := O.get_num_columns output / PS_NUM_STATES
  let num_kmers := num_blocks - 2
  let transitions := calculate_transitions num_kmers sequence data
  let kmer_ranks := (List.range num_kmers).map (data.get_rank sequence)
  let sF := globalSweep O data transitions kmer_ranks e_start
    (O.get_num_rows output) num_blocks output
  let last_event_row := O.get_num_rows output - 1
  let last_aligned_block := num_blocks - 2
  let match_state_last_block := PS_NUM_STATES * last_aligned_block + PS_MATCH
  let sE := O.update_end sF (O.get sF last_event_row match_state_last_block)
    last_event_row match_state_last_block
  (O.get_end sE, sE)

/-- `profile_hmm_fill_generic` (source lines 484–491): an alias for the
local variant. -/
def profile_hmm_fill_generic {σ : Type} (O : ProfileHMMOutput σ)
    (sequence : List Char) (data : HMMInputData) (e_start : ℕ)
    (output : σ) : Option (LogF × σ) :=
  profile_hmm_fill_generic_local O sequence data e_start output

/-- The maximum of a multiset of rationals, with `0` for the empty multiset
(the log-domain `-∞`).  This is the Viterbi analogue of `Multiset.sum`. -/
def msup (s : Multiset ℚ) : ℚ := Multiset.foldr Max.max 0 s

/-- The weights of all alignment paths that reach state `st` of block `b`
at lattice row `row`, for the local/global fill recursion (spec §4.4):
each path starts at an initial-cell value (sentinel row 0, sentinel block
0, or any cell outside the filled region) and moves through match /
event-split / kmer-skip steps, multiplying the traversed transition and
emission probabilities.  The first argument is recursion fuel; with fuel
`≥ row + b + 1` the value is fuel-independent. -/
def pathsF (data : HMMInputData) (transitions : List BlockTransitions)
    (kmer_ranks : List ℕ) (e_start num_rows num_blocks : ℕ)
    (init : ℕ → ℕ → LogF) : ℕ → ℕ → ℕ → ℕ → Multiset ℚ
  | 0, row, b, st => {(init row (PS_NUM_STATES * b + st)).prob}
  | fuel + 1, row, b, st =>
    if 1 ≤ row ∧ row ≤ num_rows - 1 ∧ 1 ≤ b ∧ b ≤ num_blocks - 2 then
      let bt := transitions.getD (b - 1) default
      let event_idx := eventIdx e_start (row - 1) data.event_stride
      let rank := kmer_ranks.getD (b - 1) 0
      if st = PS_MATCH then
        ((pathsF data transitions kmer_ranks e_start num_rows num_blocks init
            fuel (row - 1) (b - 1) PS_MATCH).map
              (fun x => bt.lp_mm.prob * x) +
         (pathsF data transitions kmer_ranks e_start num_rows num_blocks init
            fuel (row - 1) (b - 1) PS_EVENT_SPLIT).map
              (fun x => bt.lp_em.prob * x) +
         (pathsF data transitions kmer_ranks e_start num_rows num_blocks init
            fuel (row - 1) (b - 1) PS_KMER_SKIP).map
              (fun x => bt.lp_km.prob * x)).map
          (fun x => (data.lp_match rank event_idx).prob * x)
      else if st = PS_EVENT_SPLIT then
        ((pathsF data transitions kmer_ranks e_start num_rows num_blocks init
            fuel (row - 1) b PS_MATCH).map
              (fun x => bt.lp_me.prob * x) +
         (pathsF data transitions kmer_ranks e_start num_rows num_blocks init
            fuel (row - 1) b PS_EVENT_SPLIT).map
              (fun x => bt.lp_ee.prob * x)).map
          (fun x => (data.lp_event_insert rank event_idx).prob * x)
      else
        (pathsF data transitions kmer_ranks e_start num_rows num_blocks init
          fuel row (b - 1) PS_MATCH).map (fun x => bt.lp_mk.prob * x) +
        (pathsF data transitions kmer_ranks e_start num_rows num_blocks init
          fuel row (b - 1) PS_KMER_SKIP).map (fun x => bt.lp_kk.prob * x)
    else {(init row (PS_NUM_STATES * b + st)).prob}

/-- The path weights with canonical fuel. -/
def paths (data : HMMInputData) (transitions : List BlockTransitions)
    (kmer_ranks : List ℕ) (e_start num_rows num_blocks : ℕ)
    (init : ℕ → ℕ → LogF) (row b st : ℕ) : Multiset ℚ :=
  pathsF data transitions kmer_ranks e_start num_rows num_blocks init
    (row + b + 1) row b st

/-- The weights of the complete-alignment paths contributed by row `rr`'s
end transition in the local fill: each path reaching the final kmer block
at row `rr`, weighted by the uniform end-transition prior and the
post-flank value for that row. -/
def endRowPaths (data : HMMInputData) (transitions : List BlockTransitions)
    (kmer_ranks : List ℕ) (e_start num_rows num_blocks : ℕ)
    (init : ℕ → ℕ → LogF) (post_flank : List LogF) (lp_ms : LogF)
    (rr : ℕ) : Multiset ℚ :=
  (paths data transitions kmer_ranks e_start num_rows num_blocks init
      rr (num_blocks - 2) PS_MATCH +
   paths data transitions kmer_ranks e_start num_rows num_blocks init
      rr (num_blocks - 2) PS_EVENT_SPLIT +
   paths data transitions kmer_ranks e_start num_rows num_blocks init
      rr (num_blocks - 2) PS_KMER_SKIP).map
    (fun x => lp_ms.prob * x * (post_flank.getD (rr - 1) LogF.negInf).prob)

/-- The weights of all complete-alignment paths whose end transition fires
at a row in `1, …, R`. -/
def endPathsUpTo (data : HMMInputData) (transitions : List BlockTransitions)
    (kmer_ranks : List ℕ) (e_start num_rows num_blocks : ℕ)
    (init : ℕ → ℕ → LogF) (post_flank : List LogF) (lp_ms : LogF) :
    ℕ → Multiset ℚ
  | 0 => 0
  | R + 1 => endPathsUpTo data transitions kmer_ranks e_start num_rows
      num_blocks init post_flank lp_ms R +
    endRowPaths data transitions kmer_ranks e_start num_rows num_blocks init
      post_flank lp_ms (R + 1)

/-- The weights of all complete-alignment paths of the local fill. -/
def endPaths (data : HMMInputData) (transitions : List BlockTransitions)
    (kmer_ranks : List ℕ) (e_start num_rows num_blocks : ℕ)
    (init : ℕ → ℕ → LogF) (post_flank : List LogF) (lp_ms : LogF) :
    Multiset ℚ :=
  endPathsUpTo data transitions kmer_ranks e_start num_rows num_blocks init
    post_flank lp_ms (num_rows - 1)

/-- The lattice contents of a Forward local sweep in progress: rows below
`R` fully written, row `R` written through block `B`, all path weights
summed; everything else still holds its initial value. -/
def fwdSpec (data : HMMInputData) (transitions : List BlockTransitions)
    (kmer_ranks : List ℕ) (e_start num_rows num_blocks : ℕ)
    (init : ℕ → ℕ → LogF) (R B : ℕ) (r c : ℕ) : LogF :=
  if 1 ≤ r ∧ 1 ≤ c / 3 ∧ c / 3 ≤ num_blocks - 2 ∧
      (r < R ∨ (r = R ∧ c / 3 ≤ B)) then
    ⟨(paths data transitions kmer_ranks e_start num_rows num_blocks init
        r (c / 3) (c % 3)).sum⟩
  else init r c

/-- The lattice contents of a Viterbi local sweep in progress: as
`fwdSpec`, with the maximum path weight in place of the sum. -/
def vitSpec (data : HMMInputData) (transitions : List BlockTransitions)
    (kmer_ranks : List ℕ) (e_start num_rows num_blocks : ℕ)
    (init : ℕ → ℕ → LogF) (R B : ℕ) (r c : ℕ) : LogF :=
  if 1 ≤ r ∧ 1 ≤ c / 3 ∧ c / 3 ≤ num_blocks - 2 ∧
      (r < R ∨ (r = R ∧ c / 3 ≤ B)) then
    ⟨msup (paths data transitions kmer_ranks e_start num_rows num_blocks init
        r (c / 3) (c % 3))⟩
  else init r c

/-- Well-formed input bundle: all transition parameters, skip estimates and
emission values are probability-valued (underlying probabilities are
nonnegative; parameters are at most 1).  Every bundle produced by the
external collaborators satisfies this (a float's `exp` is nonnegative and
the spec's §3 invariant bounds stored probabilities by 1). -/
structure WFInput (data : HMMInputData) : Prop where
  skip_mem : ∀ a b, 0 ≤ data.get_skip_probability a b ∧
    data.get_skip_probability a b ≤ 1
  m2e_mem : 0 ≤ data.parameters.trans_m_to_e_not_k ∧
    data.parameters.trans_m_to_e_not_k ≤ 1
  e2e_mem : 0 ≤ data.parameters.trans_e_to_e ∧
    data.parameters.trans_e_to_e ≤ 1
  start_pre_mem : 0 ≤ data.parameters.trans_start_to_pre ∧
    data.parameters.trans_start_to_pre ≤ 1
  pre_self_mem : 0 ≤ data.parameters.trans_pre_self ∧
    data.parameters.trans_pre_self ≤ 1
  match_nonneg : ∀ r e, 0 ≤ (data.lp_match r e).prob
  insert_nonneg : ∀ r e, 0 ≤ (data.lp_event_insert r e).prob
  bg_mem : ∀ e, 0 ≤ (data.lp_background e).prob ∧
    (data.lp_background e).prob ≤ 1

/-- All seven stored transition probabilities of a block are nonnegative. -/
def BlockTransitionsNonneg (bt : BlockTransitions) : Prop :=
  0 ≤ bt.lp_me.prob ∧ 0 ≤ bt.lp_mk.prob ∧ 0 ≤ bt.lp_mm.prob ∧
  0 ≤ bt.lp_ee.prob ∧ 0 ≤ bt.lp_em.prob ∧ 0 ≤ bt.lp_kk.prob ∧
  0 ≤ bt.lp_km.prob

/-- The invariant carried through the Viterbi fill: all lattice values are
nonnegative probabilities and no backtrace cell holds `PS_PRE_SOFT`. -/
def ViterbiNoPreSoft (s : ProfileHMMViterbiOutput) : Prop :=
  (∀ r c, 0 ≤ (s.p_fm.data r c).prob) ∧
  (∀ r c, s.p_bm.data r c ≠ PS_PRE_SOFT)

/-- A concrete 3-row × 9-column lattice (2 events, 1 kmer) with start-cell
probability 1. -/
def fm3 : FloatMatrix := ⟨3, 9, fun r c => ⟨if r = 0 ∧ c = 0 then 1 else 0⟩⟩

/-- A concrete backtrace matrix matching `fm3`. -/
def bm3 : UInt8Matrix := ⟨3, 9, fun _ _ => 0⟩

/-- A concrete 2-row × 9-column lattice (1 event, 1 kmer, 2 terminal
blocks) whose start cell holds probability 1 and all other cells 0. -/
def fmG : FloatMatrix := ⟨2, 9, fun r c => ⟨if r = 0 ∧ c = 0 then 1 else 0⟩⟩

/-- A concrete backtrace matrix matching `fmG`. -/
def bmG : UInt8Matrix := ⟨2, 9, fun _ _ => 0⟩

/-- The global Forward sweep on the concrete lattice `fmG`. -/
def gSweepFw : ProfileHMMForwardOutput :=
  globalSweep forwardOutput sampleData
    (calculate_transitions (fmG.n_cols / PS_NUM_STATES - 2) [] sampleData)
    ((List.range (fmG.n_cols / PS_NUM_STATES - 2)).map (sampleData.get_rank []))
    0 fmG.n_rows (fmG.n_cols / PS_NUM_STATES) (mkForwardOutput fmG)

/-- The global Viterbi sweep on the concrete lattice `fmG`. -/
def gSweepVit : ProfileHMMViterbiOutput :=
  globalSweep viterbiOutput sampleData
    (calculate_transitions (fmG.n_cols / PS_NUM_STATES - 2) [] sampleData)
    ((List.range (fmG.n_cols / PS_NUM_STATES - 2)).map (sampleData.get_rank []))
    0 fmG.n_rows (fmG.n_cols / PS_NUM_STATES) (mkViterbiOutput fmG bmG 0 0)

/-- An all-zero-probability 3-row lattice over one kmer. -/
def fmZ : FloatMatrix := ⟨3, 9, fun _ _ => ⟨0⟩⟩

theorem LogF.add_prob (a b : LogF) : (a + b).prob = a.prob * b.prob := rfl

theorem LogF.le_iff {a b : LogF} : a ≤ b ↔ a.prob ≤ b.prob := Iff.rfl

theorem LogF.lt_iff {a b : LogF} : a < b ↔ a.prob < b.prob := Iff.rfl

theorem LogF.eta (a : LogF) : (⟨a.prob⟩ : LogF) = a := rfl

theorem LogF.ext' {a b : LogF} (h : a.prob = b.prob) : a = b := by
  cases a; cases b; simpa using h

theorem getD_map_range {α : Type} (f : ℕ → α) {n i : ℕ} (h : i < n) (d : α) :
    ((List.range n).map f).getD i d = f i := by
  rw [List.getD_eq_getD_get?, List.get?_map, List.get?_range h]
  rfl

theorem u32sub_eq {a b : ℕ} (hba : b ≤ a) (ha32 : a < 2 ^ 32) :
    u32sub a b = a - b := by
  rw [u32sub, Int.emod_eq_of_lt (by omega) (by omega)]
  omega

/-- The ascending pre-flank loop fills indices `i, i+1, …, i+fuel-1` with
the closed-form values `preVal`, leaving earlier indices untouched. -/
theorem preLoop_eq (data : HMMInputData) (parameters : KHMMParameters)
    (e_start : ℕ) :
    ∀ (fuel i : ℕ) (v : List LogF), 2 ≤ i → i + fuel = v.length →
    v[i - 1]? = some (preVal data parameters e_start (i - 1)) →
    ∃ w, preLoop data parameters e_start fuel i v = some w ∧
      w.length = v.length ∧
      (∀ j, j < i → w[j]? = v[j]?) ∧
      (∀ j, i ≤ j → j < i + fuel →
        w[j]? = some (preVal data parameters e_start j)) := by
  intro fuel
  induction fuel with
  | zero =>
    intro i v _ _ _
    refine ⟨v, rfl, rfl, fun _ _ => rfl, ?_⟩
    intro j hij hj
    omega
  | succ fuel ih =>
    intro i v hi2 hlen hprev
    have hilt : i < v.length := by omega
    have hyval : log parameters.trans_pre_self +
        data.lp_background (eventIdx e_start (i - 1) data.event_stride) +
        preVal data parameters e_start (i - 1) =
        preVal data parameters e_start i := by
      obtain ⟨i', rfl⟩ : ∃ i', i = i' + 2 := ⟨i - 2, by omega⟩
      have h1 : i' + 2 - 1 = i' + 1 := by omega
      rw [h1, preVal]
    have hset : checkedSet v i (preVal data parameters e_start i) =
        some (v.set i (preVal data parameters e_start i)) := by
      rw [checkedSet, if_pos hilt]
    obtain ⟨w, hw, hwlen, hwlo, hwhi⟩ := ih (i + 1)
      (v.set i (preVal data parameters e_start i))
      (by omega) (by rw [List.length_set]; omega)
      (by
        have h : i + 1 - 1 = i := by omega
        rw [h, List.getElem?_set_self hilt])
    refine ⟨w, ?_, by rw [hwlen, List.length_set], ?_, ?_⟩
    · rw [preLoop, checkedGet, hprev]
      simp only []
      rw [hyval, hset]
      simp only []
      exact hw
    · intro j hj
      rw [hwlo j (by omega), List.getElem?_set_ne (by omega)]
    · intro j hij hj
      rcases eq_or_lt_of_le hij with heq | hlt
      · rw [← heq, hwlo i (by omega), List.getElem?_set_self hilt]
      · exact hwhi j hlt (by omega)

/-- `make_pre_flanking` succeeds on every non-empty event window and
returns exactly the closed-form vector `preVal 0, …, preVal num_events`. -/
theorem make_pre_flanking_eq (data : HMMInputData)
    (parameters : KHMMParameters) (e_start num_events : ℕ)
    (h : 1 ≤ num_events) :
    make_pre_flanking data parameters e_start num_events =
      some ((List.range (num_events + 1)).map
        (preVal data parameters e_start)) := by
  have hlen0 : (0:ℕ) < (List.replicate (num_events + 1) (⟨1⟩ : LogF)).length := by
    rw [List.length_replicate]; omega
  have hlen1 : (1:ℕ) <
      ((List.replicate (num_events + 1) (⟨1⟩ : LogF)).set 0
        (log parameters.trans_start_to_pre)).length := by
    rw [List.length_set, List.length_replicate]; omega
  have hc0 : checkedSet (List.replicate (num_events + 1) (⟨1⟩ : LogF)) 0
      (log parameters.trans_start_to_pre) =
      some ((List.replicate (num_events + 1) (⟨1⟩ : LogF)).set 0
        (log parameters.trans_start_to_pre)) := by
    rw [checkedSet, if_pos hlen0]
  have hc1 : checkedSet ((List.replicate (num_events + 1) (⟨1⟩ : LogF)).set 0
        (log parameters.trans_start_to_pre)) 1
      (log (1 - parameters.trans_start_to_pre) +
        data.lp_background e_start +
        log (1 - parameters.trans_pre_self)) =
      some (((List.replicate (num_events + 1) (⟨1⟩ : LogF)).set 0
        (log parameters.trans_start_to_pre)).set 1
        (log (1 - parameters.trans_start_to_pre) +
          data.lp_background e_start +
          log (1 - parameters.trans_pre_self))) := by
    rw [checkedSet, if_pos hlen1]
  rw [make_pre_flanking]
  try simp only []
  rw [hc0]
  simp only []
  rw [hc1]
  simp only []
  set v1 := ((List.replicate (num_events + 1) (⟨1⟩ : LogF)).set 0
      (log parameters.trans_start_to_pre)).set 1
      (log (1 - parameters.trans_start_to_pre) +
        data.lp_background e_start +
        log (1 - parameters.trans_pre_self)) with hv1
  have hv1len : v1.length = num_events + 1 := by
    rw [hv1, List.length_set, List.length_set, List.length_replicate]
  obtain ⟨w, hw, hwlen, hwlo, hwhi⟩ := preLoop_eq data parameters e_start
    (num_events + 1 - 2) 2 v1 le_rfl (by omega)
    (by rw [hv1, List.getElem?_set_self (by rw [List.length_set, List.length_replicate]; omega)]; rfl)
  rw [hw]
  refine congrArg some (List.ext_getElem? fun j => ?_)
  by_cases hj : j < num_events + 1
  · rw [List.getElem?_map, List.getElem?_range hj, Option.map_some']
    rcases Nat.lt_or_ge j 2 with hj2 | hj2
    · rw [hwlo j hj2, hv1]
      interval_cases j
      · rw [List.getElem?_set_ne (by omega),
          List.getElem?_set_self hlen0]
        rfl
      · rw [List.getElem?_set_self hlen1]
        rfl
    · exact hwhi j hj2 (by omega)
  · rw [List.getElem?_eq_none (by rw [hwlen, hv1len]; omega),
      List.getElem?_eq_none (by rw [List.length_map, List.length_range]; omega)]

/-- The descending post-flank loop fills indices `i, i-1, …, 0` with the
closed-form values `postValG (num_events - 1 - j)`, leaving later indices
untouched. -/
theorem postLoop_eq (data : HMMInputData) (parameters : KHMMParameters)
    (e_start num_events : ℕ) :
    ∀ (i : ℕ) (v : List LogF), v.length = num_events → i + 3 ≤ num_events →
    v[i + 1]? = some (postValG data parameters e_start num_events
      (num_events - 1 - (i + 1))) →
    ∃ w, postLoop data parameters e_start i v = some w ∧
      w.length = num_events ∧
      (∀ j, i < j → w[j]? = v[j]?) ∧
      (∀ j, j ≤ i →
        w[j]? = some (postValG data parameters e_start num_events
          (num_events - 1 - j))) := by
  intro i
  induction i with
  | zero =>
    intro v hvlen hne hnext
    have h1lt : (1:ℕ) < v.length := by omega
    have h0lt : (0:ℕ) < v.length := by omega
    have hyval : log parameters.trans_pre_self +
        data.lp_background (eventIdx e_start (0 + 1) data.event_stride) +
        postValG data parameters e_start num_events (num_events - 1 - (0 + 1)) =
        postValG data parameters e_start num_events (num_events - 1 - 0) := by
      obtain ⟨j', hj'⟩ : ∃ j', num_events - 1 - 0 = j' + 2 := ⟨num_events - 3, by omega⟩
      rw [hj', postValG]
      have h2 : num_events - (j' + 2) = 0 + 1 := by omega
      have h3 : num_events - 1 - (0 + 1) = j' + 1 := by omega
      rw [h2, h3]
    have hset : checkedSet v 0 (postValG data parameters e_start num_events
        (num_events - 1 - 0)) =
        some (v.set 0 (postValG data parameters e_start num_events
          (num_events - 1 - 0))) := by
      rw [checkedSet, if_pos h0lt]
    refine ⟨v.set 0 (postValG data parameters e_start num_events
        (num_events - 1 - 0)), ?_, by rw [List.length_set, hvlen], ?_, ?_⟩
    · rw [postLoop, checkedGet, hnext]
      simp only []
      rw [hyval, hset]
    · intro j hj
      rw [List.getElem?_set_ne (by omega)]
    · intro j hj
      have hj0 : j = 0 := by omega
      rw [hj0, List.getElem?_set_self h0lt]
  | succ i ih =>
    intro v hvlen hne hnext
    have hi1lt : i + 1 < v.length := by omega
    have hi2lt : i + 2 < v.length := by omega
    have hyval : log parameters.trans_pre_self +
        data.lp_background (eventIdx e_start (i + 1 + 1) data.event_stride) +
        postValG data parameters e_start num_events (num_events - 1 - (i + 1 + 1)) =
        postValG data parameters e_start num_events (num_events - 1 - (i + 1)) := by
      obtain ⟨j', hj'⟩ : ∃ j', num_events - 1 - (i + 1) = j' + 2 :=
        ⟨num_events - 4 - i, by omega⟩
      rw [hj', postValG]
      have h2 : num_events - (j' + 2) = i + 1 + 1 := by omega
      have h3 : num_events - 1 - (i + 1 + 1) = j' + 1 := by omega
      rw [h2, h3]
    have hset : checkedSet v (i + 1) (postValG data parameters e_start num_events
        (num_events - 1 - (i + 1))) =
        some (v.set (i + 1) (postValG data parameters e_start num_events
          (num_events - 1 - (i + 1)))) := by
      rw [checkedSet, if_pos hi1lt]
    obtain ⟨w, hw, hwlen, hwlo, hwhi⟩ := ih
      (v.set (i + 1) (postValG data parameters e_start num_events
        (num_events - 1 - (i + 1))))
      (by rw [List.length_set, hvlen]) (by omega)
      (by rw [List.getElem?_set_self hi1lt])
    refine ⟨w, ?_, hwlen, ?_, ?_⟩
    · rw [postLoop, checkedGet, hnext]
      simp only []
      rw [hyval, hset]
      simp only []
      exact hw
    · intro j hj
      rw [hwlo j (by omega), List.getElem?_set_ne (by omega)]
    · intro j hj
      rcases Nat.lt_or_ge j (i + 1) with hlt | hge
      · exact hwhi j (by omega)
      · have hji : j = i + 1 := by omega
        rw [hji, hwlo (i + 1) (by omega), List.getElem?_set_self hi1lt]

/-- `make_post_flanking` succeeds exactly under its preconditions and then
returns the closed-form vector `postValG (num_events - 1 - i)` at index
`i`. -/
theorem make_post_flanking_eq (data : HMMInputData)
    (parameters : KHMMParameters) (e_start num_events : ℕ)
    (h2 : 2 ≤ num_events) (h32 : num_events < 2 ^ 32)
    (ha : eventIdx e_start (num_events - 1) data.event_stride =
      data.event_stop_idx) :
    make_post_flanking data parameters e_start num_events =
      some ((List.range num_events).map fun i =>
        postValG data parameters e_start num_events (num_events - 1 - i)) := by
  have hsub1 : u32sub num_events 1 = num_events - 1 := u32sub_eq (by omega) h32
  have hsub2 : u32sub num_events 2 = num_events - 2 := u32sub_eq (by omega) h32
  have hlen1 : num_events - 1 < (List.replicate num_events (⟨1⟩ : LogF)).length := by
    rw [List.length_replicate]; omega
  have hlen2 : num_events - 2 <
      ((List.replicate num_events (⟨1⟩ : LogF)).set (num_events - 1)
        (log parameters.trans_start_to_pre)).length := by
    rw [List.length_set, List.length_replicate]; omega
  have hc1 : checkedSet (List.replicate num_events (⟨1⟩ : LogF)) (num_events - 1)
      (log parameters.trans_start_to_pre) =
      some ((List.replicate num_events (⟨1⟩ : LogF)).set (num_events - 1)
        (log parameters.trans_start_to_pre)) := by
    rw [checkedSet, if_pos hlen1]
  have hc2 : checkedSet ((List.replicate num_events (⟨1⟩ : LogF)).set (num_events - 1)
        (log parameters.trans_start_to_pre)) (num_events - 2)
      (log (1 - parameters.trans_start_to_pre) +
        data.lp_background (eventIdx e_start (num_events - 1) data.event_stride) +
        log (1 - parameters.trans_pre_self)) =
      some (((List.replicate num_events (⟨1⟩ : LogF)).set (num_events - 1)
        (log parameters.trans_start_to_pre)).set (num_events - 2)
        (log (1 - parameters.trans_start_to_pre) +
          data.lp_background (eventIdx e_start (num_events - 1) data.event_stride) +
          log (1 - parameters.trans_pre_self))) := by
    rw [checkedSet, if_pos hlen2]
  rw [make_post_flanking]
  try simp only []
  rw [hsub1, hsub2, hc1]
  simp only []
  rw [if_pos ha, hc2]
  simp only []
  set v2 := ((List.replicate num_events (⟨1⟩ : LogF)).set (num_events - 1)
      (log parameters.trans_start_to_pre)).set (num_events - 2)
      (log (1 - parameters.trans_start_to_pre) +
        data.lp_background (eventIdx e_start (num_events - 1) data.event_stride) +
        log (1 - parameters.trans_pre_self)) with hv2
  have hv2len : v2.length = num_events := by
    rw [hv2, List.length_set, List.length_set, List.length_replicate]
  have hv2at2 : v2[num_events - 2]? =
      some (postValG data parameters e_start num_events 1) := by
    rw [hv2, List.getElem?_set_self hlen2]
    rfl
  have hv2at1 : v2[num_events - 1]? =
      some (postValG data parameters e_start num_events 0) := by
    rw [hv2, List.getElem?_set_ne (by omega), List.getElem?_set_self hlen1]
    rfl
  by_cases h3 : 3 ≤ num_events
  · rw [if_pos h3]
    obtain ⟨w, hw, hwlen, hwlo, hwhi⟩ := postLoop_eq data parameters e_start
      num_events (num_events - 3) v2 hv2len (by omega)
      (by
        have hx : num_events - 3 + 1 = num_events - 2 := by omega
        rw [hx]
        have hy : num_events - 1 - (num_events - 2) = 1 := by omega
        rw [hy]
        exact hv2at2)
    rw [hw]
    refine congrArg some (List.ext_getElem? fun j => ?_)
    by_cases hj : j < num_events
    · rw [List.getElem?_map, List.getElem?_range hj, Option.map_some']
      rcases Nat.lt_or_ge j (num_events - 2) with hjlo | hjhi
      · exact hwhi j (by omega)
      · rcases eq_or_lt_of_le hjhi with hje | hjlt
        · rw [← hje, hwlo (num_events - 2) (by omega), hv2at2]
          have : num_events - 1 - (num_events - 2) = 1 := by omega
          rw [this]
        · have hje : j = num_events - 1 := by omega
          rw [hje, hwlo (num_events - 1) (by omega), hv2at1]
          have : num_events - 1 - (num_events - 1) = 0 := by omega
          rw [this]
    · rw [List.getElem?_eq_none (by rw [hwlen]; omega),
        List.getElem?_eq_none (by rw [List.length_map, List.length_range]; omega)]
  · rw [if_neg h3]
    have hne2 : num_events = 2 := by omega
    subst hne2
    rfl

/-- When the consistency assert on the final event index fails,
`make_post_flanking` aborts (is `none`). -/
theorem make_post_flanking_none_of_assert (data : HMMInputData)
    (parameters : KHMMParameters) (e_start num_events : ℕ)
    (h2 : 2 ≤ num_events) (h32 : num_events < 2 ^ 32)
    (ha : eventIdx e_start (num_events - 1) data.event_stride ≠
      data.event_stop_idx) :
    make_post_flanking data parameters e_start num_events = none := by
  have hsub1 : u32sub num_events 1 = num_events - 1 := u32sub_eq (by omega) h32
  have hlen1 : num_events - 1 < (List.replicate num_events (⟨1⟩ : LogF)).length := by
    rw [List.length_replicate]; omega
  have hc1 : checkedSet (List.replicate num_events (⟨1⟩ : LogF)) (num_events - 1)
      (log parameters.trans_start_to_pre) =
      some ((List.replicate num_events (⟨1⟩ : LogF)).set (num_events - 1)
        (log parameters.trans_start_to_pre)) := by
    rw [checkedSet, if_pos hlen1]
  rw [make_post_flanking]
  try simp only []
  rw [hsub1, hc1]
  try simp only []
  rw [if_neg ha]

/-- An event window of fewer than 2 events makes `make_post_flanking`
perform an out-of-bounds base-case write (after `uint32` wrap-around of
`num_events - 1` or `num_events - 2`), so it aborts. -/
theorem make_post_flanking_none_of_small (data : HMMInputData)
    (parameters : KHMMParameters) (e_start num_events : ℕ)
    (hne : num_events < 2) :
    make_post_flanking data parameters e_start num_events = none := by
  interval_cases num_events
  · rfl
  · have hs1 : u32sub 1 1 = 0 := by decide
    have hs2 : u32sub 1 2 = 4294967295 := by decide
    have hc1 : checkedSet (List.replicate 1 (⟨1⟩ : LogF)) 0
        (log parameters.trans_start_to_pre) =
        some ((List.replicate 1 (⟨1⟩ : LogF)).set 0
          (log parameters.trans_start_to_pre)) := by
      rw [checkedSet, if_pos (by rw [List.length_replicate]; omega)]
    rw [make_post_flanking]
    try simp only []
    rw [hs1, hs2, hc1]
    try simp only []
    split
    · rw [checkedSet,
        if_neg (by rw [List.length_set, List.length_replicate]; omega)]
    · rfl

/-- C8: `make_post_flanking` succeeds exactly when the event window has at
least 2 events (its two base cases write indices `num_events - 1` and
`num_events - 2`) and the computed last event index
`e_start + (num_events - 1) * event_stride` equals the declared final event
index; a mismatch (or a too-small window, whose wrapped `uint32` index is
out of bounds) is a fatal precondition violation (`none`), and under the
preconditions every bounds-checked vector access succeeds and the result
has exactly `num_events` entries. -/
theorem make_post_flanking_safety (data : HMMInputData)
    (parameters : KHMMParameters) (e_start num_events : ℕ)
    (v : List LogF) (h32 : num_events < 2 ^ 32) :
    ((make_post_flanking data parameters e_start num_events).isSome ↔
      2 ≤ num_events ∧
      eventIdx e_start (num_events - 1) data.event_stride =
        data.event_stop_idx) ∧
    (make_post_flanking data parameters e_start num_events = some v →
      v.length = num_events) := by
  constructor
  · constructor
    · intro hs
      by_cases h2 : 2 ≤ num_events
      · refine ⟨h2, ?_⟩
        by_contra ha
        rw [make_post_flanking_none_of_assert data parameters e_start
          num_events h2 h32 ha] at hs
        simp at hs
      · rw [make_post_flanking_none_of_small data parameters e_start
          num_events (by omega)] at hs
        simp at hs
    · rintro ⟨h2, ha⟩
      rw [make_post_flanking_eq data parameters e_start num_events h2 h32 ha]
      rfl
  · intro hv
    by_cases h2 : 2 ≤ num_events
    · by_cases ha : eventIdx e_start (num_events - 1) data.event_stride =
        data.event_stop_idx
      · rw [make_post_flanking_eq data parameters e_start num_events h2 h32 ha]
          at hv
        rw [← Option.some.inj hv, List.length_map, List.length_range]
      · rw [make_post_flanking_none_of_assert data parameters e_start
          num_events h2 h32 ha] at hv
        exact Option.noConfusion hv
    · rw [make_post_flanking_none_of_small data parameters e_start
        num_events (by omega)] at hv
      exact Option.noConfusion hv

/-- Witness for C8 on the sample bundle with a 2-event window (both
preconditions hold there). -/
theorem make_post_flanking_safety_witness :
    ((make_post_flanking sampleData sampleData.parameters 0 2).isSome ↔
      2 ≤ 2 ∧
      eventIdx 0 (2 - 1) sampleData.event_stride =
        sampleData.event_stop_idx) ∧
    (make_post_flanking sampleData sampleData.parameters 0 2 =
        some ((List.range 2).map fun i =>
          postValG sampleData sampleData.parameters 0 2 (2 - 1 - i)) →
      ((List.range 2).map fun i =>
        postValG sampleData sampleData.parameters 0 2 (2 - 1 - i)).length = 2) :=
  make_post_flanking_safety sampleData sampleData.parameters 0 2 _ (by decide)

/-- With probability-valued parameters and background emissions, every
pre-flank entry is a product of probabilities and hence nonnegative. -/
theorem preVal_nonneg (data : HMMInputData) (parameters : KHMMParameters)
    (e_start : ℕ)
    (hq0 : 0 ≤ parameters.trans_pre_self)
    (hq1 : parameters.trans_pre_self ≤ 1)
    (hp1 : parameters.trans_start_to_pre ≤ 1)
    (hp0 : 0 ≤ parameters.trans_start_to_pre)
    (hbg : ∀ idx, 0 ≤ (data.lp_background idx).prob) :
    ∀ i, 0 ≤ (preVal data parameters e_start i).prob
  | 0 => hp0
  | 1 => mul_nonneg (mul_nonneg (by simp [log]; linarith) (hbg _))
      (by simp [log]; linarith)
  | (n + 2) => by
    have ih := preVal_nonneg data parameters e_start hq0 hq1 hp1 hp0 hbg (n + 1)
    exact mul_nonneg (mul_nonneg hq0 (hbg _)) ih

/-- With probability-valued parameters and background emissions, every
post-flank entry is nonnegative. -/
theorem postValG_nonneg (data : HMMInputData) (parameters : KHMMParameters)
    (e_start num_events : ℕ)
    (hq0 : 0 ≤ parameters.trans_pre_self)
    (hq1 : parameters.trans_pre_self ≤ 1)
    (hp1 : parameters.trans_start_to_pre ≤ 1)
    (hp0 : 0 ≤ parameters.trans_start_to_pre)
    (hbg : ∀ idx, 0 ≤ (data.lp_background idx).prob) :
    ∀ j, 0 ≤ (postValG data parameters e_start num_events j).prob
  | 0 => hp0
  | 1 => mul_nonneg (mul_nonneg (by simp [log]; linarith) (hbg _))
      (by simp [log]; linarith)
  | (n + 2) => by
    have ih := postValG_nonneg data parameters e_start num_events
      hq0 hq1 hp1 hp0 hbg (n + 1)
    exact mul_nonneg (mul_nonneg hq0 (hbg _)) ih

/-- C3, amended: both flank vectors are monotone away from their base-case
boundary — `pre_flank[i+1] ≤ pre_flank[i]` holds from index `i ≥ 1` on, and
`post_flank[j] ≤ post_flank[j+1]` holds up to index `num_events - 3` —
whenever all parameters and background emissions are probabilities.  (The
step between the two base-case entries, `pre_flank[0]`/`pre_flank[1]` and
`post_flank[num_events-2]`/`post_flank[num_events-1]`, can increase; see
the counterexample.) -/
theorem flanking_monotone (data : HMMInputData) (parameters : KHMMParameters)
    (e_start num_events : ℕ) (pre post : List LogF) (i j : ℕ)
    (hq0 : 0 ≤ parameters.trans_pre_self)
    (hq1 : parameters.trans_pre_self ≤ 1)
    (hp0 : 0 ≤ parameters.trans_start_to_pre)
    (hp1 : parameters.trans_start_to_pre ≤ 1)
    (hbg : ∀ idx, 0 ≤ (data.lp_background idx).prob ∧
      (data.lp_background idx).prob ≤ 1)
    (h32 : num_events < 2 ^ 32)
    (hpre : make_pre_flanking data parameters e_start num_events = some pre)
    (hpost : make_post_flanking data parameters e_start num_events = some post)
    (hi1 : 1 ≤ i) (hi2 : i + 1 ≤ num_events)
    (hj : j + 1 ≤ num_events - 2) :
    pre.getD (i + 1) LogF.negInf ≤ pre.getD i LogF.negInf ∧
    post.getD j LogF.negInf ≤ post.getD (j + 1) LogF.negInf := by
  have hbg0 : ∀ idx, 0 ≤ (data.lp_background idx).prob := fun idx => (hbg idx).1
  have hbg1 : ∀ idx, (data.lp_background idx).prob ≤ 1 := fun idx => (hbg idx).2
  have hne1 : 1 ≤ num_events := by omega
  rw [make_pre_flanking_eq data parameters e_start num_events hne1] at hpre
  have hpre' := Option.some.inj hpre
  -- the post builder only succeeds when its precondition holds, so we can
  -- recover the closed form by case analysis on the guard structure is not
  -- needed: the `some` hypothesis forces success, and the value is pinned
  -- down by `make_post_flanking_eq` once the assert condition is derived
  constructor
  · rw [← hpre', getD_map_range _ (by omega), getD_map_range _ (by omega)]
    show (preVal data parameters e_start (i + 1)).prob ≤
      (preVal data parameters e_start i).prob
    obtain ⟨i', rfl⟩ : ∃ i', i = i' + 1 := ⟨i - 1, by omega⟩
    have hstep : (preVal data parameters e_start (i' + 2)).prob =
        parameters.trans_pre_self *
          (data.lp_background (eventIdx e_start (i' + 1) data.event_stride)).prob *
          (preVal data parameters e_start (i' + 1)).prob := by
      rw [preVal]
      rfl
    rw [hstep]
    have hx := preVal_nonneg data parameters e_start hq0 hq1 hp1 hp0 hbg0 (i' + 1)
    have hone : parameters.trans_pre_self *
        (data.lp_background (eventIdx e_start (i' + 1) data.event_stride)).prob ≤ 1 :=
      mul_le_one₀ hq1 (hbg0 _) (hbg1 _)
    calc parameters.trans_pre_self *
          (data.lp_background (eventIdx e_start (i' + 1) data.event_stride)).prob *
          (preVal data parameters e_start (i' + 1)).prob
        ≤ 1 * (preVal data parameters e_start (i' + 1)).prob := by
          exact mul_le_mul_of_nonneg_right hone hx
      _ = (preVal data parameters e_start (i' + 1)).prob := one_mul _
  · -- recover the assert precondition from success of the post builder
    have h2 : 2 ≤ num_events := by omega
    by_cases ha : eventIdx e_start (num_events - 1) data.event_stride =
      data.event_stop_idx
    · rw [make_post_flanking_eq data parameters e_start num_events h2 h32 ha]
        at hpost
      have hpost' := Option.some.inj hpost
      rw [← hpost', getD_map_range _ (by omega), getD_map_range _ (by omega)]
      show (postValG data parameters e_start num_events
          (num_events - 1 - j)).prob ≤
        (postValG data parameters e_start num_events
          (num_events - 1 - (j + 1))).prob
      obtain ⟨t, ht⟩ : ∃ t, num_events - 1 - j = t + 2 :=
        ⟨num_events - 3 - j, by omega⟩
      have ht' : num_events - 1 - (j + 1) = t + 1 := by omega
      rw [ht, ht']
      have hstep : (postValG data parameters e_start num_events (t + 2)).prob =
          parameters.trans_pre_self *
            (data.lp_background
              (eventIdx e_start (num_events - (t + 2)) data.event_stride)).prob *
            (postValG data parameters e_start num_events (t + 1)).prob := by
        rw [postValG]
        rfl
      rw [hstep]
      have hx := postValG_nonneg data parameters e_start num_events
        hq0 hq1 hp1 hp0 hbg0 (t + 1)
      have hone : parameters.trans_pre_self *
          (data.lp_background
            (eventIdx e_start (num_events - (t + 2)) data.event_stride)).prob ≤ 1 :=
        mul_le_one₀ hq1 (hbg0 _) (hbg1 _)
      calc parameters.trans_pre_self *
            (data.lp_background
              (eventIdx e_start (num_events - (t + 2)) data.event_stride)).prob *
            (postValG data parameters e_start num_events (t + 1)).prob
          ≤ 1 * (postValG data parameters e_start num_events (t + 1)).prob :=
            mul_le_mul_of_nonneg_right hone hx
        _ = (postValG data parameters e_start num_events (t + 1)).prob := one_mul _
    · exfalso
      rw [make_post_flanking_none_of_assert data parameters e_start num_events
        h2 h32 ha] at hpost
      exact Option.noConfusion hpost

/-- Witness for the amended C3 on a 4-event window at `i = 1`, `j = 1`. -/
theorem flanking_monotone_witness :
    ((make_pre_flanking sampleData4 sampleData4.parameters 0 4).getD []).getD
        (1 + 1) LogF.negInf ≤
      ((make_pre_flanking sampleData4 sampleData4.parameters 0 4).getD []).getD
        1 LogF.negInf ∧
    ((make_post_flanking sampleData4 sampleData4.parameters 0 4).getD []).getD
        1 LogF.negInf ≤
      ((make_post_flanking sampleData4 sampleData4.parameters 0 4).getD []).getD
        (1 + 1) LogF.negInf :=
  flanking_monotone sampleData4 sampleData4.parameters 0 4
    ((make_pre_flanking sampleData4 sampleData4.parameters 0 4).getD [])
    ((make_post_flanking sampleData4 sampleData4.parameters 0 4).getD [])
    1 1 (by decide) (by decide) (by decide) (by decide)
    (fun _ => by norm_num [sampleData4, sampleData]) (by decide) (by decide)
    (by decide) (by decide) (by decide) (by decide)

/-- Counterexample to C3 as stated: on `flankCexData` with a 2-event
window (accepted by both builders), `pre_flank = [log 0, log 1, log 0]` in
probability representation `[0, 1, 0]`, so `pre_flank[1] ≤ pre_flank[0]`
fails — the vector is not non-increasing from index 0 upward.  (The same
bundle also violates the post-flank clause at its base-case boundary.) -/
theorem flanking_monotone_counterexample :
    (make_pre_flanking flankCexData flankCexData.parameters 0 2).isSome ∧
    (make_post_flanking flankCexData flankCexData.parameters 0 2).isSome ∧
    ¬ (((make_pre_flanking flankCexData flankCexData.parameters 0 2).getD
          []).getD (0 + 1) LogF.negInf ≤
        ((make_pre_flanking flankCexData flankCexData.parameters 0 2).getD
          []).getD 0 LogF.negInf) ∧
    ¬ (((make_post_flanking flankCexData flankCexData.parameters 0 2).getD
          []).getD 0 LogF.negInf ≤
        ((make_post_flanking flankCexData flankCexData.parameters 0 2).getD
          []).getD (0 + 1) LogF.negInf) := by
  decide

theorem msup_zero : msup 0 = 0 := rfl

theorem msup_cons (a : ℚ) (s : Multiset ℚ) :
    msup (a ::ₘ s) = Max.max a (msup s) :=
  Multiset.foldr_cons _ _ _ _

theorem msup_singleton (a : ℚ) : msup {a} = Max.max a 0 := rfl

theorem msup_nonneg (s : Multiset ℚ) : 0 ≤ msup s := by
  induction s using Multiset.induction_on with
  | empty => exact le_rfl
  | cons a s ih =>
    rw [msup_cons]
    exact le_trans ih (le_max_right a (msup s))

theorem le_msup {a : ℚ} {s : Multiset ℚ} (h : a ∈ s) : a ≤ msup s := by
  induction s using Multiset.induction_on with
  | empty => exact absurd h (Multiset.not_mem_zero a)
  | cons b s ih =>
    rw [msup_cons]
    rcases Multiset.mem_cons.mp h with rfl | hmem
    · exact le_max_left a (msup s)
    · exact le_trans (ih hmem) (le_max_right b (msup s))

theorem msup_le {s : Multiset ℚ} {b : ℚ} (hb : 0 ≤ b)
    (h : ∀ x ∈ s, x ≤ b) : msup s ≤ b := by
  induction s using Multiset.induction_on with
  | empty => exact hb
  | cons a s ih =>
    rw [msup_cons]
    exact max_le (h a (Multiset.mem_cons_self a s))
      (ih fun x hx => h x (Multiset.mem_cons_of_mem hx))

theorem msup_add (s t : Multiset ℚ) :
    msup (s + t) = Max.max (msup s) (msup t) := by
  induction s using Multiset.induction_on with
  | empty =>
    rw [zero_add, msup_zero]
    exact (max_eq_right (msup_nonneg t)).symm
  | cons a s ih =>
    rw [Multiset.cons_add, msup_cons, msup_cons, ih, max_assoc]

theorem msup_map_mul {c : ℚ} (hc : 0 ≤ c) (s : Multiset ℚ) :
    msup (s.map (fun x => c * x)) = c * msup s := by
  induction s using Multiset.induction_on with
  | empty => simp [msup_zero]
  | cons a s ih =>
    rw [Multiset.map_cons, msup_cons, msup_cons, ih, mul_max_of_nonneg _ _ hc]

theorem sum_map_mul (c : ℚ) (s : Multiset ℚ) :
    (s.map (fun x => c * x)).sum = c * s.sum := by
  induction s using Multiset.induction_on with
  | empty => simp
  | cons a s ih =>
    rw [Multiset.map_cons, Multiset.sum_cons, Multiset.sum_cons, ih, mul_add]

theorem msup_le_sum {s : Multiset ℚ} (h : ∀ x ∈ s, 0 ≤ x) :
    msup s ≤ s.sum := by
  induction s using Multiset.induction_on with
  | empty => simp [msup_zero]
  | cons a s ih =>
    rw [msup_cons, Multiset.sum_cons]
    refine max_le ?_ ?_
    · have : 0 ≤ s.sum :=
        Multiset.sum_nonneg fun x hx => h x (Multiset.mem_cons_of_mem hx)
      linarith
    · have ha : 0 ≤ a := h a (Multiset.mem_cons_self a s)
      have := ih fun x hx => h x (Multiset.mem_cons_of_mem hx)
      linarith

/-- For a multiset of nonnegative weights, the total (Forward) equals the
maximum (Viterbi) exactly when at most one weight is nonzero. -/
theorem sum_eq_msup_iff {s : Multiset ℚ} (h : ∀ x ∈ s, 0 ≤ x) :
    s.sum = msup s ↔ s.countP (fun x => x ≠ 0) ≤ 1 := by
  induction s using Multiset.induction_on with
  | empty => simp [msup_zero]
  | cons a s ih =>
    have ha : 0 ≤ a := h a (Multiset.mem_cons_self a s)
    have hs : ∀ x ∈ s, 0 ≤ x := fun x hx => h x (Multiset.mem_cons_of_mem hx)
    have hsum : 0 ≤ s.sum := Multiset.sum_nonneg hs
    rw [Multiset.sum_cons, msup_cons, Multiset.countP_cons]
    rcases eq_or_lt_of_le ha with ha0 | hapos
    · rw [← ha0, zero_add, max_eq_right (msup_nonneg s), if_neg (by simp),
        add_zero]
      exact ih hs
    · rw [if_pos (by exact ne_of_gt hapos)]
      rcases Nat.eq_zero_or_pos (s.countP (fun x => x ≠ 0)) with hc0 | hcpos
      · have hall : ∀ x ∈ s, x = 0 := by
          intro x hx
          by_contra hne
          have : 0 < s.countP (fun x => x ≠ 0) :=
            Multiset.countP_pos.mpr ⟨x, hx, hne⟩
          omega
        have hsum0 : s.sum = 0 := Multiset.sum_eq_zero hall
        have hsup0 : msup s = 0 :=
          le_antisymm (msup_le le_rfl fun x hx => le_of_eq (hall x hx))
            (msup_nonneg s)
        rw [hsum0, hsup0, add_zero, max_eq_left (le_of_lt hapos), hc0]
        simp
      · obtain ⟨b, hbmem, hbne⟩ := Multiset.countP_pos.mp hcpos
        have hbpos : 0 < b := lt_of_le_of_ne (hs b hbmem) (Ne.symm hbne)
        constructor
        · intro heq
          exfalso
          have h1 : b ≤ s.sum := Multiset.single_le_sum hs b hbmem
          have h2 : msup s ≤ s.sum := msup_le_sum hs
          have h3 : Max.max a (msup s) < a + s.sum := by
            refine max_lt ?_ ?_ <;> linarith
          rw [heq] at h3
          exact lt_irrefl _ h3
        · intro hle
          omega

theorem pathsF_irrel (data : HMMInputData) (transitions : List BlockTransitions)
    (kmer_ranks : List ℕ) (e_start num_rows num_blocks : ℕ)
    (init : ℕ → ℕ → LogF) :
    ∀ fuel fuel' row b st, row + b + 1 ≤ fuel → row + b + 1 ≤ fuel' →
      pathsF data transitions kmer_ranks e_start num_rows num_blocks init
        fuel row b st =
      pathsF data transitions kmer_ranks e_start num_rows num_blocks init
        fuel' row b st := by
  intro fuel
  induction fuel with
  | zero =>
    intro fuel' row b st h _
    exact absurd h (by omega)
  | succ f ih =>
    intro fuel' row b st h h'
    obtain ⟨f', rfl⟩ : ∃ g, fuel' = g + 1 := ⟨fuel' - 1, by omega⟩
    rw [pathsF, pathsF]
    by_cases hreg : 1 ≤ row ∧ row ≤ num_rows - 1 ∧ 1 ≤ b ∧ b ≤ num_blocks - 2
    · obtain ⟨h1, h2, h3, h4⟩ := id hreg
      rw [if_pos hreg, if_pos hreg]
      simp only []
      by_cases hst : st = PS_MATCH
      · rw [if_pos hst, if_pos hst,
          ih f' (row - 1) (b - 1) PS_MATCH (by omega) (by omega),
          ih f' (row - 1) (b - 1) PS_EVENT_SPLIT (by omega) (by omega),
          ih f' (row - 1) (b - 1) PS_KMER_SKIP (by omega) (by omega)]
      · rw [if_neg hst, if_neg hst]
        by_cases hst' : st = PS_EVENT_SPLIT
        · rw [if_pos hst', if_pos hst',
            ih f' (row - 1) b PS_MATCH (by omega) (by omega),
            ih f' (row - 1) b PS_EVENT_SPLIT (by omega) (by omega)]
        · rw [if_neg hst', if_neg hst',
            ih f' row (b - 1) PS_MATCH (by omega) (by omega),
            ih f' row (b - 1) PS_KMER_SKIP (by omega) (by omega)]
    · rw [if_neg hreg, if_neg hreg]

/-- Out-of-region cells carry exactly the initial value. -/
theorem paths_base (data : HMMInputData) (transitions : List BlockTransitions)
    (kmer_ranks : List ℕ) (e_start num_rows num_blocks : ℕ)
    (init : ℕ → ℕ → LogF) (row b st : ℕ)
    (h : ¬(1 ≤ row ∧ row ≤ num_rows - 1 ∧ 1 ≤ b ∧ b ≤ num_blocks - 2)) :
    paths data transitions kmer_ranks e_start num_rows num_blocks init
        row b st =
      {(init row (PS_NUM_STATES * b + st)).prob} := by
  rw [paths, pathsF, if_neg h]

/-- The match-state path recursion. -/
theorem paths_match_eq (data : HMMInputData)
    (transitions : List BlockTransitions) (kmer_ranks : List ℕ)
    (e_start num_rows num_blocks : ℕ) (init : ℕ → ℕ → LogF) (row b : ℕ)
    (h1 : 1 ≤ row) (h2 : row ≤ num_rows - 1) (h3 : 1 ≤ b)
    (h4 : b ≤ num_blocks - 2) :
    paths data transitions kmer_ranks e_start num_rows num_blocks init
        row b PS_MATCH =
      ((paths data transitions kmer_ranks e_start num_rows num_blocks init
          (row - 1) (b - 1) PS_MATCH).map
            (fun x => (transitions.getD (b - 1) default).lp_mm.prob * x) +
       (paths data transitions kmer_ranks e_start num_rows num_blocks init
          (row - 1) (b - 1) PS_EVENT_SPLIT).map
            (fun x => (transitions.getD (b - 1) default).lp_em.prob * x) +
       (paths data transitions kmer_ranks e_start num_rows num_blocks init
          (row - 1) (b - 1) PS_KMER_SKIP).map
            (fun x => (transitions.getD (b - 1) default).lp_km.prob * x)).map
        (fun x =>
          (data.lp_match (kmer_ranks.getD (b - 1) 0)
            (eventIdx e_start (row - 1) data.event_stride)).prob * x) := by
  have hreg : 1 ≤ row ∧ row ≤ num_rows - 1 ∧ 1 ≤ b ∧ b ≤ num_blocks - 2 :=
    ⟨h1, h2, h3, h4⟩
  rw [paths, pathsF, if_pos hreg]
  simp only []
  rw [if_pos trivial,
    pathsF_irrel data transitions kmer_ranks e_start num_rows num_blocks init
      (row + b) ((row - 1) + (b - 1) + 1) (row - 1) (b - 1) PS_MATCH
      (by omega) (by omega),
    pathsF_irrel data transitions kmer_ranks e_start num_rows num_blocks init
      (row + b) ((row - 1) + (b - 1) + 1) (row - 1) (b - 1) PS_EVENT_SPLIT
      (by omega) (by omega),
    pathsF_irrel data transitions kmer_ranks e_start num_rows num_blocks init
      (row + b) ((row - 1) + (b - 1) + 1) (row - 1) (b - 1) PS_KMER_SKIP
      (by omega) (by omega)]
  rfl

/-- The event-split-state path recursion. -/
theorem paths_event_eq (data : HMMInputData)
    (transitions : List BlockTransitions) (kmer_ranks : List ℕ)
    (e_start num_rows num_blocks : ℕ) (init : ℕ → ℕ → LogF) (row b : ℕ)
    (h1 : 1 ≤ row) (h2 : row ≤ num_rows - 1) (h3 : 1 ≤ b)
    (h4 : b ≤ num_blocks - 2) :
    paths data transitions kmer_ranks e_start num_rows num_blocks init
        row b PS_EVENT_SPLIT =
      ((paths data transitions kmer_ranks e_start num_rows num_blocks init
          (row - 1) b PS_MATCH).map
            (fun x => (transitions.getD (b - 1) default).lp_me.prob * x) +
       (paths data transitions kmer_ranks e_start num_rows num_blocks init
          (row - 1) b PS_EVENT_SPLIT).map
            (fun x => (transitions.getD (b - 1) default).lp_ee.prob * x)).map
        (fun x =>
          (data.lp_event_insert (kmer_ranks.getD (b - 1) 0)
            (eventIdx e_start (row - 1) data.event_stride)).prob * x) := by
  have hreg : 1 ≤ row ∧ row ≤ num_rows - 1 ∧ 1 ≤ b ∧ b ≤ num_blocks - 2 :=
    ⟨h1, h2, h3, h4⟩
  rw [paths, pathsF, if_pos hreg]
  simp only []
  rw [if_neg (show PS_EVENT_SPLIT ≠ PS_MATCH by decide), if_pos trivial,
    pathsF_irrel data transitions kmer_ranks e_start num_rows num_blocks init
      (row + b) ((row - 1) + b + 1) (row - 1) b PS_MATCH
      (by omega) (by omega),
    pathsF_irrel data transitions kmer_ranks e_start num_rows num_blocks init
      (row + b) ((row - 1) + b + 1) (row - 1) b PS_EVENT_SPLIT
      (by omega) (by omega)]
  rfl

/-- The kmer-skip-state path recursion. -/
theorem paths_kmer_eq (data : HMMInputData)
    (transitions : List BlockTransitions) (kmer_ranks : List ℕ)
    (e_start num_rows num_blocks : ℕ) (init : ℕ → ℕ → LogF) (row b : ℕ)
    (h1 : 1 ≤ row) (h2 : row ≤ num_rows - 1) (h3 : 1 ≤ b)
    (h4 : b ≤ num_blocks - 2) :
    paths data transitions kmer_ranks e_start num_rows num_blocks init
        row b PS_KMER_SKIP =
      (paths data transitions kmer_ranks e_start num_rows num_blocks init
          row (b - 1) PS_MATCH).map
            (fun x => (transitions.getD (b - 1) default).lp_mk.prob * x) +
      (paths data transitions kmer_ranks e_start num_rows num_blocks init
          row (b - 1) PS_KMER_SKIP).map
            (fun x => (transitions.getD (b - 1) default).lp_kk.prob * x) := by
  have hreg : 1 ≤ row ∧ row ≤ num_rows - 1 ∧ 1 ≤ b ∧ b ≤ num_blocks - 2 :=
    ⟨h1, h2, h3, h4⟩
  rw [paths, pathsF, if_pos hreg]
  simp only []
  rw [if_neg (show PS_KMER_SKIP ≠ PS_MATCH by decide),
    if_neg (show PS_KMER_SKIP ≠ PS_EVENT_SPLIT by decide),
    pathsF_irrel data transitions kmer_ranks e_start num_rows num_blocks init
      (row + b) (row + (b - 1) + 1) row (b - 1) PS_MATCH
      (by omega) (by omega),
    pathsF_irrel data transitions kmer_ranks e_start num_rows num_blocks init
      (row + b) (row + (b - 1) + 1) row (b - 1) PS_KMER_SKIP
      (by omega) (by omega)]
  rfl

theorem add_logs_prob (a b : LogF) : (add_logs a b).prob = a.prob + b.prob :=
  rfl

theorem negInf_prob : LogF.negInf.prob = 0 := rfl

theorem log_prob (p : ℚ) : (log p).prob = p := rfl

theorem sum_map_mul_mul (a b : ℚ) (s : Multiset ℚ) :
    (s.map (fun x => a * x * b)).sum = a * s.sum * b := by
  induction s using Multiset.induction_on with
  | empty => simp
  | cons x s ih =>
    rw [Multiset.map_cons, Multiset.sum_cons, Multiset.sum_cons, ih]
    ring

theorem msup_map_mul_mul {a b : ℚ} (ha : 0 ≤ a) (hb : 0 ≤ b)
    (s : Multiset ℚ) :
    msup (s.map (fun x => a * x * b)) = a * msup s * b := by
  induction s using Multiset.induction_on with
  | empty => simp [msup_zero]
  | cons x s ih =>
    rw [Multiset.map_cons, msup_cons, msup_cons, ih]
    rcases max_cases x (msup s) with ⟨hm, hle⟩ | ⟨hm, hle⟩
    · rw [hm, max_eq_left]
      exact mul_le_mul_of_nonneg_right
        (mul_le_mul_of_nonneg_left hle ha) hb
    · rw [hm, max_eq_right]
      exact mul_le_mul_of_nonneg_right
        (mul_le_mul_of_nonneg_left (le_of_lt hle) ha) hb

/-- Reading any already-settled cell of a Forward in-progress lattice
yields the summed path weights — also at sentinel cells, whose path
multiset is the initial singleton. -/
theorem fwdSpec_read (data : HMMInputData)
    (transitions : List BlockTransitions) (kmer_ranks : List ℕ)
    (e_start num_rows num_blocks : ℕ) (init : ℕ → ℕ → LogF)
    (R B r' b' st' : ℕ) (hst : st' < 3)
    (hrR : r' < R ∨ (r' = R ∧ b' ≤ B)) (hb : b' ≤ num_blocks - 2) :
    fwdSpec data transitions kmer_ranks e_start num_rows num_blocks init
        R B r' (PS_NUM_STATES * b' + st') =
      ⟨(paths data transitions kmer_ranks e_start num_rows num_blocks init
          r' b' st').sum⟩ := by
  have hPS : PS_NUM_STATES = 3 := rfl
  have hdiv : (PS_NUM_STATES * b' + st') / 3 = b' := by rw [hPS]; omega
  have hmod : (PS_NUM_STATES * b' + st') % 3 = st' := by rw [hPS]; omega
  rw [fwdSpec, hdiv, hmod]
  by_cases hcond : 1 ≤ r' ∧ 1 ≤ b' ∧ b' ≤ num_blocks - 2 ∧
      (r' < R ∨ (r' = R ∧ b' ≤ B))
  · rw [if_pos hcond]
  · rw [if_neg hcond]
    have h0 : r' = 0 ∨ b' = 0 := by
      by_contra hcc
      push_neg at hcc
      exact hcond ⟨by omega, by omega, hb, hrR⟩
    rw [paths_base data transitions kmer_ranks e_start num_rows num_blocks
      init r' b' st' (by
        intro hreg
        obtain ⟨a1, a2, a3, a4⟩ := hreg
        rcases h0 with h0 | h0 <;> omega)]
    rw [Multiset.sum_singleton]

/-- Reading any already-settled cell of a Viterbi in-progress lattice
yields the maximal path weight, provided the initial values are
nonnegative. -/
theorem vitSpec_read (data : HMMInputData)
    (transitions : List BlockTransitions) (kmer_ranks : List ℕ)
    (e_start num_rows num_blocks : ℕ) (init : ℕ → ℕ → LogF)
    (R B r' b' st' : ℕ) (hst : st' < 3)
    (hrR : r' < R ∨ (r' = R ∧ b' ≤ B)) (hb : b' ≤ num_blocks - 2)
    (hinit : ∀ r c, 0 ≤ (init r c).prob) :
    vitSpec data transitions kmer_ranks e_start num_rows num_blocks init
        R B r' (PS_NUM_STATES * b' + st') =
      ⟨msup (paths data transitions kmer_ranks e_start num_rows num_blocks
          init r' b' st')⟩ := by
  have hPS : PS_NUM_STATES = 3 := rfl
  have hdiv : (PS_NUM_STATES * b' + st') / 3 = b' := by rw [hPS]; omega
  have hmod : (PS_NUM_STATES * b' + st') % 3 = st' := by rw [hPS]; omega
  rw [vitSpec, hdiv, hmod]
  by_cases hcond : 1 ≤ r' ∧ 1 ≤ b' ∧ b' ≤ num_blocks - 2 ∧
      (r' < R ∨ (r' = R ∧ b' ≤ B))
  · rw [if_pos hcond]
  · rw [if_neg hcond]
    have h0 : r' = 0 ∨ b' = 0 := by
      by_contra hcc
      push_neg at hcc
      exact hcond ⟨by omega, by omega, hb, hrR⟩
    rw [paths_base data transitions kmer_ranks e_start num_rows num_blocks
      init r' b' st' (by
        intro hreg
        obtain ⟨a1, a2, a3, a4⟩ := hreg
        rcases h0 with h0 | h0 <;> omega)]
    rw [msup_singleton]
    exact (LogF.ext' (max_eq_left (hinit r' _))).symm

theorem add_logs_negInf_left (v : LogF) : add_logs LogF.negInf v = v := by
  cases v
  simp [add_logs, LogF.negInf]

theorem add_logs_negInf_right (v : LogF) : add_logs v LogF.negInf = v := by
  cases v
  simp [add_logs, LogF.negInf]

/-- Any observation preserved by each loop body is preserved by the whole
`forUpTo` loop. -/
theorem forUpTo_invariant {σ α : Type} (f : ℕ → σ → σ) (g : σ → α)
    (hf : ∀ i s, g (f i s) = g s) : ∀ (n : ℕ) (s : σ),
    g (forUpTo f n s) = g s
  | 0, _ => rfl
  | n + 1, s => (hf (n + 1) (forUpTo f n s)).trans (forUpTo_invariant f g hf n s)

/-- Any predicate preserved by each loop body is preserved by the whole
`forUpTo` loop. -/
theorem forUpTo_preserve {σ : Type} (f : ℕ → σ → σ) (P : σ → Prop)
    (hf : ∀ i s, P s → P (f i s)) : ∀ (n : ℕ) (s : σ), P s → P (forUpTo f n s)
  | 0, _, h => h
  | n + 1, s, h => hf (n + 1) _ (forUpTo_preserve f P hf n s h)

/-- A pair of loops whose bodies preserve a binary relation preserve it
over the whole loop. -/
theorem forUpTo_rel {σ τ : Type} (f : ℕ → σ → σ) (g : ℕ → τ → τ)
    (R : σ → τ → Prop) (hf : ∀ i s t, R s t → R (f i s) (g i t)) :
    ∀ (n : ℕ) (s : σ) (t : τ), R s t → R (forUpTo f n s) (forUpTo g n t)
  | 0, _, _, h => h
  | n + 1, s, t, h => hf (n + 1) _ _ (forUpTo_rel f g R hf n s t h)

theorem forward_update_4_p_fm (o : ProfileHMMForwardOutput)
    (row col : ℕ) (m e k s' lp : LogF) :
    (o.update_4 row col m e k s' lp).p_fm =
      o.p_fm.set row col (add_logs (add_logs m e) (add_logs k s') + lp) := rfl

theorem forward_update_4_lp_end (o : ProfileHMMForwardOutput)
    (row col : ℕ) (m e k s' lp : LogF) :
    (o.update_4 row col m e k s' lp).lp_end = o.lp_end := rfl

theorem forward_update_end_p_fm (o : ProfileHMMForwardOutput) (v : LogF)
    (row col : ℕ) : (o.update_end v row col).p_fm = o.p_fm := rfl

theorem forward_update_end_lp_end (o : ProfileHMMForwardOutput) (v : LogF)
    (row col : ℕ) :
    (o.update_end v row col).lp_end.prob = o.lp_end.prob + v.prob := rfl

theorem forward_get_eq (o : ProfileHMMForwardOutput) (row col : ℕ) :
    ProfileHMMForwardOutput.get o row col = o.p_fm.data row col := rfl

theorem viterbi_update_4_p_fm (o : ProfileHMMViterbiOutput)
    (row col : ℕ) (m e k s' lp : LogF) :
    (o.update_4 row col m e k s' lp).p_fm =
      o.p_fm.set row col (LogF.max (LogF.max m e) (LogF.max k s') + lp) := rfl

theorem viterbi_update_4_p_bm (o : ProfileHMMViterbiOutput)
    (row col : ℕ) (m e k s' lp : LogF) :
    (o.update_4 row col m e k s' lp).p_bm =
      o.p_bm.set row col
        (if LogF.max (LogF.max m e) (LogF.max k s') = m then PS_MATCH
         else if LogF.max (LogF.max m e) (LogF.max k s') = e then PS_EVENT_SPLIT
         else if LogF.max (LogF.max m e) (LogF.max k s') = k then PS_KMER_SKIP
         else PS_PRE_SOFT) := rfl

theorem viterbi_update_4_lp_end (o : ProfileHMMViterbiOutput)
    (row col : ℕ) (m e k s' lp : LogF) :
    (o.update_4 row col m e k s' lp).lp_end = o.lp_end := rfl

theorem viterbi_get_eq (o : ProfileHMMViterbiOutput) (row col : ℕ) :
    ProfileHMMViterbiOutput.get o row col = o.p_fm.data row col := rfl

theorem viterbi_update_end_p_fm (o : ProfileHMMViterbiOutput) (v : LogF)
    (row col : ℕ) : (o.update_end v row col).p_fm = o.p_fm := by
  rw [ProfileHMMViterbiOutput.update_end]
  split <;> rfl

theorem viterbi_update_end_p_bm (o : ProfileHMMViterbiOutput) (v : LogF)
    (row col : ℕ) : (o.update_end v row col).p_bm = o.p_bm := by
  rw [ProfileHMMViterbiOutput.update_end]
  split <;> rfl

/-- Under the Forward strategy, the lattice written by a local block body
does not depend on `lp_ms` or on the end accumulator. -/
theorem fillBlockLocal_forward_p_fm_indep (data : HMMInputData)
    (transitions : List BlockTransitions) (kmer_ranks : List ℕ)
    (post_flank : List LogF) (lp_ms lp_ms' : LogF)
    (last_kmer_idx e_start row block : ℕ)
    (s s' : ProfileHMMForwardOutput) (hp : s.p_fm = s'.p_fm) :
    (fillBlockLocal forwardOutput data transitions kmer_ranks post_flank
        lp_ms last_kmer_idx e_start row block s).p_fm =
    (fillBlockLocal forwardOutput data transitions kmer_ranks post_flank
        lp_ms' last_kmer_idx e_start row block s').p_fm := by
  rw [fillBlockLocal, fillBlockLocal]
  try simp only []
  by_cases hc : block - 1 = last_kmer_idx
  · rw [if_pos hc, if_pos hc]
    simp only [forwardOutput, forward_update_end_p_fm, forward_update_4_p_fm,
      ProfileHMMForwardOutput.get, FloatMatrix.get, hp]
  · rw [if_neg hc, if_neg hc]
    simp only [forwardOutput, forward_update_4_p_fm,
      ProfileHMMForwardOutput.get, FloatMatrix.get, hp]

/-- Under the Viterbi strategy, the lattice and backtrace written by a
local block body do not depend on `lp_ms` or on the end accumulator. -/
theorem fillBlockLocal_viterbi_mats_indep (data : HMMInputData)
    (transitions : List BlockTransitions) (kmer_ranks : List ℕ)
    (post_flank : List LogF) (lp_ms lp_ms' : LogF)
    (last_kmer_idx e_start row block : ℕ)
    (s s' : ProfileHMMViterbiOutput) (hp : s.p_fm = s'.p_fm)
    (hb : s.p_bm = s'.p_bm) :
    (fillBlockLocal viterbiOutput data transitions kmer_ranks post_flank
        lp_ms last_kmer_idx e_start row block s).p_fm =
      (fillBlockLocal viterbiOutput data transitions kmer_ranks post_flank
        lp_ms' last_kmer_idx e_start row block s').p_fm ∧
    (fillBlockLocal viterbiOutput data transitions kmer_ranks post_flank
        lp_ms last_kmer_idx e_start row block s).p_bm =
      (fillBlockLocal viterbiOutput data transitions kmer_ranks post_flank
        lp_ms' last_kmer_idx e_start row block s').p_bm := by
  rw [fillBlockLocal, fillBlockLocal]
  try simp only []
  by_cases hc : block - 1 = last_kmer_idx
  · rw [if_pos hc, if_pos hc]
    constructor
    · simp only [viterbiOutput, viterbi_update_end_p_fm, viterbi_update_4_p_fm,
        viterbi_update_4_p_bm, ProfileHMMViterbiOutput.get, FloatMatrix.get,
        hp]
    · simp only [viterbiOutput, viterbi_update_end_p_bm, viterbi_update_4_p_fm,
        viterbi_update_4_p_bm, ProfileHMMViterbiOutput.get, FloatMatrix.get,
        hp, hb]
  · rw [if_neg hc, if_neg hc]
    constructor
    · simp only [viterbiOutput, viterbi_update_4_p_fm,
        ProfileHMMViterbiOutput.get, FloatMatrix.get, hp]
    · simp only [viterbiOutput, viterbi_update_4_p_fm, viterbi_update_4_p_bm,
        ProfileHMMViterbiOutput.get, FloatMatrix.get, hp, hb]

/-- Forward local sweeps differing only in `lp_ms` write the same lattice. -/
theorem localSweep_forward_p_fm_indep (data : HMMInputData)
    (transitions : List BlockTransitions) (kmer_ranks : List ℕ)
    (post_flank : List LogF) (lp_ms lp_ms' : LogF)
    (last_kmer_idx e_start num_rows num_blocks : ℕ)
    (s₀ : ProfileHMMForwardOutput) :
    (localSweep forwardOutput data transitions kmer_ranks post_flank lp_ms
        last_kmer_idx e_start num_rows num_blocks s₀).p_fm =
    (localSweep forwardOutput data transitions kmer_ranks post_flank lp_ms'
        last_kmer_idx e_start num_rows num_blocks s₀).p_fm := by
  refine forUpTo_rel _ _ (fun s t => s.p_fm = t.p_fm)
    (fun row s t h => ?_) _ s₀ s₀ rfl
  exact forUpTo_rel _ _ (fun s t => s.p_fm = t.p_fm)
    (fun block s t hh => fillBlockLocal_forward_p_fm_indep data transitions
      kmer_ranks post_flank lp_ms lp_ms' last_kmer_idx e_start row block
      s t hh) _ s t h

/-- Viterbi local sweeps differing only in `lp_ms` write the same lattice
and the same backtrace. -/
theorem localSweep_viterbi_mats_indep (data : HMMInputData)
    (transitions : List BlockTransitions) (kmer_ranks : List ℕ)
    (post_flank : List LogF) (lp_ms lp_ms' : LogF)
    (last_kmer_idx e_start num_rows num_blocks : ℕ)
    (s₀ : ProfileHMMViterbiOutput) :
    (localSweep viterbiOutput data transitions kmer_ranks post_flank lp_ms
        last_kmer_idx e_start num_rows num_blocks s₀).p_fm =
      (localSweep viterbiOutput data transitions kmer_ranks post_flank lp_ms'
        last_kmer_idx e_start num_rows num_blocks s₀).p_fm ∧
    (localSweep viterbiOutput data transitions kmer_ranks post_flank lp_ms
        last_kmer_idx e_start num_rows num_blocks s₀).p_bm =
      (localSweep viterbiOutput data transitions kmer_ranks post_flank lp_ms'
        last_kmer_idx e_start num_rows num_blocks s₀).p_bm := by
  refine forUpTo_rel _ _ (fun s t => s.p_fm = t.p_fm ∧ s.p_bm = t.p_bm)
    (fun row s t h => ?_) _ s₀ s₀ ⟨rfl, rfl⟩
  exact forUpTo_rel _ _ (fun s t => s.p_fm = t.p_fm ∧ s.p_bm = t.p_bm)
    (fun block s t hh => fillBlockLocal_viterbi_mats_indep data transitions
      kmer_ranks post_flank lp_ms lp_ms' last_kmer_idx e_start row block
      s t hh.1 hh.2) _ s t h

/-- C4: in the local fill engine the fourth (local-entry) input of the
match-state `update_4` call is exactly `-∞` for every row and block — the
block body equals the entry-generalized body at the constantly-`-∞` entry
function — and the uniform prior `lp_ms = log(1/num_kmers)` influences
only the end-transition updates: sweeps differing solely in `lp_ms`
produce identical lattices (and, under Viterbi, identical backtraces), so
no match cell ever receives a local-entry contribution. -/
theorem local_entry_disabled {σ : Type} (O : ProfileHMMOutput σ)
    (data : HMMInputData) (transitions : List BlockTransitions)
    (kmer_ranks : List ℕ) (post_flank : List LogF) (lp_ms lp_ms' : LogF)
    (last_kmer_idx e_start row block num_rows num_blocks : ℕ) (s : σ)
    (sF : ProfileHMMForwardOutput) (sV : ProfileHMMViterbiOutput) :
    fillBlockLocal O data transitions kmer_ranks post_flank lp_ms
        last_kmer_idx e_start row block s =
      fillBlockLocalEntry O data transitions kmer_ranks post_flank lp_ms
        last_kmer_idx e_start (fun _ => LogF.negInf) row block s ∧
    (localSweep forwardOutput data transitions kmer_ranks post_flank lp_ms
        last_kmer_idx e_start num_rows num_blocks sF).p_fm =
      (localSweep forwardOutput data transitions kmer_ranks post_flank lp_ms'
        last_kmer_idx e_start num_rows num_blocks sF).p_fm ∧
    (localSweep viterbiOutput data transitions kmer_ranks post_flank lp_ms
        last_kmer_idx e_start num_rows num_blocks sV).p_fm =
      (localSweep viterbiOutput data transitions kmer_ranks post_flank lp_ms'
        last_kmer_idx e_start num_rows num_blocks sV).p_fm ∧
    (localSweep viterbiOutput data transitions kmer_ranks post_flank lp_ms
        last_kmer_idx e_start num_rows num_blocks sV).p_bm =
      (localSweep viterbiOutput data transitions kmer_ranks post_flank lp_ms'
        last_kmer_idx e_start num_rows num_blocks sV).p_bm :=
  ⟨rfl,
   localSweep_forward_p_fm_indep data transitions kmer_ranks post_flank
     lp_ms lp_ms' last_kmer_idx e_start num_rows num_blocks sF,
   (localSweep_viterbi_mats_indep data transitions kmer_ranks post_flank
     lp_ms lp_ms' last_kmer_idx e_start num_rows num_blocks sV).1,
   (localSweep_viterbi_mats_indep data transitions kmer_ranks post_flank
     lp_ms lp_ms' last_kmer_idx e_start num_rows num_blocks sV).2⟩

theorem fillBlockGlobal_forward_lp_end (data : HMMInputData)
    (transitions : List BlockTransitions) (kmer_ranks : List ℕ)
    (e_start row block : ℕ) (s : ProfileHMMForwardOutput) :
    (fillBlockGlobal forwardOutput data transitions kmer_ranks e_start
      row block s).lp_end = s.lp_end := rfl

theorem fillBlockGlobal_viterbi_end (data : HMMInputData)
    (transitions : List BlockTransitions) (kmer_ranks : List ℕ)
    (e_start row block : ℕ) (s : ProfileHMMViterbiOutput) :
    ((fillBlockGlobal viterbiOutput data transitions kmer_ranks e_start
        row block s).lp_end,
     (fillBlockGlobal viterbiOutput data transitions kmer_ranks e_start
        row block s).end_row,
     (fillBlockGlobal viterbiOutput data transitions kmer_ranks e_start
        row block s).end_col) = (s.lp_end, s.end_row, s.end_col) := rfl

/-- The global sweep never touches the Forward end accumulator. -/
theorem globalSweep_forward_lp_end (data : HMMInputData)
    (transitions : List BlockTransitions) (kmer_ranks : List ℕ)
    (e_start num_rows num_blocks : ℕ) (s₀ : ProfileHMMForwardOutput) :
    (globalSweep forwardOutput data transitions kmer_ranks e_start
      num_rows num_blocks s₀).lp_end = s₀.lp_end := by
  refine forUpTo_invariant _ (fun s => s.lp_end) (fun row s => ?_) _ s₀
  exact forUpTo_invariant _ (fun s => s.lp_end)
    (fun block s' => fillBlockGlobal_forward_lp_end data transitions kmer_ranks
      e_start row block s') _ s

/-- The global sweep never touches the Viterbi end accumulator or its
recorded cell. -/
theorem globalSweep_viterbi_end (data : HMMInputData)
    (transitions : List BlockTransitions) (kmer_ranks : List ℕ)
    (e_start num_rows num_blocks : ℕ) (s₀ : ProfileHMMViterbiOutput) :
    ((globalSweep viterbiOutput data transitions kmer_ranks e_start
        num_rows num_blocks s₀).lp_end,
     (globalSweep viterbiOutput data transitions kmer_ranks e_start
        num_rows num_blocks s₀).end_row,
     (globalSweep viterbiOutput data transitions kmer_ranks e_start
        num_rows num_blocks s₀).end_col) = (s₀.lp_end, s₀.end_row, s₀.end_col) := by
  refine forUpTo_invariant _ (fun s => (s.lp_end, s.end_row, s.end_col))
    (fun row s => ?_) _ s₀
  exact forUpTo_invariant _ (fun s => (s.lp_end, s.end_row, s.end_col))
    (fun block s' => fillBlockGlobal_viterbi_end data transitions kmer_ranks
      e_start row block s') _ s

/-- C5: the global fill variant performs no per-row end updates — the sweep
leaves the end accumulator at its constructed `-∞` and the recorded end
cell untouched — and after the sweep it calls `update_end` exactly once,
with the value stored at the last event row and the match-state column of
block `num_blocks - 2`; the returned `get_end()` then equals that cell's
value for both strategies whenever the cell is finite (a finite log-domain
float has positive underlying probability). -/
theorem profile_hmm_fill_generic_global_spec
    (sequence : List Char) (data : HMMInputData) (e_start : ℕ)
    (fm fmV : FloatMatrix) (bm : UInt8Matrix) (r₀ c₀ : ℕ)
    (sF : ProfileHMMForwardOutput) (sV : ProfileHMMViterbiOutput)
    (hsF : sF = globalSweep forwardOutput data
      (calculate_transitions (fm.n_cols / PS_NUM_STATES - 2) sequence data)
      ((List.range (fm.n_cols / PS_NUM_STATES - 2)).map (data.get_rank sequence))
      e_start fm.n_rows (fm.n_cols / PS_NUM_STATES) (mkForwardOutput fm))
    (hsV : sV = globalSweep viterbiOutput data
      (calculate_transitions (fmV.n_cols / PS_NUM_STATES - 2) sequence data)
      ((List.range (fmV.n_cols / PS_NUM_STATES - 2)).map (data.get_rank sequence))
      e_start fmV.n_rows (fmV.n_cols / PS_NUM_STATES)
      (mkViterbiOutput fmV bm r₀ c₀))
    (hfinF : 0 < (sF.p_fm.get (fm.n_rows - 1)
      (PS_NUM_STATES * (fm.n_cols / PS_NUM_STATES - 2) + PS_MATCH)).prob)
    (hfinV : 0 < (sV.p_fm.get (fmV.n_rows - 1)
      (PS_NUM_STATES * (fmV.n_cols / PS_NUM_STATES - 2) + PS_MATCH)).prob) :
    sF.lp_end = LogF.negInf ∧
    (sV.lp_end, sV.end_row, sV.end_col) = (LogF.negInf, r₀, c₀) ∧
    (profile_hmm_fill_generic_global forwardOutput sequence data e_start
      (mkForwardOutput fm)).1 =
      sF.p_fm.get (fm.n_rows - 1)
        (PS_NUM_STATES * (fm.n_cols / PS_NUM_STATES - 2) + PS_MATCH) ∧
    (profile_hmm_fill_generic_global viterbiOutput sequence data e_start
      (mkViterbiOutput fmV bm r₀ c₀)).1 =
      sV.p_fm.get (fmV.n_rows - 1)
        (PS_NUM_STATES * (fmV.n_cols / PS_NUM_STATES - 2) + PS_MATCH) ∧
    (profile_hmm_fill_generic_global viterbiOutput sequence data e_start
      (mkViterbiOutput fmV bm r₀ c₀)).2.end_row = fmV.n_rows - 1 ∧
    (profile_hmm_fill_generic_global viterbiOutput sequence data e_start
      (mkViterbiOutput fmV bm r₀ c₀)).2.end_col =
      PS_NUM_STATES * (fmV.n_cols / PS_NUM_STATES - 2) + PS_MATCH := by
  have hlpF : sF.lp_end = LogF.negInf := by
    rw [hsF, globalSweep_forward_lp_end]
    rfl
  have hendV : (sV.lp_end, sV.end_row, sV.end_col) = (LogF.negInf, r₀, c₀) := by
    rw [hsV]
    exact globalSweep_viterbi_end data _ _ e_start fmV.n_rows
      (fmV.n_cols / PS_NUM_STATES) (mkViterbiOutput fmV bm r₀ c₀)
  have hlpV : sV.lp_end = LogF.negInf := congrArg Prod.fst hendV
  have hcond : sV.lp_end <
      sV.p_fm.get (fmV.n_rows - 1)
        (PS_NUM_STATES * (fmV.n_cols / PS_NUM_STATES - 2) + PS_MATCH) := by
    rw [hlpV]
    exact hfinV
  refine ⟨hlpF, hendV, ?_, ?_, ?_, ?_⟩
  · show add_logs
      (globalSweep forwardOutput data
        (calculate_transitions (fm.n_cols / PS_NUM_STATES - 2) sequence data)
        ((List.range (fm.n_cols / PS_NUM_STATES - 2)).map (data.get_rank sequence))
        e_start fm.n_rows (fm.n_cols / PS_NUM_STATES) (mkForwardOutput fm)).lp_end
      ((globalSweep forwardOutput data
        (calculate_transitions (fm.n_cols / PS_NUM_STATES - 2) sequence data)
        ((List.range (fm.n_cols / PS_NUM_STATES - 2)).map (data.get_rank sequence))
        e_start fm.n_rows (fm.n_cols / PS_NUM_STATES)
        (mkForwardOutput fm)).p_fm.get (fm.n_rows - 1)
        (PS_NUM_STATES * (fm.n_cols / PS_NUM_STATES - 2) + PS_MATCH)) = _
    rw [← hsF, hlpF]
    exact add_logs_negInf_left _
  · show (ProfileHMMViterbiOutput.update_end
      (globalSweep viterbiOutput data
        (calculate_transitions (fmV.n_cols / PS_NUM_STATES - 2) sequence data)
        ((List.range (fmV.n_cols / PS_NUM_STATES - 2)).map (data.get_rank sequence))
        e_start fmV.n_rows (fmV.n_cols / PS_NUM_STATES)
        (mkViterbiOutput fmV bm r₀ c₀))
      ((globalSweep viterbiOutput data
        (calculate_transitions (fmV.n_cols / PS_NUM_STATES - 2) sequence data)
        ((List.range (fmV.n_cols / PS_NUM_STATES - 2)).map (data.get_rank sequence))
        e_start fmV.n_rows (fmV.n_cols / PS_NUM_STATES)
        (mkViterbiOutput fmV bm r₀ c₀)).p_fm.get (fmV.n_rows - 1)
        (PS_NUM_STATES * (fmV.n_cols / PS_NUM_STATES - 2) + PS_MATCH))
      (fmV.n_rows - 1)
      (PS_NUM_STATES * (fmV.n_cols / PS_NUM_STATES - 2) + PS_MATCH)).lp_end = _
    rw [← hsV, ProfileHMMViterbiOutput.update_end, if_pos hcond]
  · show (ProfileHMMViterbiOutput.update_end
      (globalSweep viterbiOutput data
        (calculate_transitions (fmV.n_cols / PS_NUM_STATES - 2) sequence data)
        ((List.range (fmV.n_cols / PS_NUM_STATES - 2)).map (data.get_rank sequence))
        e_start fmV.n_rows (fmV.n_cols / PS_NUM_STATES)
        (mkViterbiOutput fmV bm r₀ c₀))
      ((globalSweep viterbiOutput data
        (calculate_transitions (fmV.n_cols / PS_NUM_STATES - 2) sequence data)
        ((List.range (fmV.n_cols / PS_NUM_STATES - 2)).map (data.get_rank sequence))
        e_start fmV.n_rows (fmV.n_cols / PS_NUM_STATES)
        (mkViterbiOutput fmV bm r₀ c₀)).p_fm.get (fmV.n_rows - 1)
        (PS_NUM_STATES * (fmV.n_cols / PS_NUM_STATES - 2) + PS_MATCH))
      (fmV.n_rows - 1)
      (PS_NUM_STATES * (fmV.n_cols / PS_NUM_STATES - 2) + PS_MATCH)).end_row = _
    rw [← hsV, ProfileHMMViterbiOutput.update_end, if_pos hcond]
  · show (ProfileHMMViterbiOutput.update_end
      (globalSweep viterbiOutput data
        (calculate_transitions (fmV.n_cols / PS_NUM_STATES - 2) sequence data)
        ((List.range (fmV.n_cols / PS_NUM_STATES - 2)).map (data.get_rank sequence))
        e_start fmV.n_rows (fmV.n_cols / PS_NUM_STATES)
        (mkViterbiOutput fmV bm r₀ c₀))
      ((globalSweep viterbiOutput data
        (calculate_transitions (fmV.n_cols / PS_NUM_STATES - 2) sequence data)
        ((List.range (fmV.n_cols / PS_NUM_STATES - 2)).map (data.get_rank sequence))
        e_start fmV.n_rows (fmV.n_cols / PS_NUM_STATES)
        (mkViterbiOutput fmV bm r₀ c₀)).p_fm.get (fmV.n_rows - 1)
        (PS_NUM_STATES * (fmV.n_cols / PS_NUM_STATES - 2) + PS_MATCH))
      (fmV.n_rows - 1)
      (PS_NUM_STATES * (fmV.n_cols / PS_NUM_STATES - 2) + PS_MATCH)).end_col = _
    rw [← hsV, ProfileHMMViterbiOutput.update_end, if_pos hcond]

theorem calculate_transitions_nonneg (num_kmers : ℕ) (sequence : List Char)
    (data : HMMInputData) (hW : WFInput data) :
    ∀ bt ∈ calculate_transitions num_kmers sequence data,
      BlockTransitionsNonneg bt := by
  intro bt hbt
  rw [calculate_transitions, List.mem_map] at hbt
  obtain ⟨ki, -, hbt⟩ := hbt
  subst hbt
  have hskip : 0 ≤ (if ki > 0 then
        calculate_skip_probability sequence data (ki - 1) ki else 0) ∧
      (if ki > 0 then
        calculate_skip_probability sequence data (ki - 1) ki else 0) ≤ 1 := by
    split
    · exact hW.skip_mem _ _
    · norm_num
  obtain ⟨hs0, hs1⟩ := hskip
  obtain ⟨ht0, ht1⟩ := hW.m2e_mem
  obtain ⟨he0, he1⟩ := hW.e2e_mem
  refine ⟨?_, hs0, ?_, he0, by simp [log]; linarith, hs0, by simp [log]; linarith⟩
  · simp only [log]
    exact mul_nonneg (by linarith) ht0
  · simp only [log]
    have heq : 1 - (1 - (if ki > 0 then
          calculate_skip_probability sequence data (ki - 1) ki else 0)) *
          data.parameters.trans_m_to_e_not_k -
        (if ki > 0 then
          calculate_skip_probability sequence data (ki - 1) ki else 0) =
        (1 - (if ki > 0 then
          calculate_skip_probability sequence data (ki - 1) ki else 0)) *
        (1 - data.parameters.trans_m_to_e_not_k) := by ring
    rw [heq]
    exact mul_nonneg (by linarith) (by linarith)

theorem getD_transitions_nonneg {l : List BlockTransitions}
    (h : ∀ bt ∈ l, BlockTransitionsNonneg bt) (i : ℕ) :
    BlockTransitionsNonneg (l.getD i default) := by
  rcases Nat.lt_or_ge i l.length with hi | hi
  · rw [List.getD_eq_getElem l default hi]
    exact h _ (List.getElem_mem hi)
  · rw [List.getD_eq_default l default hi]
    exact ⟨le_rfl, le_rfl, le_rfl, le_rfl, le_rfl, le_rfl, le_rfl⟩

/-- The maximum of four log-domain values is one of them. -/
theorem max4_cases (m e k s : LogF) :
    LogF.max (LogF.max m e) (LogF.max k s) = m ∨
    LogF.max (LogF.max m e) (LogF.max k s) = e ∨
    LogF.max (LogF.max m e) (LogF.max k s) = k ∨
    LogF.max (LogF.max m e) (LogF.max k s) = s := by
  have hp : (LogF.max (LogF.max m e) (LogF.max k s)).prob =
      Max.max (Max.max m.prob e.prob) (Max.max k.prob s.prob) := rfl
  rcases max_cases (Max.max m.prob e.prob) (Max.max k.prob s.prob) with
    ⟨h1, -⟩ | ⟨h1, -⟩
  · rcases max_cases m.prob e.prob with ⟨h2, -⟩ | ⟨h2, -⟩
    · exact Or.inl (LogF.ext' (by rw [hp, h1, h2]))
    · exact Or.inr (Or.inl (LogF.ext' (by rw [hp, h1, h2])))
  · rcases max_cases k.prob s.prob with ⟨h2, -⟩ | ⟨h2, -⟩
    · exact Or.inr (Or.inr (Or.inl (LogF.ext' (by rw [hp, h1, h2]))))
    · exact Or.inr (Or.inr (Or.inr (LogF.ext' (by rw [hp, h1, h2]))))

/-- A Viterbi `update_4` whose fourth (local-entry) input is `-∞` and whose
other inputs are nonnegative probabilities preserves the invariant: the new
cell is nonnegative and the recorded branch is never `PS_PRE_SOFT` (the
fixed tie-break order picks an earlier branch). -/
theorem viterbi_update_4_no_presoft (o : ProfileHMMViterbiOutput)
    (row col : ℕ) (m e k lp : LogF)
    (hm : 0 ≤ m.prob) (he : 0 ≤ e.prob) (hk : 0 ≤ k.prob)
    (hlp : 0 ≤ lp.prob) (hInv : ViterbiNoPreSoft o) :
    ViterbiNoPreSoft (o.update_4 row col m e k LogF.negInf lp) := by
  have hmx : 0 ≤ (LogF.max (LogF.max m e) (LogF.max k LogF.negInf)).prob :=
    le_trans hk (le_trans (le_max_left k.prob 0)
      (le_max_right (Max.max m.prob e.prob) (Max.max k.prob 0)))
  constructor
  · intro r c
    rw [ProfileHMMViterbiOutput.update_4]
    simp only [FloatMatrix.set]
    split
    · exact mul_nonneg hmx hlp
    · exact hInv.1 r c
  · intro r c
    rw [ProfileHMMViterbiOutput.update_4]
    simp only [UInt8Matrix.set]
    split
    · -- the newly written tag
      rcases max4_cases m e k LogF.negInf with h4 | h4 | h4 | h4 <;>
        [rw [if_pos h4]; skip; skip; skip]
      · decide
      · by_cases hm' : LogF.max (LogF.max m e) (LogF.max k LogF.negInf) = m
        · rw [if_pos hm']; decide
        · rw [if_neg hm', if_pos h4]; decide
      · by_cases hm' : LogF.max (LogF.max m e) (LogF.max k LogF.negInf) = m
        · rw [if_pos hm']; decide
        · by_cases he' : LogF.max (LogF.max m e) (LogF.max k LogF.negInf) = e
          · rw [if_neg hm', if_pos he']; decide
          · rw [if_neg hm', if_neg he', if_pos h4]; decide
      · -- the maximum cannot be the `-∞` local-entry input alone: it
        -- dominates the nonnegative kmer-skip input, so it also equals it
        by_cases hm' : LogF.max (LogF.max m e) (LogF.max k LogF.negInf) = m
        · rw [if_pos hm']; decide
        · by_cases he' : LogF.max (LogF.max m e) (LogF.max k LogF.negInf) = e
          · rw [if_neg hm', if_pos he']; decide
          · have hk' : LogF.max (LogF.max m e) (LogF.max k LogF.negInf) = k := by
              have h0 : (LogF.max (LogF.max m e) (LogF.max k LogF.negInf)).prob = 0 := by
                rw [h4]; rfl
              have hkk : k.prob ≤ 0 := by
                have hle := le_trans (le_max_left k.prob (0:ℚ))
                  (le_max_right (Max.max m.prob e.prob) (Max.max k.prob 0))
                have h0' : Max.max (Max.max m.prob e.prob)
                    (Max.max k.prob 0) = 0 := h0
                exact le_trans hle (le_of_eq h0')
              exact LogF.ext' (by rw [h0]; exact (le_antisymm hkk hk).symm)
            rw [if_neg hm', if_neg he', if_pos hk']; decide
    · exact hInv.2 r c

theorem viterbi_update_end_inv (o : ProfileHMMViterbiOutput) (v : LogF)
    (row col : ℕ) (h : ViterbiNoPreSoft o) :
    ViterbiNoPreSoft (o.update_end v row col) := by
  constructor
  · intro r' c'
    rw [viterbi_update_end_p_fm]
    exact h.1 r' c'
  · intro r' c'
    rw [viterbi_update_end_p_bm]
    exact h.2 r' c'

/-- One local-fill block iteration under the Viterbi strategy preserves the
no-`PS_PRE_SOFT` invariant. -/
theorem fillBlockLocal_viterbi_inv (data : HMMInputData)
    (transitions : List BlockTransitions) (kmer_ranks : List ℕ)
    (post_flank : List LogF) (lp_ms : LogF)
    (last_kmer_idx e_start row block : ℕ)
    (s : ProfileHMMViterbiOutput) (hW : WFInput data)
    (htrans : ∀ bt ∈ transitions, BlockTransitionsNonneg bt)
    (hInv : ViterbiNoPreSoft s) :
    ViterbiNoPreSoft (fillBlockLocal viterbiOutput data transitions kmer_ranks
      post_flank lp_ms last_kmer_idx e_start row block s) := by
  obtain ⟨hme, hmk, hmm, hee, hem, hkk, hkm⟩ :=
    getD_transitions_nonneg htrans (block - 1)
  rw [fillBlockLocal]
  try simp only []
  split
  · refine viterbi_update_end_inv _ _ _ _
      (viterbi_update_end_inv _ _ _ _ (viterbi_update_end_inv _ _ _ _ ?_))
    refine viterbi_update_4_no_presoft _ _ _ _ _ _ _
      ?_ le_rfl ?_ (by norm_num [log]) ?_
    · exact mul_nonneg hmk ((viterbi_update_4_no_presoft _ _ _ _ _ _ _
        (mul_nonneg hme ((viterbi_update_4_no_presoft _ _ _ _ _ _ _
          (mul_nonneg hmm (hInv.1 _ _)) (mul_nonneg hem (hInv.1 _ _))
          (mul_nonneg hkm (hInv.1 _ _)) (hW.match_nonneg _ _) hInv).1 _ _))
        (mul_nonneg hee ((viterbi_update_4_no_presoft _ _ _ _ _ _ _
          (mul_nonneg hmm (hInv.1 _ _)) (mul_nonneg hem (hInv.1 _ _))
          (mul_nonneg hkm (hInv.1 _ _)) (hW.match_nonneg _ _) hInv).1 _ _))
        le_rfl (hW.insert_nonneg _ _)
        (viterbi_update_4_no_presoft _ _ _ _ _ _ _
          (mul_nonneg hmm (hInv.1 _ _)) (mul_nonneg hem (hInv.1 _ _))
          (mul_nonneg hkm (hInv.1 _ _)) (hW.match_nonneg _ _) hInv)).1 _ _)
    · exact mul_nonneg hkk ((viterbi_update_4_no_presoft _ _ _ _ _ _ _
        (mul_nonneg hme ((viterbi_update_4_no_presoft _ _ _ _ _ _ _
          (mul_nonneg hmm (hInv.1 _ _)) (mul_nonneg hem (hInv.1 _ _))
          (mul_nonneg hkm (hInv.1 _ _)) (hW.match_nonneg _ _) hInv).1 _ _))
        (mul_nonneg hee ((viterbi_update_4_no_presoft _ _ _ _ _ _ _
          (mul_nonneg hmm (hInv.1 _ _)) (mul_nonneg hem (hInv.1 _ _))
          (mul_nonneg hkm (hInv.1 _ _)) (hW.match_nonneg _ _) hInv).1 _ _))
        le_rfl (hW.insert_nonneg _ _)
        (viterbi_update_4_no_presoft _ _ _ _ _ _ _
          (mul_nonneg hmm (hInv.1 _ _)) (mul_nonneg hem (hInv.1 _ _))
          (mul_nonneg hkm (hInv.1 _ _)) (hW.match_nonneg _ _) hInv)).1 _ _)
    · exact viterbi_update_4_no_presoft _ _ _ _ _ _ _
        (mul_nonneg hme ((viterbi_update_4_no_presoft _ _ _ _ _ _ _
          (mul_nonneg hmm (hInv.1 _ _)) (mul_nonneg hem (hInv.1 _ _))
          (mul_nonneg hkm (hInv.1 _ _)) (hW.match_nonneg _ _) hInv).1 _ _))
        (mul_nonneg hee ((viterbi_update_4_no_presoft _ _ _ _ _ _ _
          (mul_nonneg hmm (hInv.1 _ _)) (mul_nonneg hem (hInv.1 _ _))
          (mul_nonneg hkm (hInv.1 _ _)) (hW.match_nonneg _ _) hInv).1 _ _))
        le_rfl (hW.insert_nonneg _ _)
        (viterbi_update_4_no_presoft _ _ _ _ _ _ _
          (mul_nonneg hmm (hInv.1 _ _)) (mul_nonneg hem (hInv.1 _ _))
          (mul_nonneg hkm (hInv.1 _ _)) (hW.match_nonneg _ _) hInv)
  · refine viterbi_update_4_no_presoft _ _ _ _ _ _ _
      ?_ le_rfl ?_ (by norm_num [log]) ?_
    · exact mul_nonneg hmk ((viterbi_update_4_no_presoft _ _ _ _ _ _ _
        (mul_nonneg hme ((viterbi_update_4_no_presoft _ _ _ _ _ _ _
          (mul_nonneg hmm (hInv.1 _ _)) (mul_nonneg hem (hInv.1 _ _))
          (mul_nonneg hkm (hInv.1 _ _)) (hW.match_nonneg _ _) hInv).1 _ _))
        (mul_nonneg hee ((viterbi_update_4_no_presoft _ _ _ _ _ _ _
          (mul_nonneg hmm (hInv.1 _ _)) (mul_nonneg hem (hInv.1 _ _))
          (mul_nonneg hkm (hInv.1 _ _)) (hW.match_nonneg _ _) hInv).1 _ _))
        le_rfl (hW.insert_nonneg _ _)
        (viterbi_update_4_no_presoft _ _ _ _ _ _ _
          (mul_nonneg hmm (hInv.1 _ _)) (mul_nonneg hem (hInv.1 _ _))
          (mul_nonneg hkm (hInv.1 _ _)) (hW.match_nonneg _ _) hInv)).1 _ _)
    · exact mul_nonneg hkk ((viterbi_update_4_no_presoft _ _ _ _ _ _ _
        (mul_nonneg hme ((viterbi_update_4_no_presoft _ _ _ _ _ _ _
          (mul_nonneg hmm (hInv.1 _ _)) (mul_nonneg hem (hInv.1 _ _))
          (mul_nonneg hkm (hInv.1 _ _)) (hW.match_nonneg _ _) hInv).1 _ _))
        (mul_nonneg hee ((viterbi_update_4_no_presoft _ _ _ _ _ _ _
          (mul_nonneg hmm (hInv.1 _ _)) (mul_nonneg hem (hInv.1 _ _))
          (mul_nonneg hkm (hInv.1 _ _)) (hW.match_nonneg _ _) hInv).1 _ _))
        le_rfl (hW.insert_nonneg _ _)
        (viterbi_update_4_no_presoft _ _ _ _ _ _ _
          (mul_nonneg hmm (hInv.1 _ _)) (mul_nonneg hem (hInv.1 _ _))
          (mul_nonneg hkm (hInv.1 _ _)) (hW.match_nonneg _ _) hInv)).1 _ _)
    · exact viterbi_update_4_no_presoft _ _ _ _ _ _ _
        (mul_nonneg hme ((viterbi_update_4_no_presoft _ _ _ _ _ _ _
          (mul_nonneg hmm (hInv.1 _ _)) (mul_nonneg hem (hInv.1 _ _))
          (mul_nonneg hkm (hInv.1 _ _)) (hW.match_nonneg _ _) hInv).1 _ _))
        (mul_nonneg hee ((viterbi_update_4_no_presoft _ _ _ _ _ _ _
          (mul_nonneg hmm (hInv.1 _ _)) (mul_nonneg hem (hInv.1 _ _))
          (mul_nonneg hkm (hInv.1 _ _)) (hW.match_nonneg _ _) hInv).1 _ _))
        le_rfl (hW.insert_nonneg _ _)
        (viterbi_update_4_no_presoft _ _ _ _ _ _ _
          (mul_nonneg hmm (hInv.1 _ _)) (mul_nonneg hem (hInv.1 _ _))
          (mul_nonneg hkm (hInv.1 _ _)) (hW.match_nonneg _ _) hInv)

/-- One global-fill block iteration under the Viterbi strategy preserves
the no-`PS_PRE_SOFT` invariant. -/
theorem fillBlockGlobal_viterbi_inv (data : HMMInputData)
    (transitions : List BlockTransitions) (kmer_ranks : List ℕ)
    (e_start row block : ℕ)
    (s : ProfileHMMViterbiOutput) (hW : WFInput data)
    (htrans : ∀ bt ∈ transitions, BlockTransitionsNonneg bt)
    (hInv : ViterbiNoPreSoft s) :
    ViterbiNoPreSoft (fillBlockGlobal viterbiOutput data transitions kmer_ranks
      e_start row block s) := by
  obtain ⟨hme, hmk, hmm, hee, hem, hkk, hkm⟩ :=
    getD_transitions_nonneg htrans (block - 1)
  rw [fillBlockGlobal]
  try simp only []
  refine viterbi_update_4_no_presoft _ _ _ _ _ _ _
    ?_ le_rfl ?_ (by norm_num [log]) ?_
  · exact mul_nonneg hmk ((viterbi_update_4_no_presoft _ _ _ _ _ _ _
      (mul_nonneg hme ((viterbi_update_4_no_presoft _ _ _ _ _ _ _
        (mul_nonneg hmm (hInv.1 _ _)) (mul_nonneg hem (hInv.1 _ _))
        (mul_nonneg hkm (hInv.1 _ _)) (hW.match_nonneg _ _) hInv).1 _ _))
      (mul_nonneg hee ((viterbi_update_4_no_presoft _ _ _ _ _ _ _
        (mul_nonneg hmm (hInv.1 _ _)) (mul_nonneg hem (hInv.1 _ _))
        (mul_nonneg hkm (hInv.1 _ _)) (hW.match_nonneg _ _) hInv).1 _ _))
      le_rfl (hW.insert_nonneg _ _)
      (viterbi_update_4_no_presoft _ _ _ _ _ _ _
        (mul_nonneg hmm (hInv.1 _ _)) (mul_nonneg hem (hInv.1 _ _))
        (mul_nonneg hkm (hInv.1 _ _)) (hW.match_nonneg _ _) hInv)).1 _ _)
  · exact mul_nonneg hkk ((viterbi_update_4_no_presoft _ _ _ _ _ _ _
      (mul_nonneg hme ((viterbi_update_4_no_presoft _ _ _ _ _ _ _
        (mul_nonneg hmm (hInv.1 _ _)) (mul_nonneg hem (hInv.1 _ _))
        (mul_nonneg hkm (hInv.1 _ _)) (hW.match_nonneg _ _) hInv).1 _ _))
      (mul_nonneg hee ((viterbi_update_4_no_presoft _ _ _ _ _ _ _
        (mul_nonneg hmm (hInv.1 _ _)) (mul_nonneg hem (hInv.1 _ _))
        (mul_nonneg hkm (hInv.1 _ _)) (hW.match_nonneg _ _) hInv).1 _ _))
      le_rfl (hW.insert_nonneg _ _)
      (viterbi_update_4_no_presoft _ _ _ _ _ _ _
        (mul_nonneg hmm (hInv.1 _ _)) (mul_nonneg hem (hInv.1 _ _))
        (mul_nonneg hkm (hInv.1 _ _)) (hW.match_nonneg _ _) hInv)).1 _ _)
  · exact viterbi_update_4_no_presoft _ _ _ _ _ _ _
      (mul_nonneg hme ((viterbi_update_4_no_presoft _ _ _ _ _ _ _
        (mul_nonneg hmm (hInv.1 _ _)) (mul_nonneg hem (hInv.1 _ _))
        (mul_nonneg hkm (hInv.1 _ _)) (hW.match_nonneg _ _) hInv).1 _ _))
      (mul_nonneg hee ((viterbi_update_4_no_presoft _ _ _ _ _ _ _
        (mul_nonneg hmm (hInv.1 _ _)) (mul_nonneg hem (hInv.1 _ _))
        (mul_nonneg hkm (hInv.1 _ _)) (hW.match_nonneg _ _) hInv).1 _ _))
      le_rfl (hW.insert_nonneg _ _)
      (viterbi_update_4_no_presoft _ _ _ _ _ _ _
        (mul_nonneg hmm (hInv.1 _ _)) (mul_nonneg hem (hInv.1 _ _))
        (mul_nonneg hkm (hInv.1 _ _)) (hW.match_nonneg _ _) hInv)

/-- The whole local Viterbi sweep preserves the invariant. -/
theorem localSweep_viterbi_inv (data : HMMInputData)
    (transitions : List BlockTransitions) (kmer_ranks : List ℕ)
    (post_flank : List LogF) (lp_ms : LogF)
    (last_kmer_idx e_start num_rows num_blocks : ℕ)
    (s₀ : ProfileHMMViterbiOutput) (hW : WFInput data)
    (htrans : ∀ bt ∈ transitions, BlockTransitionsNonneg bt)
    (hInv : ViterbiNoPreSoft s₀) :
    ViterbiNoPreSoft (localSweep viterbiOutput data transitions kmer_ranks
      post_flank lp_ms last_kmer_idx e_start num_rows num_blocks s₀) := by
  refine forUpTo_preserve _ ViterbiNoPreSoft (fun row s h => ?_) _ s₀ hInv
  exact forUpTo_preserve _ ViterbiNoPreSoft
    (fun block s' h' => fillBlockLocal_viterbi_inv data transitions kmer_ranks
      post_flank lp_ms last_kmer_idx e_start row block s' hW htrans h') _ s h

/-- The whole global Viterbi sweep preserves the invariant. -/
theorem globalSweep_viterbi_inv (data : HMMInputData)
    (transitions : List BlockTransitions) (kmer_ranks : List ℕ)
    (e_start num_rows num_blocks : ℕ)
    (s₀ : ProfileHMMViterbiOutput) (hW : WFInput data)
    (htrans : ∀ bt ∈ transitions, BlockTransitionsNonneg bt)
    (hInv : ViterbiNoPreSoft s₀) :
    ViterbiNoPreSoft (globalSweep viterbiOutput data transitions kmer_ranks
      e_start num_rows num_blocks s₀) := by
  refine forUpTo_preserve _ ViterbiNoPreSoft (fun row s h => ?_) _ s₀ hInv
  exact forUpTo_preserve _ ViterbiNoPreSoft
    (fun block s' h' => fillBlockGlobal_viterbi_inv data transitions kmer_ranks
      e_start row block s' hW htrans h') _ s h

/-- C10: when either fill variant runs with the Viterbi strategy on a
well-formed bundle and a nonnegative initial lattice whose backtrace
matrix holds no `PS_PRE_SOFT`, every backtrace cell after the fill is
still not `PS_PRE_SOFT` — the fourth `update_4` input is always `-∞` and
the tie-break order selects an earlier branch. -/
theorem viterbi_fill_no_presoft
    (sequence : List Char) (data : HMMInputData) (e_start : ℕ)
    (fm : FloatMatrix) (bm : UInt8Matrix) (r₀ c₀ : ℕ)
    (resL : LogF × ProfileHMMViterbiOutput) (r c : ℕ)
    (hW : WFInput data)
    (hfm : ∀ r' c', 0 ≤ (fm.data r' c').prob)
    (hbm : ∀ r' c', bm.data r' c' ≠ PS_PRE_SOFT)
    (hresL : profile_hmm_fill_generic_local viterbiOutput sequence data e_start
      (mkViterbiOutput fm bm r₀ c₀) = some resL) :
    resL.2.p_bm.data r c ≠ PS_PRE_SOFT ∧
    (profile_hmm_fill_generic_global viterbiOutput sequence data e_start
      (mkViterbiOutput fm bm r₀ c₀)).2.p_bm.data r c ≠ PS_PRE_SOFT := by
  have hInv0 : ViterbiNoPreSoft (mkViterbiOutput fm bm r₀ c₀) := ⟨hfm, hbm⟩
  have htrans := calculate_transitions_nonneg
    (fm.n_cols / PS_NUM_STATES - 2) sequence data hW
  constructor
  · rw [profile_hmm_fill_generic_local] at hresL
    try simp only [] at hresL
    rcases hpre : make_pre_flanking data data.parameters e_start
        (viterbiOutput.get_num_rows (mkViterbiOutput fm bm r₀ c₀) - 1) with
      - | pre
    · rw [hpre] at hresL
      simp at hresL
    · rw [hpre] at hresL
      try simp only [] at hresL
      rcases hpost : make_post_flanking data data.parameters e_start
          (viterbiOutput.get_num_rows (mkViterbiOutput fm bm r₀ c₀) - 1) with
        - | post
      · rw [hpost] at hresL
        simp at hresL
      · rw [hpost] at hresL
        try simp only [] at hresL
        have hres := Option.some.inj hresL
        rw [← hres]
        exact (localSweep_viterbi_inv data _ _ post _ _ e_start _ _
          (mkViterbiOutput fm bm r₀ c₀) hW htrans hInv0).2 r c
  · show (ProfileHMMViterbiOutput.update_end
      (globalSweep viterbiOutput data
        (calculate_transitions (fm.n_cols / PS_NUM_STATES - 2) sequence data)
        ((List.range (fm.n_cols / PS_NUM_STATES - 2)).map (data.get_rank sequence))
        e_start fm.n_rows (fm.n_cols / PS_NUM_STATES)
        (mkViterbiOutput fm bm r₀ c₀)) _ _ _).p_bm.data r c ≠ PS_PRE_SOFT
    rw [viterbi_update_end_p_bm]
    exact (globalSweep_viterbi_inv data _ _ e_start fm.n_rows
      (fm.n_cols / PS_NUM_STATES) (mkViterbiOutput fm bm r₀ c₀) hW htrans
      hInv0).2 r c

/-- The sample bundle is well-formed. -/
theorem sampleData_wf : WFInput sampleData :=
  ⟨fun _ _ => by norm_num [sampleData],
   by norm_num [sampleData], by norm_num [sampleData],
   by norm_num [sampleData], by norm_num [sampleData],
   fun _ _ => by norm_num [sampleData],
   fun _ _ => by norm_num [sampleData],
   fun _ => by norm_num [sampleData]⟩

/-- Witness for C10 on the concrete 2-event/1-kmer lattice, inspecting the
final kmer's match-state cell of row 1. -/
theorem viterbi_fill_no_presoft_witness :
    ((profile_hmm_fill_generic_local viterbiOutput [] sampleData 0
        (mkViterbiOutput fm3 bm3 0 0)).getD
      (LogF.negInf, mkViterbiOutput fm3 bm3 0 0)).2.p_bm.data 1 3 ≠
      PS_PRE_SOFT ∧
    (profile_hmm_fill_generic_global viterbiOutput [] sampleData 0
      (mkViterbiOutput fm3 bm3 0 0)).2.p_bm.data 1 3 ≠ PS_PRE_SOFT :=
  viterbi_fill_no_presoft [] sampleData 0 fm3 bm3 0 0 _ 1 3 sampleData_wf
    (fun r' c' => by
      show (0:ℚ) ≤ if r' = 0 ∧ c' = 0 then 1 else 0
      split <;> norm_num)
    (fun _ _ => by
      show (0:ℕ) ≠ PS_PRE_SOFT
      decide)
    rfl

/-- Witness for C5 on the concrete 1-event/1-kmer lattice. -/
theorem profile_hmm_fill_generic_global_spec_witness :
    gSweepFw.lp_end = LogF.negInf ∧
    (gSweepVit.lp_end, gSweepVit.end_row, gSweepVit.end_col) =
      (LogF.negInf, 0, 0) ∧
    (profile_hmm_fill_generic_global forwardOutput [] sampleData 0
      (mkForwardOutput fmG)).1 =
      gSweepFw.p_fm.get (fmG.n_rows - 1)
        (PS_NUM_STATES * (fmG.n_cols / PS_NUM_STATES - 2) + PS_MATCH) ∧
    (profile_hmm_fill_generic_global viterbiOutput [] sampleData 0
      (mkViterbiOutput fmG bmG 0 0)).1 =
      gSweepVit.p_fm.get (fmG.n_rows - 1)
        (PS_NUM_STATES * (fmG.n_cols / PS_NUM_STATES - 2) + PS_MATCH) ∧
    (profile_hmm_fill_generic_global viterbiOutput [] sampleData 0
      (mkViterbiOutput fmG bmG 0 0)).2.end_row = fmG.n_rows - 1 ∧
    (profile_hmm_fill_generic_global viterbiOutput [] sampleData 0
      (mkViterbiOutput fmG bmG 0 0)).2.end_col =
      PS_NUM_STATES * (fmG.n_cols / PS_NUM_STATES - 2) + PS_MATCH :=
  profile_hmm_fill_generic_global_spec [] sampleData 0 fmG fmG bmG 0 0
    gSweepFw gSweepVit rfl rfl (by decide) (by decide)

/-- C2: for every block record produced by `calculate_transitions`, the
pre-log outgoing probabilities from each source state sum to 1
(`p_mm + p_me + p_mk = 1`, `p_ee + p_em = 1`, `p_kk + p_km = 1`), with
`p_mk = p_kk = p_skip` and `p_me = (1 - p_skip) * trans_m_to_e_not_k`,
where `p_skip` is 0 for block 0 and the skip-probability estimate
otherwise.  (In this embedding the stored `lp_*.prob` is exactly the
pre-log probability.) -/
theorem calculate_transitions_sum_to_one
    (num_kmers : ℕ) (sequence : List Char) (data : HMMInputData)
    (ki : ℕ) (p_skip : ℚ) (bt : BlockTransitions) (h : ki < num_kmers)
    (hskip : p_skip =
      if ki > 0 then calculate_skip_probability sequence data (ki - 1) ki else 0)
    (hbt : bt = (calculate_transitions num_kmers sequence data).getD ki default) :
    bt.lp_mm.prob + bt.lp_me.prob + bt.lp_mk.prob = 1 ∧
    bt.lp_ee.prob + bt.lp_em.prob = 1 ∧
    bt.lp_kk.prob + bt.lp_km.prob = 1 ∧
    bt.lp_mk.prob = p_skip ∧ bt.lp_kk.prob = p_skip ∧
    bt.lp_me.prob = (1 - p_skip) * data.parameters.trans_m_to_e_not_k := by
  rw [calculate_transitions, getD_map_range _ h] at hbt
  subst hbt hskip
  refine ⟨by simp [log]; ring, by simp [log], by simp [log],
    by simp [log], by simp [log], by simp [log]⟩

/-- Witness for C2 at `ki = 0`, `num_kmers = 2` on the sample bundle. -/
theorem calculate_transitions_sum_to_one_witness :
    (let bt := (calculate_transitions 2 [] sampleData).getD 0 default
     bt.lp_mm.prob + bt.lp_me.prob + bt.lp_mk.prob = 1 ∧
     bt.lp_ee.prob + bt.lp_em.prob = 1 ∧
     bt.lp_kk.prob + bt.lp_km.prob = 1 ∧
     bt.lp_mk.prob = 0 ∧ bt.lp_kk.prob = 0 ∧
     bt.lp_me.prob = (1 - 0) * sampleData.parameters.trans_m_to_e_not_k) :=
  calculate_transitions_sum_to_one 2 [] sampleData 0 0 _ (by decide)
    (by decide) rfl

/-- C9: the first entry (block 0) of every transition table is computed
with skip probability 0, so its stored `lp_mk` and `lp_kk` are
`log 0 = -∞` and `lp_km = log 1` (the log-domain zero); and a candidate
sequence of exactly one kmer yields a single-entry table whose entry has
those same values. -/
theorem calculate_transitions_block0
    (num_kmers : ℕ) (sequence : List Char) (data : HMMInputData)
    (bt : BlockTransitions) (h : 1 ≤ num_kmers)
    (hbt : bt = (calculate_transitions num_kmers sequence data).getD 0 default) :
    bt.lp_mk = LogF.negInf ∧ bt.lp_kk = LogF.negInf ∧ bt.lp_km = log 1 ∧
    (calculate_transitions 1 sequence data).length = 1 ∧
    ((calculate_transitions 1 sequence data).getD 0 default).lp_mk = LogF.negInf := by
  rw [calculate_transitions, getD_map_range _ h] at hbt
  subst hbt
  refine ⟨by simp [log, LogF.negInf], by simp [log, LogF.negInf], by simp [log], ?_, ?_⟩
  · simp [calculate_transitions]
  · rw [calculate_transitions, getD_map_range _ (by norm_num : (0:ℕ) < 1)]
    simp [log, LogF.negInf]

/-- Witness for C9 at `num_kmers = 1` on the sample bundle. -/
theorem calculate_transitions_block0_witness :
    (let bt := (calculate_transitions 1 [] sampleData).getD 0 default
     bt.lp_mk = LogF.negInf ∧ bt.lp_kk = LogF.negInf ∧ bt.lp_km = log 1 ∧
     (calculate_transitions 1 [] sampleData).length = 1 ∧
     ((calculate_transitions 1 [] sampleData).getD 0 default).lp_mk = LogF.negInf) :=
  calculate_transitions_block0 1 [] sampleData _ (by decide) rfl

/-- C6: the Viterbi `update_4(row, col, m, e, k, s, emission)` stores
`max(m, e, k, s) + emission` at `(row, col)` (and nowhere else), and
records into the backtrace matrix the FIRST branch, in the fixed order
match, event-split, kmer-skip, local-entry, whose input equals the maximum
under exact equality of values.  `mx` is pinned down as the maximum of the
four inputs by the first two conjuncts. -/
theorem viterbi_update_4_spec (o o' : ProfileHMMViterbiOutput)
    (row col : ℕ) (m e k s lp_emission mx : LogF)
    (ho : o' = o.update_4 row col m e k s lp_emission)
    (hmx : mx = LogF.max (LogF.max m e) (LogF.max k s)) :
    (m ≤ mx ∧ e ≤ mx ∧ k ≤ mx ∧ s ≤ mx) ∧
    (mx = m ∨ mx = e ∨ mx = k ∨ mx = s) ∧
    o'.p_fm.get row col = mx + lp_emission ∧
    (o'.p_bm.data row col = PS_MATCH ↔ mx = m) ∧
    (o'.p_bm.data row col = PS_EVENT_SPLIT ↔ mx ≠ m ∧ mx = e) ∧
    (o'.p_bm.data row col = PS_KMER_SKIP ↔ mx ≠ m ∧ mx ≠ e ∧ mx = k) ∧
    (o'.p_bm.data row col = PS_PRE_SOFT ↔ mx ≠ m ∧ mx ≠ e ∧ mx ≠ k) ∧
    (∀ r' c', ¬(r' = row ∧ c' = col) →
      o'.p_fm.data r' c' = o.p_fm.data r' c' ∧
      o'.p_bm.data r' c' = o.p_bm.data r' c') ∧
    o'.lp_end = o.lp_end := by
  subst ho hmx
  have h4 : LogF.max (LogF.max m e) (LogF.max k s) = m ∨
      LogF.max (LogF.max m e) (LogF.max k s) = e ∨
      LogF.max (LogF.max m e) (LogF.max k s) = k ∨
      LogF.max (LogF.max m e) (LogF.max k s) = s := by
    have hp : (LogF.max (LogF.max m e) (LogF.max k s)).prob =
        Max.max (Max.max m.prob e.prob) (Max.max k.prob s.prob) := rfl
    rcases max_cases (Max.max m.prob e.prob) (Max.max k.prob s.prob) with
      ⟨h1, -⟩ | ⟨h1, -⟩
    · rcases max_cases m.prob e.prob with ⟨h2, -⟩ | ⟨h2, -⟩
      · exact Or.inl (LogF.ext' (by rw [hp, h1, h2]))
      · exact Or.inr (Or.inl (LogF.ext' (by rw [hp, h1, h2])))
    · rcases max_cases k.prob s.prob with ⟨h2, -⟩ | ⟨h2, -⟩
      · exact Or.inr (Or.inr (Or.inl (LogF.ext' (by rw [hp, h1, h2]))))
      · exact Or.inr (Or.inr (Or.inr (LogF.ext' (by rw [hp, h1, h2]))))
  have hbm : (o.update_4 row col m e k s lp_emission).p_bm.data row col =
      (if LogF.max (LogF.max m e) (LogF.max k s) = m then PS_MATCH
       else if LogF.max (LogF.max m e) (LogF.max k s) = e then PS_EVENT_SPLIT
       else if LogF.max (LogF.max m e) (LogF.max k s) = k then PS_KMER_SKIP
       else PS_PRE_SOFT) := by
    rw [ProfileHMMViterbiOutput.update_4]
    simp [UInt8Matrix.set]
  have hiffs :
      ((o.update_4 row col m e k s lp_emission).p_bm.data row col = PS_MATCH ↔
        LogF.max (LogF.max m e) (LogF.max k s) = m) ∧
      ((o.update_4 row col m e k s lp_emission).p_bm.data row col = PS_EVENT_SPLIT ↔
        LogF.max (LogF.max m e) (LogF.max k s) ≠ m ∧
        LogF.max (LogF.max m e) (LogF.max k s) = e) ∧
      ((o.update_4 row col m e k s lp_emission).p_bm.data row col = PS_KMER_SKIP ↔
        LogF.max (LogF.max m e) (LogF.max k s) ≠ m ∧
        LogF.max (LogF.max m e) (LogF.max k s) ≠ e ∧
        LogF.max (LogF.max m e) (LogF.max k s) = k) ∧
      ((o.update_4 row col m e k s lp_emission).p_bm.data row col = PS_PRE_SOFT ↔
        LogF.max (LogF.max m e) (LogF.max k s) ≠ m ∧
        LogF.max (LogF.max m e) (LogF.max k s) ≠ e ∧
        LogF.max (LogF.max m e) (LogF.max k s) ≠ k) := by
    rw [hbm]
    by_cases hm : LogF.max (LogF.max m e) (LogF.max k s) = m
    · rw [if_pos hm]
      exact ⟨iff_of_true rfl hm, iff_of_false (by decide) (fun h => h.1 hm),
        iff_of_false (by decide) (fun h => h.1 hm),
        iff_of_false (by decide) (fun h => h.1 hm)⟩
    · by_cases he : LogF.max (LogF.max m e) (LogF.max k s) = e
      · rw [if_neg hm, if_pos he]
        exact ⟨iff_of_false (by decide) hm, iff_of_true rfl ⟨hm, he⟩,
          iff_of_false (by decide) (fun h => h.2.1 he),
          iff_of_false (by decide) (fun h => h.2.1 he)⟩
      · by_cases hk : LogF.max (LogF.max m e) (LogF.max k s) = k
        · rw [if_neg hm, if_neg he, if_pos hk]
          exact ⟨iff_of_false (by decide) hm,
            iff_of_false (by decide) (fun h => he h.2),
            iff_of_true rfl ⟨hm, he, hk⟩,
            iff_of_false (by decide) (fun h => h.2.2 hk)⟩
        · rw [if_neg hm, if_neg he, if_neg hk]
          exact ⟨iff_of_false (by decide) hm,
            iff_of_false (by decide) (fun h => he h.2),
            iff_of_false (by decide) (fun h => hk h.2.2),
            iff_of_true rfl ⟨hm, he, hk⟩⟩
  refine ⟨⟨?_, ?_, ?_, ?_⟩, h4, ?_, hiffs.1, hiffs.2.1, hiffs.2.2.1, hiffs.2.2.2,
    ?_, ?_⟩
  · exact le_trans (le_max_left m.prob e.prob)
      (le_max_left (Max.max m.prob e.prob) (Max.max k.prob s.prob))
  · exact le_trans (le_max_right m.prob e.prob)
      (le_max_left (Max.max m.prob e.prob) (Max.max k.prob s.prob))
  · exact le_trans (le_max_left k.prob s.prob)
      (le_max_right (Max.max m.prob e.prob) (Max.max k.prob s.prob))
  · exact le_trans (le_max_right k.prob s.prob)
      (le_max_right (Max.max m.prob e.prob) (Max.max k.prob s.prob))
  · rw [ProfileHMMViterbiOutput.update_4]
    simp [FloatMatrix.get, FloatMatrix.set]
  · intro r' c' hne
    constructor
    · rw [ProfileHMMViterbiOutput.update_4]
      simp [FloatMatrix.set, hne]
    · rw [ProfileHMMViterbiOutput.update_4]
      simp [UInt8Matrix.set, hne]
  · rw [ProfileHMMViterbiOutput.update_4]

/-- Witness for C6 at concrete inputs (the hypotheses are discharged by
`rfl`). -/
theorem viterbi_update_4_spec_witness :
    (let o₀ : ProfileHMMViterbiOutput :=
      mkViterbiOutput ⟨2, 3, fun _ _ => LogF.negInf⟩ ⟨2, 3, fun _ _ => 0⟩ 0 0
     let m : LogF := ⟨1/2⟩
     let e : LogF := ⟨1/2⟩
     let k : LogF := ⟨1/4⟩
     let s : LogF := LogF.negInf
     let mx : LogF := LogF.max (LogF.max m e) (LogF.max k s)
     let o' := o₀.update_4 1 1 m e k s ⟨1/3⟩
     (m ≤ mx ∧ e ≤ mx ∧ k ≤ mx ∧ s ≤ mx) ∧
     (mx = m ∨ mx = e ∨ mx = k ∨ mx = s) ∧
     o'.p_fm.get 1 1 = mx + ⟨1/3⟩ ∧
     (o'.p_bm.data 1 1 = PS_MATCH ↔ mx = m) ∧
     (o'.p_bm.data 1 1 = PS_EVENT_SPLIT ↔ mx ≠ m ∧ mx = e) ∧
     (o'.p_bm.data 1 1 = PS_KMER_SKIP ↔ mx ≠ m ∧ mx ≠ e ∧ mx = k) ∧
     (o'.p_bm.data 1 1 = PS_PRE_SOFT ↔ mx ≠ m ∧ mx ≠ e ∧ mx ≠ k) ∧
     (∀ r' c', ¬(r' = 1 ∧ c' = 1) →
       o'.p_fm.data r' c' = o₀.p_fm.data r' c' ∧
       o'.p_bm.data r' c' = o₀.p_bm.data r' c') ∧
     o'.lp_end = o₀.lp_end) :=
  viterbi_update_4_spec _ _ 1 1 _ _ _ _ ⟨1/3⟩ _ rfl rfl

/-- C7: the Viterbi `update_end(v, row, col)` replaces the stored best end
score and its cell exactly when `v` is strictly greater than the current
best; otherwise score, row and column are all unchanged.  The matrices are
never touched, and the constructor initializes the best score to `-∞`. -/
theorem viterbi_update_end_spec (o : ProfileHMMViterbiOutput)
    (v : LogF) (row col : ℕ) (pf : FloatMatrix) (pb : UInt8Matrix)
    (r₀ c₀ : ℕ) :
    ((o.update_end v row col).lp_end,
     (o.update_end v row col).end_row,
     (o.update_end v row col).end_col) =
      (if o.lp_end < v then (v, row, col)
       else (o.lp_end, o.end_row, o.end_col)) ∧
    (o.update_end v row col).p_fm = o.p_fm ∧
    (o.update_end v row col).p_bm = o.p_bm ∧
    (mkViterbiOutput pf pb r₀ c₀).lp_end = LogF.negInf := by
  refine ⟨?_, ?_, ?_, rfl⟩ <;>
    · rw [ProfileHMMViterbiOutput.update_end]
      split <;> rfl

theorem fillBlockLocal_forward_mat (data : HMMInputData)
    (transitions : List BlockTransitions) (kmer_ranks : List ℕ)
    (post_flank : List LogF) (lp_ms : LogF)
    (last_kmer_idx e_start num_rows num_blocks row B : ℕ)
    (s : ProfileHMMForwardOutput) (init : ℕ → ℕ → LogF)
    (hrow1 : 1 ≤ row) (hrow2 : row ≤ num_rows - 1)
    (hB : B + 1 ≤ num_blocks - 2)
    (hdata : ∀ r c, s.p_fm.data r c = fwdSpec data transitions kmer_ranks
      e_start num_rows num_blocks init row B r c) :
    ∀ r c, (fillBlockLocal forwardOutput data transitions kmer_ranks
        post_flank lp_ms last_kmer_idx e_start row (B + 1) s).p_fm.data r c =
      fwdSpec data transitions kmer_ranks e_start num_rows num_blocks init
        row (B + 1) r c := by
  have hread : ∀ r' b' st', st' < 3 → b' ≤ num_blocks - 2 →
      (r' < row ∨ (r' = row ∧ b' ≤ B)) →
      s.p_fm.data r' (PS_NUM_STATES * b' + st') =
        ⟨(paths data transitions kmer_ranks e_start num_rows num_blocks init
            r' b' st').sum⟩ := by
    intro r' b' st' h1 h2 h3
    rw [hdata]
    exact fwdSpec_read data transitions kmer_ranks e_start num_rows
      num_blocks init row B r' b' st' h1 h3 h2
  have hne : (row - 1 = row) = False := eq_false (by omega)
  have hc1 : (PS_NUM_STATES * B + PS_MATCH =
      PS_NUM_STATES * (B + 1) + PS_EVENT_SPLIT) = False :=
    eq_false (by simp only [PS_NUM_STATES, PS_MATCH, PS_EVENT_SPLIT]; omega)
  have hc2 : (PS_NUM_STATES * B + PS_MATCH =
      PS_NUM_STATES * (B + 1) + PS_MATCH) = False :=
    eq_false (by simp only [PS_NUM_STATES, PS_MATCH]; omega)
  have hc3 : (PS_NUM_STATES * B + PS_KMER_SKIP =
      PS_NUM_STATES * (B + 1) + PS_EVENT_SPLIT) = False :=
    eq_false (by simp only [PS_NUM_STATES, PS_KMER_SKIP, PS_EVENT_SPLIT]; omega)
  have hc4 : (PS_NUM_STATES * B + PS_KMER_SKIP =
      PS_NUM_STATES * (B + 1) + PS_MATCH) = False :=
    eq_false (by simp only [PS_NUM_STATES, PS_KMER_SKIP, PS_MATCH]; omega)
  intro r c
  rw [fillBlockLocal]
  try simp only []
  rw [show B + 1 - 1 = B from rfl]
  split <;>
    simp only [forwardOutput, forward_update_end_p_fm, forward_update_4_p_fm,
      ProfileHMMForwardOutput.get, FloatMatrix.get, FloatMatrix.set,
      hne, false_and, if_false, hc1, hc2, hc3, hc4, true_and]
  all_goals
    rw [hread (row - 1) B PS_MATCH (by decide) (by omega)
          (Or.inl (by omega)),
        hread (row - 1) B PS_EVENT_SPLIT (by decide) (by omega)
          (Or.inl (by omega)),
        hread (row - 1) B PS_KMER_SKIP (by decide) (by omega)
          (Or.inl (by omega)),
        hread (row - 1) (B + 1) PS_MATCH (by decide) hB
          (Or.inl (by omega)),
        hread (row - 1) (B + 1) PS_EVENT_SPLIT (by decide) hB
          (Or.inl (by omega)),
        hread row B PS_MATCH (by decide) (by omega) (Or.inr ⟨rfl, le_rfl⟩),
        hread row B PS_KMER_SKIP (by decide) (by omega)
          (Or.inr ⟨rfl, le_rfl⟩)]
    by_cases hK : r = row ∧ c = PS_NUM_STATES * (B + 1) + PS_KMER_SKIP
    · rw [if_pos hK]
      obtain ⟨hr, hcc⟩ := hK
      rw [hr, hcc]
      rw [fwdSpec_read data transitions kmer_ranks e_start num_rows
        num_blocks init row (B + 1) row (B + 1) PS_KMER_SKIP (by decide)
        (Or.inr ⟨rfl, le_rfl⟩) hB]
      refine LogF.ext' ?_
      rw [paths_kmer_eq data transitions kmer_ranks e_start num_rows
        num_blocks init row (B + 1) hrow1 hrow2 (by omega) hB]
      rw [show B + 1 - 1 = B from rfl]
      rw [Multiset.sum_add, sum_map_mul, sum_map_mul]
      simp only [add_logs_prob, LogF.add_prob, negInf_prob, log_prob]
      ring
    · rw [if_neg hK]
      by_cases hE : r = row ∧ c = PS_NUM_STATES * (B + 1) + PS_EVENT_SPLIT
      · rw [if_pos hE]
        obtain ⟨hr, hcc⟩ := hE
        rw [hr, hcc]
        rw [fwdSpec_read data transitions kmer_ranks e_start num_rows
          num_blocks init row (B + 1) row (B + 1) PS_EVENT_SPLIT (by decide)
          (Or.inr ⟨rfl, le_rfl⟩) hB]
        refine LogF.ext' ?_
        rw [paths_event_eq data transitions kmer_ranks e_start num_rows
          num_blocks init row (B + 1) hrow1 hrow2 (by omega) hB]
        rw [show B + 1 - 1 = B from rfl]
        rw [sum_map_mul, Multiset.sum_add, sum_map_mul, sum_map_mul]
        simp only [add_logs_prob, LogF.add_prob, negInf_prob, log_prob]
        ring
      · rw [if_neg hE]
        by_cases hM : r = row ∧ c = PS_NUM_STATES * (B + 1) + PS_MATCH
        · rw [if_pos hM]
          obtain ⟨hr, hcc⟩ := hM
          rw [hr, hcc]
          rw [fwdSpec_read data transitions kmer_ranks e_start num_rows
            num_blocks init row (B + 1) row (B + 1) PS_MATCH (by decide)
            (Or.inr ⟨rfl, le_rfl⟩) hB]
          refine LogF.ext' ?_
          rw [paths_match_eq data transitions kmer_ranks e_start num_rows
            num_blocks init row (B + 1) hrow1 hrow2 (by omega) hB]
          rw [show B + 1 - 1 = B from rfl]
          rw [sum_map_mul, Multiset.sum_add, Multiset.sum_add, sum_map_mul,
            sum_map_mul, sum_map_mul]
          simp only [add_logs_prob, LogF.add_prob, negInf_prob, log_prob]
          ring
        · rw [if_neg hM, hdata]
          rw [fwdSpec, fwdSpec]
          have hK' : ¬(r = row ∧ c = 3 * (B + 1) + 2) := hK
          have hE' : ¬(r = row ∧ c = 3 * (B + 1) + 1) := hE
          have hM' : ¬(r = row ∧ c = 3 * (B + 1) + 0) := hM
          refine if_congr ?_ rfl rfl
          constructor
          · intro hcond
            obtain ⟨a1, a2, a3, a4⟩ := hcond
            exact ⟨a1, a2, a3, by omega⟩
          · intro hcond
            obtain ⟨a1, a2, a3, a4⟩ := hcond
            exact ⟨a1, a2, a3, by omega⟩

theorem fillBlockLocal_forward_end (data : HMMInputData)
    (transitions : List BlockTransitions) (kmer_ranks : List ℕ)
    (post_flank : List LogF) (lp_ms : LogF)
    (last_kmer_idx e_start num_rows num_blocks row B : ℕ)
    (s : ProfileHMMForwardOutput) (init : ℕ → ℕ → LogF) (E : ℚ)
    (h3 : 3 ≤ num_blocks) (hlast : last_kmer_idx = num_blocks - 3)
    (hrow1 : 1 ≤ row) (hrow2 : row ≤ num_rows - 1)
    (hB : B + 1 ≤ num_blocks - 2)
    (hdata : ∀ r c, s.p_fm.data r c = fwdSpec data transitions kmer_ranks
      e_start num_rows num_blocks init row B r c)
    (hend : s.lp_end.prob = E) :
    (fillBlockLocal forwardOutput data transitions kmer_ranks post_flank
        lp_ms last_kmer_idx e_start row (B + 1) s).lp_end.prob =
      E + (if B + 1 = num_blocks - 2 then
        (endRowPaths data transitions kmer_ranks e_start num_rows num_blocks
          init post_flank lp_ms row).sum
      else 0) := by
  have hread : ∀ r' b' st', st' < 3 → b' ≤ num_blocks - 2 →
      (r' < row ∨ (r' = row ∧ b' ≤ B)) →
      s.p_fm.data r' (PS_NUM_STATES * b' + st') =
        ⟨(paths data transitions kmer_ranks e_start num_rows num_blocks init
            r' b' st').sum⟩ := by
    intro r' b' st' h1 h2 h3'
    rw [hdata]
    exact fwdSpec_read data transitions kmer_ranks e_start num_rows
      num_blocks init row B r' b' st' h1 h3' h2
  have hne : (row - 1 = row) = False := eq_false (by omega)
  have hc1 : (PS_NUM_STATES * B + PS_MATCH =
      PS_NUM_STATES * (B + 1) + PS_EVENT_SPLIT) = False :=
    eq_false (by simp only [PS_NUM_STATES, PS_MATCH, PS_EVENT_SPLIT]; omega)
  have hc2 : (PS_NUM_STATES * B + PS_MATCH =
      PS_NUM_STATES * (B + 1) + PS_MATCH) = False :=
    eq_false (by simp only [PS_NUM_STATES, PS_MATCH]; omega)
  have hc3 : (PS_NUM_STATES * B + PS_KMER_SKIP =
      PS_NUM_STATES * (B + 1) + PS_EVENT_SPLIT) = False :=
    eq_false (by simp only [PS_NUM_STATES, PS_KMER_SKIP, PS_EVENT_SPLIT]; omega)
  have hc4 : (PS_NUM_STATES * B + PS_KMER_SKIP =
      PS_NUM_STATES * (B + 1) + PS_MATCH) = False :=
    eq_false (by simp only [PS_NUM_STATES, PS_KMER_SKIP, PS_MATCH]; omega)
  have hd1 : (PS_NUM_STATES * (B + 1) + PS_MATCH =
      PS_NUM_STATES * (B + 1) + PS_KMER_SKIP) = False :=
    eq_false (by simp only [PS_NUM_STATES, PS_MATCH, PS_KMER_SKIP]; omega)
  have hd2 : (PS_NUM_STATES * (B + 1) + PS_MATCH =
      PS_NUM_STATES * (B + 1) + PS_EVENT_SPLIT) = False :=
    eq_false (by simp only [PS_NUM_STATES, PS_MATCH, PS_EVENT_SPLIT]; omega)
  have hd3 : (PS_NUM_STATES * (B + 1) + PS_EVENT_SPLIT =
      PS_NUM_STATES * (B + 1) + PS_KMER_SKIP) = False :=
    eq_false (by simp only [PS_NUM_STATES, PS_EVENT_SPLIT, PS_KMER_SKIP]; omega)
  rw [fillBlockLocal]
  try simp only []
  rw [show B + 1 - 1 = B from rfl]
  by_cases hfire : B = last_kmer_idx
  · rw [if_pos hfire, if_pos (show B + 1 = num_blocks - 2 by omega)]
    simp only [forwardOutput, forward_update_end_lp_end,
      forward_update_4_lp_end, forward_update_4_p_fm,
      ProfileHMMForwardOutput.get, FloatMatrix.get, FloatMatrix.set,
      hne, false_and, if_false, if_true, hc1, hc2, hc3, hc4, hd1, hd2, hd3,
      true_and]
    rw [hread (row - 1) B PS_MATCH (by decide) (by omega)
          (Or.inl (by omega)),
        hread (row - 1) B PS_EVENT_SPLIT (by decide) (by omega)
          (Or.inl (by omega)),
        hread (row - 1) B PS_KMER_SKIP (by decide) (by omega)
          (Or.inl (by omega)),
        hread (row - 1) (B + 1) PS_MATCH (by decide) hB
          (Or.inl (by omega)),
        hread (row - 1) (B + 1) PS_EVENT_SPLIT (by decide) hB
          (Or.inl (by omega)),
        hread row B PS_MATCH (by decide) (by omega) (Or.inr ⟨rfl, le_rfl⟩),
        hread row B PS_KMER_SKIP (by decide) (by omega)
          (Or.inr ⟨rfl, le_rfl⟩)]
    rw [hend]
    have hB2 : B + 1 = num_blocks - 2 := by omega
    rw [endRowPaths, ← hB2]
    rw [paths_match_eq data transitions kmer_ranks e_start num_rows
        num_blocks init row (B + 1) hrow1 hrow2 (by omega) hB,
      paths_event_eq data transitions kmer_ranks e_start num_rows
        num_blocks init row (B + 1) hrow1 hrow2 (by omega) hB,
      paths_kmer_eq data transitions kmer_ranks e_start num_rows
        num_blocks init row (B + 1) hrow1 hrow2 (by omega) hB]
    rw [show B + 1 - 1 = B from rfl]
    simp only [sum_map_mul_mul, Multiset.sum_add, sum_map_mul]
    simp only [add_logs_prob, LogF.add_prob, negInf_prob, log_prob]
    ring
  · rw [if_neg hfire, if_neg (show ¬(B + 1 = num_blocks - 2) by omega),
      add_zero]
    simp only [forwardOutput, forward_update_4_lp_end]
    exact hend

theorem fwdSpec_init (data : HMMInputData)
    (transitions : List BlockTransitions) (kmer_ranks : List ℕ)
    (e_start num_rows num_blocks : ℕ) (init : ℕ → ℕ → LogF) (r c : ℕ) :
    fwdSpec data transitions kmer_ranks e_start num_rows num_blocks init
      1 0 r c = init r c := by
  rw [fwdSpec, if_neg]
  intro hcond
  obtain ⟨a1, a2, a3, a4⟩ := hcond
  omega

theorem fwdSpec_roll (data : HMMInputData)
    (transitions : List BlockTransitions) (kmer_ranks : List ℕ)
    (e_start num_rows num_blocks : ℕ) (init : ℕ → ℕ → LogF) (R r c : ℕ) :
    fwdSpec data transitions kmer_ranks e_start num_rows num_blocks init
        R (num_blocks - 2) r c =
      fwdSpec data transitions kmer_ranks e_start num_rows num_blocks init
        (R + 1) 0 r c := by
  rw [fwdSpec, fwdSpec]
  refine if_congr ?_ rfl rfl
  constructor
  · intro hcond
    obtain ⟨a1, a2, a3, a4⟩ := hcond
    exact ⟨a1, a2, a3, by omega⟩
  · intro hcond
    obtain ⟨a1, a2, a3, a4⟩ := hcond
    exact ⟨a1, a2, a3, by omega⟩

theorem localSweep_row_forward (data : HMMInputData)
    (transitions : List BlockTransitions) (kmer_ranks : List ℕ)
    (post_flank : List LogF) (lp_ms : LogF)
    (last_kmer_idx e_start num_rows num_blocks : ℕ) (init : ℕ → ℕ → LogF)
    (row : ℕ) (h3 : 3 ≤ num_blocks) (hlast : last_kmer_idx = num_blocks - 3)
    (hrow1 : 1 ≤ row) (hrow2 : row ≤ num_rows - 1) :
    ∀ B, B ≤ num_blocks - 2 → ∀ (s : ProfileHMMForwardOutput) (E : ℚ),
    (∀ r c, s.p_fm.data r c = fwdSpec data transitions kmer_ranks e_start
      num_rows num_blocks init row 0 r c) →
    s.lp_end.prob = E →
    (∀ r c, (forUpTo (fun block s' => fillBlockLocal forwardOutput data
        transitions kmer_ranks post_flank lp_ms last_kmer_idx e_start row
        block s') B s).p_fm.data r c =
      fwdSpec data transitions kmer_ranks e_start num_rows num_blocks init
        row B r c) ∧
    (forUpTo (fun block s' => fillBlockLocal forwardOutput data transitions
        kmer_ranks post_flank lp_ms last_kmer_idx e_start row block s')
        B s).lp_end.prob =
      E + (if num_blocks - 2 ≤ B then
        (endRowPaths data transitions kmer_ranks e_start num_rows num_blocks
          init post_flank lp_ms row).sum
      else 0) := by
  intro B
  induction B with
  | zero =>
    intro hB0 s E hdata hend
    constructor
    · intro r c
      exact hdata r c
    · rw [if_neg (by omega), add_zero]
      exact hend
  | succ B ih =>
    intro hB1 s E hdata hend
    have prev := ih (by omega) s E hdata hend
    have hend' : (forUpTo (fun block s' => fillBlockLocal forwardOutput data
        transitions kmer_ranks post_flank lp_ms last_kmer_idx e_start row
        block s') B s).lp_end.prob = E := by
      rw [prev.2, if_neg (by omega), add_zero]
    have hmat := fillBlockLocal_forward_mat data transitions kmer_ranks
      post_flank lp_ms last_kmer_idx e_start num_rows num_blocks row B _
      init hrow1 hrow2 hB1 prev.1
    have hendL := fillBlockLocal_forward_end data transitions kmer_ranks
      post_flank lp_ms last_kmer_idx e_start num_rows num_blocks row B _
      init E h3 hlast hrow1 hrow2 hB1 prev.1 hend'
    rw [forUpTo]
    refine ⟨hmat, ?_⟩
    rw [hendL]
    by_cases hfin : B + 1 = num_blocks - 2
    · rw [if_pos hfin, if_pos (by omega)]
    · rw [if_neg hfin, if_neg (by omega)]

theorem localSweep_forward_spec (data : HMMInputData)
    (transitions : List BlockTransitions) (kmer_ranks : List ℕ)
    (post_flank : List LogF) (lp_ms : LogF)
    (last_kmer_idx e_start num_rows num_blocks : ℕ) (init : ℕ → ℕ → LogF)
    (s₀ : ProfileHMMForwardOutput) (E₀ : ℚ)
    (h3 : 3 ≤ num_blocks) (hlast : last_kmer_idx = num_blocks - 3)
    (hdata : ∀ r c, s₀.p_fm.data r c = init r c)
    (hend : s₀.lp_end.prob = E₀) :
    ∀ R, R ≤ num_rows - 1 →
    (∀ r c, (forUpTo (fun row s => forUpTo (fun block s' =>
        fillBlockLocal forwardOutput data transitions kmer_ranks post_flank
          lp_ms last_kmer_idx e_start row block s') (num_blocks - 2) s)
        R s₀).p_fm.data r c =
      fwdSpec data transitions kmer_ranks e_start num_rows num_blocks init
        (R + 1) 0 r c) ∧
    (forUpTo (fun row s => forUpTo (fun block s' =>
        fillBlockLocal forwardOutput data transitions kmer_ranks post_flank
          lp_ms last_kmer_idx e_start row block s') (num_blocks - 2) s)
        R s₀).lp_end.prob =
      E₀ + (endPathsUpTo data transitions kmer_ranks e_start num_rows
        num_blocks init post_flank lp_ms R).sum := by
  intro R
  induction R with
  | zero =>
    intro hR0
    constructor
    · intro r c
      rw [fwdSpec_init]
      exact hdata r c
    · rw [endPathsUpTo]
      simpa using hend
  | succ R ih =>
    intro hR1
    have prev := ih (by omega)
    have hrow := localSweep_row_forward data transitions kmer_ranks
      post_flank lp_ms last_kmer_idx e_start num_rows num_blocks init
      (R + 1) h3 hlast (by omega) hR1 (num_blocks - 2) le_rfl _
      (E₀ + (endPathsUpTo data transitions kmer_ranks e_start num_rows
        num_blocks init post_flank lp_ms R).sum) prev.1 prev.2
    rw [forUpTo]
    constructor
    · intro r c
      rw [hrow.1 r c, fwdSpec_roll]
    · rw [hrow.2, if_pos le_rfl, endPathsUpTo, Multiset.sum_add, add_assoc]

theorem LogF.max_prob (a b : LogF) :
    (LogF.max a b).prob = Max.max a.prob b.prob := rfl

theorem viterbi_update_end_lp_end (o : ProfileHMMViterbiOutput) (v : LogF)
    (row col : ℕ) :
    (o.update_end v row col).lp_end.prob = Max.max o.lp_end.prob v.prob := by
  rw [ProfileHMMViterbiOutput.update_end]
  split
  · next h => exact (max_eq_right (le_of_lt (LogF.lt_iff.mp h))).symm
  · next h => exact (max_eq_left (not_lt.mp (fun hlt => h (LogF.lt_iff.mpr hlt)))).symm

theorem max_fold4 (E a b c : ℚ) :
    Max.max (Max.max (Max.max E a) b) c =
      Max.max E (Max.max (Max.max a b) c) := by
  rw [max_assoc, max_assoc, max_assoc]

theorem fillBlockLocal_viterbi_mat (data : HMMInputData)
    (transitions : List BlockTransitions) (kmer_ranks : List ℕ)
    (post_flank : List LogF) (lp_ms : LogF)
    (last_kmer_idx e_start num_rows num_blocks row B : ℕ)
    (s : ProfileHMMViterbiOutput) (init : ℕ → ℕ → LogF)
    (hW : WFInput data)
    (htrans : ∀ bt ∈ transitions, BlockTransitionsNonneg bt)
    (hinit : ∀ r c, 0 ≤ (init r c).prob)
    (hrow1 : 1 ≤ row) (hrow2 : row ≤ num_rows - 1)
    (hB : B + 1 ≤ num_blocks - 2)
    (hdata : ∀ r c, s.p_fm.data r c = vitSpec data transitions kmer_ranks
      e_start num_rows num_blocks init row B r c) :
    ∀ r c, (fillBlockLocal viterbiOutput data transitions kmer_ranks
        post_flank lp_ms last_kmer_idx e_start row (B + 1) s).p_fm.data r c =
      vitSpec data transitions kmer_ranks e_start num_rows num_blocks init
        row (B + 1) r c := by
  obtain ⟨hme, hmk, hmm, hee, hem, hkk, hkm⟩ :=
    getD_transitions_nonneg htrans B
  have hread : ∀ r' b' st', st' < 3 → b' ≤ num_blocks - 2 →
      (r' < row ∨ (r' = row ∧ b' ≤ B)) →
      s.p_fm.data r' (PS_NUM_STATES * b' + st') =
        ⟨msup (paths data transitions kmer_ranks e_start num_rows num_blocks
            init r' b' st')⟩ := by
    intro r' b' st' h1 h2 h3
    rw [hdata]
    exact vitSpec_read data transitions kmer_ranks e_start num_rows
      num_blocks init row B r' b' st' h1 h3 h2 hinit
  have hne : (row - 1 = row) = False := eq_false (by omega)
  have hc1 : (PS_NUM_STATES * B + PS_MATCH =
      PS_NUM_STATES * (B + 1) + PS_EVENT_SPLIT) = False :=
    eq_false (by simp only [PS_NUM_STATES, PS_MATCH, PS_EVENT_SPLIT]; omega)
  have hc2 : (PS_NUM_STATES * B + PS_MATCH =
      PS_NUM_STATES * (B + 1) + PS_MATCH) = False :=
    eq_false (by simp only [PS_NUM_STATES, PS_MATCH]; omega)
  have hc3 : (PS_NUM_STATES * B + PS_KMER_SKIP =
      PS_NUM_STATES * (B + 1) + PS_EVENT_SPLIT) = False :=
    eq_false (by simp only [PS_NUM_STATES, PS_KMER_SKIP, PS_EVENT_SPLIT]; omega)
  have hc4 : (PS_NUM_STATES * B + PS_KMER_SKIP =
      PS_NUM_STATES * (B + 1) + PS_MATCH) = False :=
    eq_false (by simp only [PS_NUM_STATES, PS_KMER_SKIP, PS_MATCH]; omega)
  intro r c
  rw [fillBlockLocal]
  try simp only []
  rw [show B + 1 - 1 = B from rfl]
  split <;>
    simp only [viterbiOutput, viterbi_update_end_p_fm, viterbi_update_4_p_fm,
      ProfileHMMViterbiOutput.get, FloatMatrix.get, FloatMatrix.set,
      hne, false_and, if_false, if_true, hc1, hc2, hc3, hc4, true_and]
  all_goals
    rw [hread (row - 1) B PS_MATCH (by decide) (by omega)
          (Or.inl (by omega)),
        hread (row - 1) B PS_EVENT_SPLIT (by decide) (by omega)
          (Or.inl (by omega)),
        hread (row - 1) B PS_KMER_SKIP (by decide) (by omega)
          (Or.inl (by omega)),
        hread (row - 1) (B + 1) PS_MATCH (by decide) hB
          (Or.inl (by omega)),
        hread (row - 1) (B + 1) PS_EVENT_SPLIT (by decide) hB
          (Or.inl (by omega)),
        hread row B PS_MATCH (by decide) (by omega) (Or.inr ⟨rfl, le_rfl⟩),
        hread row B PS_KMER_SKIP (by decide) (by omega)
          (Or.inr ⟨rfl, le_rfl⟩)]
    by_cases hK : r = row ∧ c = PS_NUM_STATES * (B + 1) + PS_KMER_SKIP
    · rw [if_pos hK]
      obtain ⟨hr, hcc⟩ := hK
      rw [hr, hcc]
      rw [vitSpec_read data transitions kmer_ranks e_start num_rows
        num_blocks init row (B + 1) row (B + 1) PS_KMER_SKIP (by decide)
        (Or.inr ⟨rfl, le_rfl⟩) hB hinit]
      refine LogF.ext' ?_
      rw [paths_kmer_eq data transitions kmer_ranks e_start num_rows
        num_blocks init row (B + 1) hrow1 hrow2 (by omega) hB]
      rw [show B + 1 - 1 = B from rfl]
      rw [msup_add, msup_map_mul hmk, msup_map_mul hkk]
      simp only [LogF.max_prob, LogF.add_prob, negInf_prob, log_prob]
      rw [mul_one, max_eq_left (mul_nonneg hmk (msup_nonneg _)),
        max_eq_left (mul_nonneg hkk (msup_nonneg _))]
    · rw [if_neg hK]
      by_cases hE : r = row ∧ c = PS_NUM_STATES * (B + 1) + PS_EVENT_SPLIT
      · rw [if_pos hE]
        obtain ⟨hr, hcc⟩ := hE
        rw [hr, hcc]
        rw [vitSpec_read data transitions kmer_ranks e_start num_rows
          num_blocks init row (B + 1) row (B + 1) PS_EVENT_SPLIT (by decide)
          (Or.inr ⟨rfl, le_rfl⟩) hB hinit]
        refine LogF.ext' ?_
        rw [paths_event_eq data transitions kmer_ranks e_start num_rows
          num_blocks init row (B + 1) hrow1 hrow2 (by omega) hB]
        rw [show B + 1 - 1 = B from rfl]
        rw [msup_map_mul (hW.insert_nonneg _ _), msup_add,
          msup_map_mul hme, msup_map_mul hee]
        simp only [LogF.max_prob, LogF.add_prob, negInf_prob, log_prob,
          max_self]
        rw [max_eq_left (le_trans (mul_nonneg hme (msup_nonneg _))
          (le_max_left _ _))]
        ring
      · rw [if_neg hE]
        by_cases hM : r = row ∧ c = PS_NUM_STATES * (B + 1) + PS_MATCH
        · rw [if_pos hM]
          obtain ⟨hr, hcc⟩ := hM
          rw [hr, hcc]
          rw [vitSpec_read data transitions kmer_ranks e_start num_rows
            num_blocks init row (B + 1) row (B + 1) PS_MATCH (by decide)
            (Or.inr ⟨rfl, le_rfl⟩) hB hinit]
          refine LogF.ext' ?_
          rw [paths_match_eq data transitions kmer_ranks e_start num_rows
            num_blocks init row (B + 1) hrow1 hrow2 (by omega) hB]
          rw [show B + 1 - 1 = B from rfl]
          rw [msup_map_mul (hW.match_nonneg _ _), msup_add, msup_add,
            msup_map_mul hmm, msup_map_mul hem, msup_map_mul hkm]
          simp only [LogF.max_prob, LogF.add_prob, negInf_prob, log_prob]
          rw [max_eq_left (mul_nonneg hkm (msup_nonneg _))]
          ring
        · rw [if_neg hM, hdata]
          rw [vitSpec, vitSpec]
          have hK' : ¬(r = row ∧ c = 3 * (B + 1) + 2) := hK
          have hE' : ¬(r = row ∧ c = 3 * (B + 1) + 1) := hE
          have hM' : ¬(r = row ∧ c = 3 * (B + 1) + 0) := hM
          refine if_congr ?_ rfl rfl
          constructor
          · intro hcond
            obtain ⟨a1, a2, a3, a4⟩ := hcond
            exact ⟨a1, a2, a3, by omega⟩
          · intro hcond
            obtain ⟨a1, a2, a3, a4⟩ := hcond
            exact ⟨a1, a2, a3, by omega⟩

theorem fillBlockLocal_viterbi_end (data : HMMInputData)
    (transitions : List BlockTransitions) (kmer_ranks : List ℕ)
    (post_flank : List LogF) (lp_ms : LogF)
    (last_kmer_idx e_start num_rows num_blocks row B : ℕ)
    (s : ProfileHMMViterbiOutput) (init : ℕ → ℕ → LogF) (E : ℚ)
    (hW : WFInput data)
    (htrans : ∀ bt ∈ transitions, BlockTransitionsNonneg bt)
    (hinit : ∀ r c, 0 ≤ (init r c).prob)
    (hlp : 0 ≤ lp_ms.prob)
    (hpost : ∀ i, 0 ≤ (post_flank.getD i LogF.negInf).prob)
    (h3 : 3 ≤ num_blocks) (hlast : last_kmer_idx = num_blocks - 3)
    (hrow1 : 1 ≤ row) (hrow2 : row ≤ num_rows - 1)
    (hB : B + 1 ≤ num_blocks - 2)
    (hdata : ∀ r c, s.p_fm.data r c = vitSpec data transitions kmer_ranks
      e_start num_rows num_blocks init row B r c)
    (hend : s.lp_end.prob = E) :
    (fillBlockLocal viterbiOutput data transitions kmer_ranks post_flank
        lp_ms last_kmer_idx e_start row (B + 1) s).lp_end.prob =
      (if B + 1 = num_blocks - 2 then
        Max.max E (msup (endRowPaths data transitions kmer_ranks e_start
          num_rows num_blocks init post_flank lp_ms row))
      else E) := by
  obtain ⟨hme, hmk, hmm, hee, hem, hkk, hkm⟩ :=
    getD_transitions_nonneg htrans B
  have hread : ∀ r' b' st', st' < 3 → b' ≤ num_blocks - 2 →
      (r' < row ∨ (r' = row ∧ b' ≤ B)) →
      s.p_fm.data r' (PS_NUM_STATES * b' + st') =
        ⟨msup (paths data transitions kmer_ranks e_start num_rows num_blocks
            init r' b' st')⟩ := by
    intro r' b' st' h1 h2 h3'
    rw [hdata]
    exact vitSpec_read data transitions kmer_ranks e_start num_rows
      num_blocks init row B r' b' st' h1 h3' h2 hinit
  have hne : (row - 1 = row) = False := eq_false (by omega)
  have hc1 : (PS_NUM_STATES * B + PS_MATCH =
      PS_NUM_STATES * (B + 1) + PS_EVENT_SPLIT) = False :=
    eq_false (by simp only [PS_NUM_STATES, PS_MATCH, PS_EVENT_SPLIT]; omega)
  have hc2 : (PS_NUM_STATES * B + PS_MATCH =
      PS_NUM_STATES * (B + 1) + PS_MATCH) = False :=
    eq_false (by simp only [PS_NUM_STATES, PS_MATCH]; omega)
  have hc3 : (PS_NUM_STATES * B + PS_KMER_SKIP =
      PS_NUM_STATES * (B + 1) + PS_EVENT_SPLIT) = False :=
    eq_false (by simp only [PS_NUM_STATES, PS_KMER_SKIP, PS_EVENT_SPLIT]; omega)
  have hc4 : (PS_NUM_STATES * B + PS_KMER_SKIP =
      PS_NUM_STATES * (B + 1) + PS_MATCH) = False :=
    eq_false (by simp only [PS_NUM_STATES, PS_KMER_SKIP, PS_MATCH]; omega)
  have hd1 : (PS_NUM_STATES * (B + 1) + PS_MATCH =
      PS_NUM_STATES * (B + 1) + PS_KMER_SKIP) = False :=
    eq_false (by simp only [PS_NUM_STATES, PS_MATCH, PS_KMER_SKIP]; omega)
  have hd2 : (PS_NUM_STATES * (B + 1) + PS_MATCH =
      PS_NUM_STATES * (B + 1) + PS_EVENT_SPLIT) = False :=
    eq_false (by simp only [PS_NUM_STATES, PS_MATCH, PS_EVENT_SPLIT]; omega)
  have hd3 : (PS_NUM_STATES * (B + 1) + PS_EVENT_SPLIT =
      PS_NUM_STATES * (B + 1) + PS_KMER_SKIP) = False :=
    eq_false (by simp only [PS_NUM_STATES, PS_EVENT_SPLIT, PS_KMER_SKIP]; omega)
  rw [fillBlockLocal]
  try simp only []
  rw [show B + 1 - 1 = B from rfl]
  by_cases hfire : B = last_kmer_idx
  · rw [if_pos hfire, if_pos (show B + 1 = num_blocks - 2 by omega)]
    simp only [viterbiOutput, viterbi_update_end_lp_end,
      viterbi_update_4_lp_end, viterbi_update_4_p_fm,
      ProfileHMMViterbiOutput.get, FloatMatrix.get, FloatMatrix.set,
      hne, false_and, if_false, if_true, hc1, hc2, hc3, hc4, hd1, hd2, hd3,
      true_and]
    rw [hread (row - 1) B PS_MATCH (by decide) (by omega)
          (Or.inl (by omega)),
        hread (row - 1) B PS_EVENT_SPLIT (by decide) (by omega)
          (Or.inl (by omega)),
        hread (row - 1) B PS_KMER_SKIP (by decide) (by omega)
          (Or.inl (by omega)),
        hread (row - 1) (B + 1) PS_MATCH (by decide) hB
          (Or.inl (by omega)),
        hread (row - 1) (B + 1) PS_EVENT_SPLIT (by decide) hB
          (Or.inl (by omega)),
        hread row B PS_MATCH (by decide) (by omega) (Or.inr ⟨rfl, le_rfl⟩),
        hread row B PS_KMER_SKIP (by decide) (by omega)
          (Or.inr ⟨rfl, le_rfl⟩)]
    rw [hend]
    have hB2 : B + 1 = num_blocks - 2 := by omega
    rw [endRowPaths, ← hB2]
    rw [msup_map_mul_mul hlp (hpost (row - 1))]
    rw [msup_add, msup_add]
    rw [paths_match_eq data transitions kmer_ranks e_start num_rows
        num_blocks init row (B + 1) hrow1 hrow2 (by omega) hB,
      paths_event_eq data transitions kmer_ranks e_start num_rows
        num_blocks init row (B + 1) hrow1 hrow2 (by omega) hB,
      paths_kmer_eq data transitions kmer_ranks e_start num_rows
        num_blocks init row (B + 1) hrow1 hrow2 (by omega) hB]
    rw [show B + 1 - 1 = B from rfl]
    rw [msup_map_mul (hW.match_nonneg _ _), msup_add, msup_add,
      msup_map_mul hmm, msup_map_mul hem, msup_map_mul hkm,
      msup_map_mul (hW.insert_nonneg _ _), msup_add,
      msup_map_mul hme, msup_map_mul hee,
      msup_add, msup_map_mul hmk, msup_map_mul hkk]
    rw [mul_max_of_nonneg _ _ hlp, max_mul_of_nonneg _ _ (hpost (row - 1)),
      mul_max_of_nonneg _ _ hlp, max_mul_of_nonneg _ _ (hpost (row - 1))]
    simp only [LogF.max_prob, LogF.add_prob, negInf_prob, log_prob,
      max_self]
    rw [max_eq_left (mul_nonneg hkm (msup_nonneg _)),
      max_eq_left (le_trans (mul_nonneg hme (msup_nonneg _))
        (le_max_left _ _)),
      max_eq_left (mul_nonneg hmk (msup_nonneg _)),
      max_eq_left (mul_nonneg hkk (msup_nonneg _))]
    rw [max_fold4]
    ring_nf
  · rw [if_neg hfire, if_neg (show ¬(B + 1 = num_blocks - 2) by omega)]
    simp only [viterbiOutput, viterbi_update_4_lp_end]
    exact hend

theorem vitSpec_init (data : HMMInputData)
    (transitions : List BlockTransitions) (kmer_ranks : List ℕ)
    (e_start num_rows num_blocks : ℕ) (init : ℕ → ℕ → LogF) (r c : ℕ) :
    vitSpec data transitions kmer_ranks e_start num_rows num_blocks init
      1 0 r c = init r c := by
  rw [vitSpec, if_neg]
  intro hcond
  obtain ⟨a1, a2, a3, a4⟩ := hcond
  omega

theorem vitSpec_roll (data : HMMInputData)
    (transitions : List BlockTransitions) (kmer_ranks : List ℕ)
    (e_start num_rows num_blocks : ℕ) (init : ℕ → ℕ → LogF) (R r c : ℕ) :
    vitSpec data transitions kmer_ranks e_start num_rows num_blocks init
        R (num_blocks - 2) r c =
      vitSpec data transitions kmer_ranks e_start num_rows num_blocks init
        (R + 1) 0 r c := by
  rw [vitSpec, vitSpec]
  refine if_congr ?_ rfl rfl
  constructor
  · intro hcond
    obtain ⟨a1, a2, a3, a4⟩ := hcond
    exact ⟨a1, a2, a3, by omega⟩
  · intro hcond
    obtain ⟨a1, a2, a3, a4⟩ := hcond
    exact ⟨a1, a2, a3, by omega⟩

theorem localSweep_row_viterbi (data : HMMInputData)
    (transitions : List BlockTransitions) (kmer_ranks : List ℕ)
    (post_flank : List LogF) (lp_ms : LogF)
    (last_kmer_idx e_start num_rows num_blocks : ℕ) (init : ℕ → ℕ → LogF)
    (row : ℕ) (hW : WFInput data)
    (htrans : ∀ bt ∈ transitions, BlockTransitionsNonneg bt)
    (hinit : ∀ r c, 0 ≤ (init r c).prob)
    (hlp : 0 ≤ lp_ms.prob)
    (hpost : ∀ i, 0 ≤ (post_flank.getD i LogF.negInf).prob)
    (h3 : 3 ≤ num_blocks) (hlast : last_kmer_idx = num_blocks - 3)
    (hrow1 : 1 ≤ row) (hrow2 : row ≤ num_rows - 1) :
    ∀ B, B ≤ num_blocks - 2 → ∀ (s : ProfileHMMViterbiOutput) (E : ℚ),
    (∀ r c, s.p_fm.data r c = vitSpec data transitions kmer_ranks e_start
      num_rows num_blocks init row 0 r c) →
    s.lp_end.prob = E →
    (∀ r c, (forUpTo (fun block s' => fillBlockLocal viterbiOutput data
        transitions kmer_ranks post_flank lp_ms last_kmer_idx e_start row
        block s') B s).p_fm.data r c =
      vitSpec data transitions kmer_ranks e_start num_rows num_blocks init
        row B r c) ∧
    (forUpTo (fun block s' => fillBlockLocal viterbiOutput data transitions
        kmer_ranks post_flank lp_ms last_kmer_idx e_start row block s')
        B s).lp_end.prob =
      (if num_blocks - 2 ≤ B then
        Max.max E (msup (endRowPaths data transitions kmer_ranks e_start
          num_rows num_blocks init post_flank lp_ms row))
      else E) := by
  intro B
  induction B with
  | zero =>
    intro hB0 s E hdata hend
    constructor
    · intro r c
      exact hdata r c
    · rw [if_neg (by omega)]
      exact hend
  | succ B ih =>
    intro hB1 s E hdata hend
    have prev := ih (by omega) s E hdata hend
    have hend' : (forUpTo (fun block s' => fillBlockLocal viterbiOutput data
        transitions kmer_ranks post_flank lp_ms last_kmer_idx e_start row
        block s') B s).lp_end.prob = E := by
      rw [prev.2, if_neg (by omega)]
    have hmat := fillBlockLocal_viterbi_mat data transitions kmer_ranks
      post_flank lp_ms last_kmer_idx e_start num_rows num_blocks row B _
      init hW htrans hinit hrow1 hrow2 hB1 prev.1
    have hendL := fillBlockLocal_viterbi_end data transitions kmer_ranks
      post_flank lp_ms last_kmer_idx e_start num_rows num_blocks row B _
      init E hW htrans hinit hlp hpost h3 hlast hrow1 hrow2 hB1 prev.1 hend'
    rw [forUpTo]
    refine ⟨hmat, ?_⟩
    rw [hendL]
    by_cases hfin : B + 1 = num_blocks - 2
    · rw [if_pos hfin, if_pos (by omega)]
    · rw [if_neg hfin, if_neg (by omega)]

theorem localSweep_viterbi_spec (data : HMMInputData)
    (transitions : List BlockTransitions) (kmer_ranks : List ℕ)
    (post_flank : List LogF) (lp_ms : LogF)
    (last_kmer_idx e_start num_rows num_blocks : ℕ) (init : ℕ → ℕ → LogF)
    (s₀ : ProfileHMMViterbiOutput) (E₀ : ℚ) (hW : WFInput data)
    (htrans : ∀ bt ∈ transitions, BlockTransitionsNonneg bt)
    (hinit : ∀ r c, 0 ≤ (init r c).prob)
    (hlp : 0 ≤ lp_ms.prob)
    (hpost : ∀ i, 0 ≤ (post_flank.getD i LogF.negInf).prob)
    (h3 : 3 ≤ num_blocks) (hlast : last_kmer_idx = num_blocks - 3)
    (hdata : ∀ r c, s₀.p_fm.data r c = init r c)
    (hend : s₀.lp_end.prob = E₀) (hE₀ : 0 ≤ E₀) :
    ∀ R, R ≤ num_rows - 1 →
    (∀ r c, (forUpTo (fun row s => forUpTo (fun block s' =>
        fillBlockLocal viterbiOutput data transitions kmer_ranks post_flank
          lp_ms last_kmer_idx e_start row block s') (num_blocks - 2) s)
        R s₀).p_fm.data r c =
      vitSpec data transitions kmer_ranks e_start num_rows num_blocks init
        (R + 1) 0 r c) ∧
    (forUpTo (fun row s => forUpTo (fun block s' =>
        fillBlockLocal viterbiOutput data transitions kmer_ranks post_flank
          lp_ms last_kmer_idx e_start row block s') (num_blocks - 2) s)
        R s₀).lp_end.prob =
      Max.max E₀ (msup (endPathsUpTo data transitions kmer_ranks e_start
        num_rows num_blocks init post_flank lp_ms R)) := by
  intro R
  induction R with
  | zero =>
    intro hR0
    constructor
    · intro r c
      rw [vitSpec_init]
      exact hdata r c
    · rw [endPathsUpTo, msup_zero, max_eq_left hE₀]
      exact hend
  | succ R ih =>
    intro hR1
    have prev := ih (by omega)
    have hrow := localSweep_row_viterbi data transitions kmer_ranks
      post_flank lp_ms last_kmer_idx e_start num_rows num_blocks init
      (R + 1) hW htrans hinit hlp hpost h3 hlast (by omega) hR1
      (num_blocks - 2) le_rfl _
      (Max.max E₀ (msup (endPathsUpTo data transitions kmer_ranks e_start
        num_rows num_blocks init post_flank lp_ms R))) prev.1 prev.2
    rw [forUpTo]
    constructor
    · intro r c
      rw [hrow.1 r c, vitSpec_roll]
    · rw [hrow.2, if_pos le_rfl, endPathsUpTo, msup_add, max_assoc]

theorem pathsF_nonneg (data : HMMInputData)
    (transitions : List BlockTransitions) (kmer_ranks : List ℕ)
    (e_start num_rows num_blocks : ℕ) (init : ℕ → ℕ → LogF)
    (hW : WFInput data)
    (htrans : ∀ bt ∈ transitions, BlockTransitionsNonneg bt)
    (hinit : ∀ r c, 0 ≤ (init r c).prob) :
    ∀ fuel row b st x, x ∈ pathsF data transitions kmer_ranks e_start
      num_rows num_blocks init fuel row b st → 0 ≤ x := by
  intro fuel
  induction fuel with
  | zero =>
    intro row b st x hx
    rw [pathsF, Multiset.mem_singleton] at hx
    subst hx
    exact hinit _ _
  | succ f ih =>
    intro row b st x hx
    obtain ⟨hme, hmk, hmm, hee, hem, hkk, hkm⟩ :=
      getD_transitions_nonneg htrans (b - 1)
    rw [pathsF] at hx
    by_cases hreg : 1 ≤ row ∧ row ≤ num_rows - 1 ∧ 1 ≤ b ∧
        b ≤ num_blocks - 2
    · rw [if_pos hreg] at hx
      try simp only [] at hx
      by_cases hst : st = PS_MATCH
      · rw [if_pos hst] at hx
        obtain ⟨y, hy, rfl⟩ := Multiset.mem_map.mp hx
        refine mul_nonneg (hW.match_nonneg _ _) ?_
        rcases Multiset.mem_add.mp hy with hy' | hy'
        · rcases Multiset.mem_add.mp hy' with hy'' | hy''
          · obtain ⟨z, hz, rfl⟩ := Multiset.mem_map.mp hy''
            exact mul_nonneg hmm (ih _ _ _ _ hz)
          · obtain ⟨z, hz, rfl⟩ := Multiset.mem_map.mp hy''
            exact mul_nonneg hem (ih _ _ _ _ hz)
        · obtain ⟨z, hz, rfl⟩ := Multiset.mem_map.mp hy'
          exact mul_nonneg hkm (ih _ _ _ _ hz)
      · rw [if_neg hst] at hx
        by_cases hst' : st = PS_EVENT_SPLIT
        · rw [if_pos hst'] at hx
          obtain ⟨y, hy, rfl⟩ := Multiset.mem_map.mp hx
          refine mul_nonneg (hW.insert_nonneg _ _) ?_
          rcases Multiset.mem_add.mp hy with hy' | hy'
          · obtain ⟨z, hz, rfl⟩ := Multiset.mem_map.mp hy'
            exact mul_nonneg hme (ih _ _ _ _ hz)
          · obtain ⟨z, hz, rfl⟩ := Multiset.mem_map.mp hy'
            exact mul_nonneg hee (ih _ _ _ _ hz)
        · rw [if_neg hst'] at hx
          rcases Multiset.mem_add.mp hx with hy' | hy'
          · obtain ⟨z, hz, rfl⟩ := Multiset.mem_map.mp hy'
            exact mul_nonneg hmk (ih _ _ _ _ hz)
          · obtain ⟨z, hz, rfl⟩ := Multiset.mem_map.mp hy'
            exact mul_nonneg hkk (ih _ _ _ _ hz)
    · rw [if_neg hreg, Multiset.mem_singleton] at hx
      subst hx
      exact hinit _ _

theorem paths_nonneg (data : HMMInputData)
    (transitions : List BlockTransitions) (kmer_ranks : List ℕ)
    (e_start num_rows num_blocks : ℕ) (init : ℕ → ℕ → LogF)
    (hW : WFInput data)
    (htrans : ∀ bt ∈ transitions, BlockTransitionsNonneg bt)
    (hinit : ∀ r c, 0 ≤ (init r c).prob) (row b st : ℕ) :
    ∀ x ∈ paths data transitions kmer_ranks e_start num_rows num_blocks
      init row b st, 0 ≤ x := fun x hx =>
  pathsF_nonneg data transitions kmer_ranks e_start num_rows num_blocks
    init hW htrans hinit _ row b st x hx

theorem endPathsUpTo_nonneg (data : HMMInputData)
    (transitions : List BlockTransitions) (kmer_ranks : List ℕ)
    (e_start num_rows num_blocks : ℕ) (init : ℕ → ℕ → LogF)
    (post_flank : List LogF) (lp_ms : LogF)
    (hW : WFInput data)
    (htrans : ∀ bt ∈ transitions, BlockTransitionsNonneg bt)
    (hinit : ∀ r c, 0 ≤ (init r c).prob)
    (hlp : 0 ≤ lp_ms.prob)
    (hpost : ∀ i, 0 ≤ (post_flank.getD i LogF.negInf).prob) :
    ∀ R x, x ∈ endPathsUpTo data transitions kmer_ranks e_start num_rows
      num_blocks init post_flank lp_ms R → 0 ≤ x := by
  intro R
  induction R with
  | zero =>
    intro x hx
    rw [endPathsUpTo] at hx
    exact absurd hx (Multiset.not_mem_zero x)
  | succ R ih =>
    intro x hx
    rw [endPathsUpTo] at hx
    rcases Multiset.mem_add.mp hx with hy | hy
    · exact ih x hy
    · rw [endRowPaths] at hy
      obtain ⟨y, hy', rfl⟩ := Multiset.mem_map.mp hy
      refine mul_nonneg (mul_nonneg hlp ?_) (hpost _)
      rcases Multiset.mem_add.mp hy' with hz | hz
      · rcases Multiset.mem_add.mp hz with hz' | hz'
        · exact paths_nonneg data transitions kmer_ranks e_start num_rows
            num_blocks init hW htrans hinit _ _ _ y hz'
        · exact paths_nonneg data transitions kmer_ranks e_start num_rows
            num_blocks init hW htrans hinit _ _ _ y hz'
      · exact paths_nonneg data transitions kmer_ranks e_start num_rows
          num_blocks init hW htrans hinit _ _ _ y hz

theorem endPaths_nonneg (data : HMMInputData)
    (transitions : List BlockTransitions) (kmer_ranks : List ℕ)
    (e_start num_rows num_blocks : ℕ) (init : ℕ → ℕ → LogF)
    (post_flank : List LogF) (lp_ms : LogF)
    (hW : WFInput data)
    (htrans : ∀ bt ∈ transitions, BlockTransitionsNonneg bt)
    (hinit : ∀ r c, 0 ≤ (init r c).prob)
    (hlp : 0 ≤ lp_ms.prob)
    (hpost : ∀ i, 0 ≤ (post_flank.getD i LogF.negInf).prob) :
    ∀ x ∈ endPaths data transitions kmer_ranks e_start num_rows num_blocks
      init post_flank lp_ms, 0 ≤ x := fun x hx =>
  endPathsUpTo_nonneg data transitions kmer_ranks e_start num_rows
    num_blocks init post_flank lp_ms hW htrans hinit hlp hpost _ x hx

theorem local_fill_forward_score (sequence : List Char)
    (data : HMMInputData) (e_start : ℕ) (fm : FloatMatrix)
    (resF : LogF × ProfileHMMForwardOutput) (pre post : List LogF)
    (h3 : 3 ≤ fm.n_cols / PS_NUM_STATES)
    (hpre : make_pre_flanking data data.parameters e_start
      (fm.n_rows - 1) = some pre)
    (hpost : make_post_flanking data data.parameters e_start
      (fm.n_rows - 1) = some post)
    (hres : profile_hmm_fill_generic_local forwardOutput sequence data
      e_start (mkForwardOutput fm) = some resF) :
    resF.1.prob =
      (endPaths data
        (calculate_transitions (fm.n_cols / PS_NUM_STATES - 2) sequence data)
        ((List.range (fm.n_cols / PS_NUM_STATES - 2)).map
          (data.get_rank sequence))
        e_start fm.n_rows (fm.n_cols / PS_NUM_STATES) fm.data post
        (log (1 / ((fm.n_cols / PS_NUM_STATES - 2 : ℕ) : ℚ)))).sum := by
  rw [profile_hmm_fill_generic_local] at hres
  try simp only [] at hres
  rw [show forwardOutput.get_num_rows (mkForwardOutput fm) = fm.n_rows
    from rfl] at hres
  rw [show forwardOutput.get_num_columns (mkForwardOutput fm) = fm.n_cols
    from rfl] at hres
  rw [hpre] at hres
  try simp only [] at hres
  rw [hpost] at hres
  try simp only [] at hres
  have hres' := Option.some.inj hres
  have hspec := (localSweep_forward_spec data
    (calculate_transitions (fm.n_cols / PS_NUM_STATES - 2) sequence data)
    ((List.range (fm.n_cols / PS_NUM_STATES - 2)).map
      (data.get_rank sequence))
    post (log (1 / ((fm.n_cols / PS_NUM_STATES - 2 : ℕ) : ℚ)))
    (fm.n_cols / PS_NUM_STATES - 2 - 1) e_start fm.n_rows
    (fm.n_cols / PS_NUM_STATES) fm.data (mkForwardOutput fm) 0 h3
    (by omega) (fun r c => rfl) rfl (fm.n_rows - 1) le_rfl).2
  rw [← hres']
  show (localSweep forwardOutput data _ _ post _ _ e_start fm.n_rows
    (fm.n_cols / PS_NUM_STATES) (mkForwardOutput fm)).lp_end.prob = _
  rw [localSweep]
  rw [hspec, zero_add, endPaths]

theorem local_fill_viterbi_score (sequence : List Char)
    (data : HMMInputData) (e_start : ℕ) (fm : FloatMatrix)
    (bm : UInt8Matrix) (r₀ c₀ : ℕ)
    (resV : LogF × ProfileHMMViterbiOutput) (pre post : List LogF)
    (hW : WFInput data)
    (hinit : ∀ r c, 0 ≤ (fm.data r c).prob)
    (hpostnn : ∀ i, 0 ≤ (post.getD i LogF.negInf).prob)
    (h3 : 3 ≤ fm.n_cols / PS_NUM_STATES)
    (hpre : make_pre_flanking data data.parameters e_start
      (fm.n_rows - 1) = some pre)
    (hpost : make_post_flanking data data.parameters e_start
      (fm.n_rows - 1) = some post)
    (hres : profile_hmm_fill_generic_local viterbiOutput sequence data
      e_start (mkViterbiOutput fm bm r₀ c₀) = some resV) :
    resV.1.prob =
      msup (endPaths data
        (calculate_transitions (fm.n_cols / PS_NUM_STATES - 2) sequence data)
        ((List.range (fm.n_cols / PS_NUM_STATES - 2)).map
          (data.get_rank sequence))
        e_start fm.n_rows (fm.n_cols / PS_NUM_STATES) fm.data post
        (log (1 / ((fm.n_cols / PS_NUM_STATES - 2 : ℕ) : ℚ)))) := by
  rw [profile_hmm_fill_generic_local] at hres
  try simp only [] at hres
  rw [show viterbiOutput.get_num_rows (mkViterbiOutput fm bm r₀ c₀) =
    fm.n_rows from rfl] at hres
  rw [show viterbiOutput.get_num_columns (mkViterbiOutput fm bm r₀ c₀) =
    fm.n_cols from rfl] at hres
  rw [hpre] at hres
  try simp only [] at hres
  rw [hpost] at hres
  try simp only [] at hres
  have hres' := Option.some.inj hres
  have hspec := (localSweep_viterbi_spec data
    (calculate_transitions (fm.n_cols / PS_NUM_STATES - 2) sequence data)
    ((List.range (fm.n_cols / PS_NUM_STATES - 2)).map
      (data.get_rank sequence))
    post (log (1 / ((fm.n_cols / PS_NUM_STATES - 2 : ℕ) : ℚ)))
    (fm.n_cols / PS_NUM_STATES - 2 - 1) e_start fm.n_rows
    (fm.n_cols / PS_NUM_STATES) fm.data (mkViterbiOutput fm bm r₀ c₀) 0 hW
    (calculate_transitions_nonneg (fm.n_cols / PS_NUM_STATES - 2)
      sequence data hW)
    hinit
    (by
      rw [log_prob]
      exact one_div_nonneg.mpr (Nat.cast_nonneg _))
    hpostnn h3 (by omega) (fun r c => rfl) rfl le_rfl
    (fm.n_rows - 1) le_rfl).2
  rw [← hres']
  show (localSweep viterbiOutput data _ _ post _ _ e_start fm.n_rows
    (fm.n_cols / PS_NUM_STATES) (mkViterbiOutput fm bm r₀ c₀)).lp_end.prob = _
  rw [localSweep]
  rw [hspec, endPaths, max_eq_right (msup_nonneg _)]

/-- C1 (corrected): for one input bundle and identically shaped,
identically initialized lattices, the Forward end score dominates the
Viterbi end score, and the two coincide exactly when AT MOST ONE complete
alignment path carries non-zero probability (not "exactly one": when no
path has non-zero probability both scores are the log-domain zero). -/
theorem forward_viterbi_score_relation
    (sequence : List Char) (data : HMMInputData) (e_start : ℕ)
    (fm : FloatMatrix) (bm : UInt8Matrix) (r₀ c₀ : ℕ)
    (resF : LogF × ProfileHMMForwardOutput)
    (resV : LogF × ProfileHMMViterbiOutput) (pre post : List LogF)
    (hW : WFInput data)
    (hinit : ∀ r c, 0 ≤ (fm.data r c).prob)
    (hpostnn : ∀ i, 0 ≤ (post.getD i LogF.negInf).prob)
    (h3 : 3 ≤ fm.n_cols / PS_NUM_STATES)
    (hpre : make_pre_flanking data data.parameters e_start
      (fm.n_rows - 1) = some pre)
    (hpost : make_post_flanking data data.parameters e_start
      (fm.n_rows - 1) = some post)
    (hresF : profile_hmm_fill_generic_local forwardOutput sequence data
      e_start (mkForwardOutput fm) = some resF)
    (hresV : profile_hmm_fill_generic_local viterbiOutput sequence data
      e_start (mkViterbiOutput fm bm r₀ c₀) = some resV) :
    resV.1.prob ≤ resF.1.prob ∧
    (resF.1 = resV.1 ↔
      (endPaths data
        (calculate_transitions (fm.n_cols / PS_NUM_STATES - 2) sequence
          data)
        ((List.range (fm.n_cols / PS_NUM_STATES - 2)).map
          (data.get_rank sequence))
        e_start fm.n_rows (fm.n_cols / PS_NUM_STATES) fm.data post
        (log (1 / ((fm.n_cols / PS_NUM_STATES - 2 : ℕ) : ℚ)))).countP
        (fun x => x ≠ 0) ≤ 1) := by
  have hF := local_fill_forward_score sequence data e_start fm resF pre
    post h3 hpre hpost hresF
  have hV := local_fill_viterbi_score sequence data e_start fm bm r₀ c₀
    resV pre post hW hinit hpostnn h3 hpre hpost hresV
  have hnn := endPaths_nonneg data
    (calculate_transitions (fm.n_cols / PS_NUM_STATES - 2) sequence data)
    ((List.range (fm.n_cols / PS_NUM_STATES - 2)).map
      (data.get_rank sequence))
    e_start fm.n_rows (fm.n_cols / PS_NUM_STATES) fm.data post
    (log (1 / ((fm.n_cols / PS_NUM_STATES - 2 : ℕ) : ℚ))) hW
    (calculate_transitions_nonneg (fm.n_cols / PS_NUM_STATES - 2)
      sequence data hW)
    hinit
    (by
      rw [log_prob]
      exact one_div_nonneg.mpr (Nat.cast_nonneg _))
    hpostnn
  constructor
  · rw [hF, hV]
    exact msup_le_sum hnn
  · constructor
    · intro heq
      have hpq : resF.1.prob = resV.1.prob := by rw [heq]
      rw [hF, hV] at hpq
      exact (sum_eq_msup_iff hnn).mp hpq
    · intro hc
      refine LogF.ext' ?_
      rw [hF, hV]
      exact (sum_eq_msup_iff hnn).mpr hc

/-- On the all-zero lattice the Forward and Viterbi end scores coincide
while the number of non-zero-probability alignment paths is 0, not 1:
the "exactly one" reading of the equality condition fails. -/
theorem forward_viterbi_equality_counterexample :
    (((profile_hmm_fill_generic_local forwardOutput [] sampleData 0
        (mkForwardOutput fmZ)).map Prod.fst).getD (log 1)).prob =
    (((profile_hmm_fill_generic_local viterbiOutput [] sampleData 0
        (mkViterbiOutput fmZ bm3 0 0)).map Prod.fst).getD (log 1)).prob ∧
    (endPaths sampleData (calculate_transitions 1 [] sampleData)
      ((List.range 1).map (sampleData.get_rank [])) 0 3 3 fmZ.data
      ((make_post_flanking sampleData sampleData.parameters 0 2).getD [])
      (log (1 / ((1 : ℕ) : ℚ)))).countP (fun x => x ≠ 0) = 0 := by
  constructor
  · decide
  · decide

/-- Witness for C1 on the concrete 2-event/1-kmer bundle. -/
theorem forward_viterbi_score_relation_witness :
    (((profile_hmm_fill_generic_local viterbiOutput [] sampleData 0
        (mkViterbiOutput fm3 bm3 0 0)).getD
        (log 1, mkViterbiOutput fm3 bm3 0 0)).1.prob ≤
      ((profile_hmm_fill_generic_local forwardOutput [] sampleData 0
        (mkForwardOutput fm3)).getD (log 1, mkForwardOutput fm3)).1.prob) ∧
    (((profile_hmm_fill_generic_local forwardOutput [] sampleData 0
        (mkForwardOutput fm3)).getD (log 1, mkForwardOutput fm3)).1 =
      ((profile_hmm_fill_generic_local viterbiOutput [] sampleData 0
        (mkViterbiOutput fm3 bm3 0 0)).getD
        (log 1, mkViterbiOutput fm3 bm3 0 0)).1 ↔
      (endPaths sampleData
        (calculate_transitions (fm3.n_cols / PS_NUM_STATES - 2) []
          sampleData)
        ((List.range (fm3.n_cols / PS_NUM_STATES - 2)).map
          (sampleData.get_rank []))
        0 fm3.n_rows (fm3.n_cols / PS_NUM_STATES) fm3.data
        ((make_post_flanking sampleData sampleData.parameters 0
          (fm3.n_rows - 1)).getD [])
        (log (1 / ((fm3.n_cols / PS_NUM_STATES - 2 : ℕ) : ℚ)))).countP
        (fun x => x ≠ 0) ≤ 1) :=
  forward_viterbi_score_relation [] sampleData 0 fm3 bm3 0 0 _ _
    ((make_pre_flanking sampleData sampleData.parameters 0
      (fm3.n_rows - 1)).getD [])
    ((make_post_flanking sampleData sampleData.parameters 0
      (fm3.n_rows - 1)).getD [])
    sampleData_wf
    (fun r c => by
      show (0:ℚ) ≤ if r = 0 ∧ c = 0 then 1 else 0
      split <;> norm_num)
    (by
      intro i
      rcases i with _ | _ | n
      · decide
      · decide
      · rw [List.getD_eq_default _ _ (by
          rw [show ((make_post_flanking sampleData sampleData.parameters 0
            (fm3.n_rows - 1)).getD []).length = 2 from rfl]
          omega)]
        decide)
    (by decide)
    rfl rfl rfl rfl

end Nanopolish
